import Mathlib

/-!
# Line buffers, screen, selector and parser of the terminal core

A shallow embedding of `src/terminal/Line.cpp` (`Line<Cell>::reflow`,
`Line<Cell>::toUtf8`, `inflate`), of `src/vtpty/ImageSize.h` and of
`src/text_shaper/fontconfig_locator.cpp`, and models of the screen that
`src/terminal/Screen_test.cpp` tests, of the linear selection that
`src/vtbackend/Selector_test.cpp` tests and of the parser that
`src/vtparser/Parser_test.cpp` tests, together with the properties of these
that the specification states.

Conventions of the embedding:

* a `std::string` is a list of bytes (`List Nat`), a `char32_t` is a `Nat`;
* `ColumnCount` values are natural numbers;
* a member function that mutates its object returns the new object;
* `std::vector<Cell>` is `List Cell`; iterators are indices into the list;
* reaching undefined behaviour (`back()` of an empty vector) is `none`.
-/

namespace terminal

/-! ## Collaborators that are declared outside `Line.cpp` -/

/-- Result of feeding one byte to the UTF-8 decoder: the three alternatives of
`unicode::ConvertResult` that `inflate` distinguishes. -/
inductive ConvertResult where
  | Invalid : ConvertResult
  | Incomplete : ConvertResult
  | Success (value : Nat) : ConvertResult
deriving DecidableEq, Repr

/-- The functions of the Unicode library that `Line.cpp` calls. The library is
not part of the sources, so its functions are parameters of the embedding:
`sigma` is `unicode::utf8_decoder_state`, `init` its value-initialised state,
`from_utf8` the decoder step, `breakable` is
`unicode::grapheme_segmenter::breakable`, `width` is `unicode::width`,
`to_utf8` the encoder used by `Cell::toUtf8`, and `extendedWidth` the width
change that `Cell::appendCharacter` reports for a cell of the given width and
an appended codepoint. -/
structure Unicode (sigma : Type) where
  init : sigma
  from_utf8 : sigma → Nat → sigma × ConvertResult
  breakable : Nat → Nat → Bool
  width : Nat → Int
  to_utf8 : Nat → List Nat
  extendedWidth : Nat → Nat → Int

/-- Modelled from the spec: `GraphicsAttributes` (declared in
`terminal/GraphicsAttributes.h`, which is missing): foreground, background,
underline colour and the bitset of SGR flags. -/
structure GraphicsAttributes where
  foregroundColor : Nat
  backgroundColor : Nat
  underlineColor : Nat
  flags : Nat
deriving DecidableEq, Repr

/-- Modelled from the spec: the hyperlink handle attached to a cell, an id
into the hyperlink table; `0` is "no hyperlink". -/
abbrev HyperlinkId := Nat

/-- Modelled from the spec: `Cell` (the headers `terminal/cell/CompactCell.h`
and `terminal/cell/SimpleCell.h` are missing): an ordered sequence of
codepoints (none means empty), a width, the attributes and the hyperlink. -/
structure Cell where
  codepoints : List Nat
  width : Nat
  attributes : GraphicsAttributes
  hyperlink : HyperlinkId
deriving DecidableEq, Repr

namespace Cell

/-- Modelled from the spec: `Cell {}`, the default-constructed cell: no
codepoints, width 1, default attributes, no hyperlink. -/
def blank : Cell :=
  { codepoints := [], width := 1, attributes := ⟨0, 0, 0, 0⟩, hyperlink := 0 }

/-- Modelled from the spec: `Cell { attributes }`, an empty cell with the given
attributes. -/
def ofAttributes (attributes : GraphicsAttributes) : Cell :=
  { codepoints := [], width := 1, attributes := attributes, hyperlink := 0 }

/-- Modelled from the spec: `Cell { attributes, hyperlink }`, an empty cell with
the given attributes and hyperlink. -/
def ofAttributesHyperlink (attributes : GraphicsAttributes) (hyperlink : HyperlinkId) : Cell :=
  { codepoints := [], width := 1, attributes := attributes, hyperlink := hyperlink }

/-- Modelled from the spec: `Cell::codepointCount()`. -/
def codepointCount (c : Cell) : Nat := c.codepoints.length

/-- Modelled from the spec: `Cell::empty()`, a cell without codepoints. -/
def empty (c : Cell) : Bool := c.codepointCount == 0

/-- Modelled from the spec: `Cell::setHyperlink(hyperlink)`. -/
def setHyperlink (c : Cell) (hyperlink : HyperlinkId) : Cell :=
  { c with hyperlink := hyperlink }

/-- Modelled from the spec: `Cell::write(attrs, codepoint, width)`: the cell
holds exactly that codepoint, with that width and those attributes. -/
def write (c : Cell) (attributes : GraphicsAttributes) (codepoint : Nat) (width : Nat) : Cell :=
  { c with codepoints := [codepoint], width := width, attributes := attributes }

/-- Modelled from the spec: `Cell::appendCharacter(codepoint)`: the codepoint
joins the cell's grapheme cluster; the result is the cell and the extended
width that is reported. -/
def appendCharacter {sigma : Type} (U : Unicode sigma) (c : Cell) (codepoint : Nat) : Cell × Int :=
  let diff := U.extendedWidth c.width codepoint
  ({ c with codepoints := c.codepoints ++ [codepoint], width := (c.width + diff).toNat }, diff)

/-- Modelled from the spec: `Cell::toUtf8()`, the UTF-8 encoding of the cell's
codepoints, in order. -/
def toUtf8 {sigma : Type} (U : Unicode sigma) (c : Cell) : List Nat :=
  c.codepoints.flatMap U.to_utf8

end Cell

/-! ## Line storage -/

/-- Modelled from the spec: `TrivialLineBuffer` (declared in `terminal/Line.h`,
which is missing). -/
structure TrivialLineBuffer where
  displayWidth : Nat
  textAttributes : GraphicsAttributes
  fillAttributes : GraphicsAttributes
  hyperlink : HyperlinkId
  usedColumns : Nat
  text : List Nat
deriving DecidableEq, Repr

/-- `InflatedLineBuffer<Cell>`, a `std::vector<Cell>`. -/
abbrev InflatedBuffer := List Cell

/-- Modelled from the spec: the two representations a line holds. -/
inductive Storage where
  | trivial (buffer : TrivialLineBuffer) : Storage
  | inflated (buffer : InflatedBuffer) : Storage
deriving DecidableEq, Repr

/-- Modelled from the spec: `Line<Cell>` (declared in `terminal/Line.h`, which
is missing): the storage and the `wrappable` and `marked` flags. -/
structure Line where
  storage : Storage
  wrappable : Bool
  marked : Bool
deriving DecidableEq, Repr

/-- The byte of the space character. -/
def space : Nat := 32

/-- `ReplacementCharacter` of `inflate`. -/
def ReplacementCharacter : Nat := 0xFFFD

/-! ## `inflate` -/

/-- Appends `k` copies of `cell`, one `emplace_back` per iteration: the loops
`while (gapPending > 0)`, `for (int i = 1; i < n; ++i)` and
`while (columns.size() < displayWidth)` of `inflate`, with `k` the number of
iterations the loop makes. -/
def emplaceBackTimes (cell : Cell) : Nat → InflatedBuffer → InflatedBuffer
  | 0, columns => columns
  | k + 1, columns => emplaceBackTimes cell k (columns ++ [cell])

/-- The local variables of `inflate` that live across iterations of its loop
over the text. -/
structure InflateState (sigma : Type) where
  columns : InflatedBuffer
  lastChar : Nat
  utf8DecoderState : sigma
  gapPending : Int

/-- Replaces the last element of a vector: an assignment through
`columns.back()`. -/
def setBack (columns : InflatedBuffer) (cell : Cell) : InflatedBuffer :=
  columns.dropLast ++ [cell]

/-- The part of the loop body of `inflate` that runs once a codepoint
`nextChar` is complete. -/
def inflateChar {sigma : Type} (U : Unicode sigma) (input : TrivialLineBuffer)
    (st : InflateState sigma) (nextChar : Nat) : Option (InflateState sigma) :=
  if U.breakable st.lastChar nextChar then
    let columns := emplaceBackTimes
      (Cell.ofAttributesHyperlink input.textAttributes input.hyperlink) st.gapPending.toNat st.columns
    let charWidth := U.width nextChar
    let cell := ((Cell.blank).setHyperlink input.hyperlink).write
      input.textAttributes nextChar (charWidth % 256).toNat
    some { st with columns := columns ++ [cell], gapPending := charWidth - 1, lastChar := nextChar }
  else
    match st.columns.getLast? with
    | none => none
    | some prevCell =>
      let r := prevCell.appendCharacter U nextChar
      let columns := setBack st.columns r.1
      let extendedWidth := r.2
      if extendedWidth > 0 then
        let cellsAvailable : Int := (input.displayWidth : Int) - (columns.length : Int) + 1
        let n := min extendedWidth cellsAvailable
        let columns := emplaceBackTimes
          ((Cell.ofAttributes input.textAttributes).setHyperlink input.hyperlink) (n - 1).toNat columns
        some { st with columns := columns, lastChar := nextChar }
      else
        some { st with columns := columns, lastChar := nextChar }

/-- One iteration of the loop `for (char const ch: input.text.view())` of
`inflate`. -/
def inflateStep {sigma : Type} (U : Unicode sigma) (input : TrivialLineBuffer)
    (st : InflateState sigma) (ch : Nat) : Option (InflateState sigma) :=
  let r := U.from_utf8 st.utf8DecoderState ch
  let st := { st with utf8DecoderState := r.1 }
  match r.2 with
  | ConvertResult.Incomplete => some st
  | ConvertResult.Success value => inflateChar U input st value
  | ConvertResult.Invalid => inflateChar U input st ReplacementCharacter

/-- The loop of `inflate` over the bytes of the text. -/
def inflateLoop {sigma : Type} (U : Unicode sigma) (input : TrivialLineBuffer) :
    List Nat → InflateState sigma → Option (InflateState sigma)
  | [], st => some st
  | ch :: rest, st =>
    match inflateStep U input st ch with
    | none => none
    | some st => inflateLoop U input rest st

/-- The cells `inflate` has produced when it reaches its
`assert(columns.size() == usedColumns)`: the text loop followed by the flush of
the pending gap. -/
def inflateText {sigma : Type} (U : Unicode sigma) (input : TrivialLineBuffer) :
    Option InflatedBuffer :=
  match inflateLoop U input input.text
      { columns := [], lastChar := 0, utf8DecoderState := U.init, gapPending := 0 } with
  | none => none
  | some st =>
    some (emplaceBackTimes
      (Cell.ofAttributesHyperlink input.textAttributes input.hyperlink) st.gapPending.toNat st.columns)

/-- The function `inflate(input, cellPool)`: the cells of the text, padded with
`Cell { fillAttributes }` up to `displayWidth`. -/
def inflate {sigma : Type} (U : Unicode sigma) (input : TrivialLineBuffer) : Option InflatedBuffer :=
  match inflateText U input with
  | none => none
  | some columns =>
    some (emplaceBackTimes (Cell.ofAttributes input.fillAttributes)
      (input.displayWidth - columns.length) columns)

/-! ## `Line` members -/

namespace Line

/-- Modelled from the spec: `Line::inflatedBuffer()` (defined in
`terminal/Line.h`, which is missing): conversion is lazy, so a trivial line is
inflated on first access. -/
def inflatedBuffer {sigma : Type} (U : Unicode sigma) (line : Line) : Option InflatedBuffer :=
  match line.storage with
  | Storage.trivial t => inflate U t
  | Storage.inflated b => some b

/-- Modelled from the spec: `Line::size()` (defined in `terminal/Line.h`, which
is missing): `displayWidth` of a trivial line, the number of cells of an
inflated one. -/
def size (line : Line) : Nat :=
  match line.storage with
  | Storage.trivial t => t.displayWidth
  | Storage.inflated b => b.length

/-- The call `std::vector<Cell>::resize(n)`. -/
def vectorResize (buffer : InflatedBuffer) (n : Nat) : InflatedBuffer :=
  buffer.take n ++ List.replicate (n - buffer.length) Cell.blank

/-- The loop `while (reflowEnd != reflowStart && prev(reflowEnd)->empty())
reflowEnd = prev(reflowEnd);` of `reflow`, on the index `reflowEnd`. -/
def reflowEndLoop (buffer : InflatedBuffer) (reflowStart : Nat) : Nat → Nat
  | 0 => 0
  | e + 1 =>
    if e + 1 ≠ reflowStart ∧ (buffer.getD e Cell.blank).empty = true then
      reflowEndLoop buffer reflowStart e
    else e + 1

/-- The second `switch` of `reflow`, on the inflated buffer. -/
def reflowInflated (line : Line) (buffer : InflatedBuffer) (newColumnCount : Nat) :
    Line × InflatedBuffer :=
  match compare newColumnCount buffer.length with
  | Ordering.eq => ({ line with storage := Storage.inflated buffer }, [])
  | Ordering.gt =>
    ({ line with storage := Storage.inflated (vectorResize buffer newColumnCount) }, [])
  | Ordering.lt =>
    if line.wrappable then
      let reflowStart := newColumnCount
      let reflowEnd := reflowEndLoop buffer reflowStart buffer.length
      let removedColumns := (buffer.take reflowEnd).drop reflowStart
      ({ line with storage := Storage.inflated (buffer.take reflowStart) }, removedColumns)
    else
      ({ line with storage := Storage.inflated (vectorResize buffer newColumnCount) }, [])

/-- The member `Line<Cell>::reflow(newColumnCount)`: the line afterwards and the
returned buffer. -/
def reflow {sigma : Type} (U : Unicode sigma) (line : Line) (newColumnCount : Nat) :
    Option (Line × InflatedBuffer) :=
  let onInflated : Option (Line × InflatedBuffer) :=
    match line.inflatedBuffer U with
    | none => none
    | some buffer => some (reflowInflated line buffer newColumnCount)
  match line.storage with
  | Storage.trivial t =>
    match compare newColumnCount t.text.length with
    | Ordering.gt =>
      some ({ line with storage := Storage.trivial { t with displayWidth := newColumnCount } }, [])
    | Ordering.eq => some (line, [])
    | Ordering.lt => onInflated
  | Storage.inflated _ => onInflated

/-- The loop `for (Cell const& cell: inflatedBuffer())` of `toUtf8`, appending
to `str`. -/
def toUtf8Loop {sigma : Type} (U : Unicode sigma) : InflatedBuffer → List Nat → List Nat
  | [], str => str
  | cell :: rest, str =>
    if cell.codepointCount = 0 then toUtf8Loop U rest (str ++ [space])
    else toUtf8Loop U rest (str ++ cell.toUtf8 U)

/-- The loop `for (auto i = usedColumns; i < displayWidth; ++i) str += ' ';` of
`toUtf8`, with `k` the number of iterations. -/
def appendSpaces : Nat → List Nat → List Nat
  | 0, str => str
  | k + 1, str => appendSpaces k (str ++ [space])

/-- The trivial branch of `Line<Cell>::toUtf8()`. -/
def toUtf8Trivial (lineBuffer : TrivialLineBuffer) : List Nat :=
  appendSpaces (lineBuffer.displayWidth - lineBuffer.usedColumns) lineBuffer.text

/-- The inflated branch of `Line<Cell>::toUtf8()`. -/
def toUtf8Inflated {sigma : Type} (U : Unicode sigma) (buffer : InflatedBuffer) : List Nat :=
  toUtf8Loop U buffer []

/-- The member `Line<Cell>::toUtf8()`. -/
def toUtf8 {sigma : Type} (U : Unicode sigma) (line : Line) : List Nat :=
  match line.storage with
  | Storage.trivial lineBuffer => toUtf8Trivial lineBuffer
  | Storage.inflated buffer => toUtf8Inflated U buffer

end Line

/-! ## A concrete instance of the library functions

Used to evaluate the definitions above on sample inputs. -/

/-- The fields of `unicode::utf8_decoder_state`. -/
structure utf8_decoder_state where
  character : Nat
  expectedLength : Nat
  currentLength : Nat
deriving DecidableEq, Repr

/-- A UTF-8 decoder step: a lead byte announces the length of its sequence,
every further byte contributes six bits, and a byte that cannot start a
sequence is invalid. -/
def sample_from_utf8 (state : utf8_decoder_state) (byte : Nat) :
    utf8_decoder_state × ConvertResult :=
  if state.expectedLength = 0 then
    if byte < 0x80 then
      ({ state with currentLength := 1 }, ConvertResult.Success byte)
    else if byte / 32 = 6 then
      ({ character := byte % 32, expectedLength := 2, currentLength := 1 }, ConvertResult.Incomplete)
    else if byte / 16 = 14 then
      ({ character := byte % 16, expectedLength := 3, currentLength := 1 }, ConvertResult.Incomplete)
    else if byte / 8 = 30 then
      ({ character := byte % 8, expectedLength := 4, currentLength := 1 }, ConvertResult.Incomplete)
    else
      ({ state with currentLength := 1 }, ConvertResult.Invalid)
  else
    let character := state.character * 64 + byte % 64
    if state.currentLength + 1 < state.expectedLength then
      ({ state with character := character, currentLength := state.currentLength + 1 },
        ConvertResult.Incomplete)
    else
      ({ character := character, expectedLength := 0, currentLength := state.currentLength + 1 },
        ConvertResult.Success character)

/-- The UTF-8 encoding of a codepoint. -/
def sample_to_utf8 (c : Nat) : List Nat :=
  if c < 0x80 then [c]
  else if c < 0x800 then [0xC0 + c / 64, 0x80 + c % 64]
  else if c < 0x10000 then [0xE0 + c / 4096, 0x80 + c / 64 % 64, 0x80 + c % 64]
  else [0xF0 + c / 262144, 0x80 + c / 4096 % 64, 0x80 + c / 64 % 64, 0x80 + c % 64]

/-- Display width on the sample ranges: combining diacritical marks have width
0, CJK ideographs, Hangul syllables and fullwidth forms have width 2, every
other codepoint has width 1. -/
def sample_width (c : Nat) : Int :=
  if 0x300 ≤ c ∧ c ≤ 0x36F then 0
  else if (0x2E80 ≤ c ∧ c ≤ 0xA4CF) ∨ (0xAC00 ≤ c ∧ c ≤ 0xD7A3) ∨ (0xFF01 ≤ c ∧ c ≤ 0xFF60) then 2
  else 1

/-- Grapheme break on the sample ranges: no break between CR and LF and none
before a combining diacritical mark. -/
def sample_breakable (a b : Nat) : Bool :=
  !((a == 13 && b == 10) || (decide (0x300 ≤ b) && decide (b ≤ 0x36F)))

/-- The sample instance of the library functions. -/
def sampleUnicode : Unicode utf8_decoder_state :=
  { init := { character := 0, expectedLength := 0, currentLength := 0 }
    from_utf8 := sample_from_utf8
    breakable := sample_breakable
    width := sample_width
    to_utf8 := sample_to_utf8
    extendedWidth := fun _ _ => 0 }

/-- Attributes used in sample inputs. -/
def sampleText : GraphicsAttributes := ⟨1, 2, 3, 4⟩

/-- Fill attributes used in sample inputs. -/
def sampleFill : GraphicsAttributes := ⟨5, 6, 7, 8⟩

/-- A narrow cell holding one codepoint. -/
def sampleCell (codepoint : Nat) : Cell :=
  Cell.blank.write sampleText codepoint 1

/-- The cells `A B _ C _ _`. -/
def sampleCells : InflatedBuffer :=
  [sampleCell 65, sampleCell 66, Cell.blank, sampleCell 67, Cell.blank, Cell.blank]

/-- An inflated wrappable line holding `sampleCells`. -/
def sampleLine : Line :=
  { storage := Storage.inflated sampleCells, wrappable := true, marked := false }

/-- An inflated line holding `sampleCells` that is not wrappable. -/
def sampleFixedLine : Line :=
  { storage := Storage.inflated sampleCells, wrappable := false, marked := false }

/-- A trivial buffer holding `AB` in a line of five columns. -/
def sampleTrivial : TrivialLineBuffer :=
  { displayWidth := 5, textAttributes := sampleText, fillAttributes := sampleFill,
    hyperlink := 7, usedColumns := 2, text := [65, 66] }

/-- A wrappable line in trivial form holding `sampleTrivial`. -/
def sampleTrivialLine : Line :=
  { storage := Storage.trivial sampleTrivial, wrappable := true, marked := false }

/-- A wide cell: the ideograph U+4E2D with width 2. -/
def sampleWideCell : Cell :=
  Cell.blank.write sampleText 0x4E2D 2

/-- The continuation cell that follows a wide cell. -/
def sampleContinuation : Cell :=
  Cell.ofAttributesHyperlink sampleText 0

/-- An inflated wrappable line `A W~ B`, the wide cell `W` at index 1 and its
continuation at index 2. -/
def sampleWideLine : Line :=
  { storage := Storage.inflated [sampleCell 65, sampleWideCell, sampleContinuation, sampleCell 66],
    wrappable := true, marked := false }

/-- A trivial buffer holding the wide ideograph U+4E2D (three bytes of UTF-8,
two columns) in a line of three columns. -/
def sampleWideTrivial : TrivialLineBuffer :=
  { displayWidth := 3, textAttributes := sampleText, fillAttributes := sampleFill,
    hyperlink := 7, usedColumns := 2, text := [0xE4, 0xB8, 0xAD] }

/-- A trivial buffer whose text is the single byte `0xFF`, which is not UTF-8,
in a line of two columns. -/
def sampleInvalidTrivial : TrivialLineBuffer :=
  { displayWidth := 2, textAttributes := sampleText, fillAttributes := sampleFill,
    hyperlink := 7, usedColumns := 1, text := [0xFF] }

/-- The codepoints `nextChar` that the loop of `inflate` hands to its body when
it reads `text` with the decoder in `state`: nothing for a byte the decoder
reports as incomplete, the decoded value on success and `ReplacementCharacter`
for an invalid byte. -/
def decodeText {sigma : Type} (U : Unicode sigma) : sigma → List Nat → List Nat
  | _, [] => []
  | state, ch :: rest =>
    match (U.from_utf8 state ch).2 with
    | ConvertResult.Incomplete => decodeText U (U.from_utf8 state ch).1 rest
    | ConvertResult.Success value => value :: decodeText U (U.from_utf8 state ch).1 rest
    | ConvertResult.Invalid => ReplacementCharacter :: decodeText U (U.from_utf8 state ch).1 rest

/-- The text attributes and the hyperlink of the trivial buffer `input` are
those of every cell of `columns`. -/
def carriesText (input : TrivialLineBuffer) (columns : InflatedBuffer) : Prop :=
  ∀ x ∈ columns, x.attributes = input.textAttributes ∧ x.hyperlink = input.hyperlink

/-- The codepoints stored in `columns`, encoded in order. -/
def storedText {sigma : Type} (U : Unicode sigma) (columns : InflatedBuffer) : List Nat :=
  columns.flatMap (Cell.toUtf8 U)

/-- What one cell contributes to the rendering of an inflated line: a single
space when it has no codepoints, its own UTF-8 otherwise. -/
def Line.renderCell {sigma : Type} (U : Unicode sigma) (cell : Cell) : List Nat :=
  if cell.codepointCount = 0 then [space] else cell.toUtf8 U

/-- The decoder state handed to the next iteration after `inflate` has read the
byte `ch`. -/
def afterByte {sigma : Type} (U : Unicode sigma) (st : InflateState sigma) (ch : Nat) :
    InflateState sigma :=
  { st with utf8DecoderState := (U.from_utf8 st.utf8DecoderState ch).1 }

/-- The cell `inflate` writes for a codepoint that starts a grapheme cluster:
that codepoint, its display width, the text attributes and the hyperlink of the
buffer. -/
def clusterCell {sigma : Type} (U : Unicode sigma) (input : TrivialLineBuffer) (c : Nat) : Cell :=
  { codepoints := [c], width := (U.width c).toNat, attributes := input.textAttributes,
    hyperlink := input.hyperlink }

/-- The continuation cell `inflate` puts after a wide character: no codepoints,
the text attributes and the hyperlink of the buffer. -/
def continuationCell (input : TrivialLineBuffer) : Cell :=
  Cell.ofAttributesHyperlink input.textAttributes input.hyperlink

/-- Whether every codepoint of a sequence starts a new grapheme cluster: each
is breakable from its predecessor, the first from `last`. -/
def startsClusters {sigma : Type} (U : Unicode sigma) : Nat → List Nat → Bool
  | _, [] => true
  | last, c :: rest => U.breakable last c && startsClusters U c rest

/-- The cells of `st` once the pending gap is flushed. -/
def flushedColumns {sigma : Type} (input : TrivialLineBuffer) (st : InflateState sigma) :
    InflatedBuffer :=
  st.columns ++ List.replicate st.gapPending.toNat (continuationCell input)

/-- The state of `inflate` after reading `A` from the start of a buffer, under
`sampleUnicode`. -/
def sampleStateAfterA : InflateState utf8_decoder_state :=
  { columns := [(Cell.blank.setHyperlink 7).write sampleText 65 1], lastChar := 65,
    utf8DecoderState := { character := 0, expectedLength := 0, currentLength := 1 },
    gapPending := 0 }

/-- The initial values of the local variables of `inflate`. -/
def initialInflateState {sigma : Type} (U : Unicode sigma) : InflateState sigma :=
  { columns := [], lastChar := 0, utf8DecoderState := U.init, gapPending := 0 }

/-! ## `trim_blank_right` and `toUtf8Trimmed` -/

namespace Line

/-- The loop `while (i != e && (e - 1)->empty()) --e;` of `trim_blank_right`, on
the index `e`; `i` is index 0. -/
def trimBlankRightLoop (buffer : InflatedBuffer) : Nat → Nat
  | 0 => 0
  | e + 1 =>
    if (buffer.getD e Cell.blank).empty = true then trimBlankRightLoop buffer e else e + 1

/-- The member `Line<Cell>::trim_blank_right()`: the span from the first cell to
`e`. The member reads the inflated buffer of a constant line; a line in trivial
form has none, which is `none` here. -/
def trim_blank_right (line : Line) : Option InflatedBuffer :=
  match line.storage with
  | Storage.trivial _ => none
  | Storage.inflated buffer => some (buffer.take (trimBlankRightLoop buffer buffer.length))

/-- The function `isspace` of the C locale on a byte: space, `\t`, `\n`, `\v`,
`\f` and `\r`; no byte above 127 is white space. -/
def isspace (c : Nat) : Bool :=
  c == 32 || (decide (9 ≤ c) && decide (c ≤ 13))

/-- The loop `while (!output.empty() && isspace(output.back())) output.pop_back();`
of `toUtf8Trimmed`; `fuel` bounds the number of iterations. -/
def popBackSpaces : Nat → List Nat → List Nat
  | 0, output => output
  | fuel + 1, output =>
    match output.getLast? with
    | none => output
    | some c => if isspace c then popBackSpaces fuel output.dropLast else output

/-- The loop `while (frontGap < output.size() && std::isspace(output[frontGap]))
frontGap++;` of `toUtf8Trimmed`; `fuel` bounds the number of iterations. -/
def frontGapLoop (output : List Nat) : Nat → Nat → Nat
  | 0, frontGap => frontGap
  | fuel + 1, frontGap =>
    if frontGap < output.length ∧ isspace (output.getD frontGap 0) = true then
      frontGapLoop output fuel (frontGap + 1)
    else frontGap

/-- The member `Line<Cell>::toUtf8Trimmed()`. Each loop gets the length of the
string as fuel, which is the most it can iterate. -/
def toUtf8Trimmed {sigma : Type} (U : Unicode sigma) (line : Line) : List Nat :=
  let output := line.toUtf8 U
  let output := popBackSpaces output.length output
  let frontGap := frontGapLoop output output.length 0
  output.drop frontGap

end Line

/-! ## Screen

`Screen.h` and `Screen.cpp` are not among the sources; only the tests of the
screen (`Screen_test.cpp`) are. The screen is therefore modelled from the
specification, and the model is checked against the tests. Positions are
1-based and absolute (relative to the page) unless stated otherwise. -/

/-- Modelled from the spec: the margins of the screen (`Screen.h` is missing),
in 1-based inclusive screen coordinates. -/
structure Margin where
  top : Nat
  bottom : Nat
  left : Nat
  right : Nat
deriving DecidableEq, Repr

/-- Modelled from the spec: the cursor (`Screen.h` is missing): 1-based row and
column on the page and the pending-wrap latch. -/
structure Cursor where
  row : Nat
  column : Nat
  wrapPending : Bool
deriving DecidableEq, Repr

/-- Modelled from the spec: an entry of the saved-cursor stack (`Screen.h` is
missing): position and latch, SGR, origin mode and autowrap mode. -/
structure SavedCursor where
  cursor : Cursor
  graphicsRendition : GraphicsAttributes
  cursorRestrictedToMargin : Bool
  autoWrap : Bool
deriving DecidableEq, Repr

/-- Modelled from the spec: the modes that `SetMode` toggles (`Commands.h` is
missing), under the names the tests use: autowrap (DECAWM), origin mode
(DECOM) and left-right margin mode (DECLRMM). -/
inductive Mode where
  | AutoWrap : Mode
  | CursorRestrictedToMargin : Mode
  | LeftRightMargin : Mode
deriving DecidableEq, Repr

/-- Modelled from the spec: the state of the screen (`Screen.h` is missing):
page size, the lines of the page, the scrollback (oldest line first) and its
capacity, cursor, margins, modes, current SGR, tab stops, saved cursors and the
bytes written to the reply sink. -/
structure Screen where
  columns : Nat
  rows : Nat
  maxHistoryLineCount : Nat
  lines : List InflatedBuffer
  savedLines : List InflatedBuffer
  cursor : Cursor
  margin : Margin
  autoWrap : Bool
  cursorRestrictedToMargin : Bool
  leftRightMargin : Bool
  graphicsRendition : GraphicsAttributes
  tabs : List Nat
  savedCursors : List SavedCursor
  reply : List Nat
deriving DecidableEq, Repr

/-- Modelled from the spec: the commands of the screen (`Commands.h` is
missing), one per row of the command table; `HT` is `MoveCursorToNextTab`,
`CR` is `MoveCursorToBeginOfLine`, and `AppendChar` is the print event for a
printable codepoint of width 1. -/
inductive Command where
  | AppendChar (ch : Nat) : Command
  | Linefeed : Command
  | Backspace : Command
  | MoveCursorToBeginOfLine : Command
  | Index : Command
  | ReverseIndex : Command
  | MoveCursorUp (n : Nat) : Command
  | MoveCursorDown (n : Nat) : Command
  | MoveCursorForward (n : Nat) : Command
  | MoveCursorBackward (n : Nat) : Command
  | MoveCursorTo (row column : Nat) : Command
  | MoveCursorToLine (row : Nat) : Command
  | MoveCursorToColumn (column : Nat) : Command
  | CursorNextLine (n : Nat) : Command
  | CursorPreviousLine (n : Nat) : Command
  | MoveCursorToNextTab : Command
  | HorizontalTabSet : Command
  | HorizontalTabClear (all : Bool) : Command
  | InsertLines (n : Nat) : Command
  | DeleteLines (n : Nat) : Command
  | InsertCharacters (n : Nat) : Command
  | DeleteCharacters (n : Nat) : Command
  | EraseCharacters (n : Nat) : Command
  | ClearToEndOfLine : Command
  | ClearToBeginOfLine : Command
  | ClearLine : Command
  | ClearToEndOfScreen : Command
  | ClearToBeginOfScreen : Command
  | ClearScreen : Command
  | ScrollUp (n : Nat) : Command
  | ScrollDown (n : Nat) : Command
  | ScreenAlignmentPattern : Command
  | SetMode (mode : Mode) (enable : Bool) : Command
  | SetTopBottomMargin (top bottom : Nat) : Command
  | SetLeftRightMargin (left right : Nat) : Command
  | SaveCursor : Command
  | RestoreCursor : Command
  | SetGraphicsRendition (attributes : GraphicsAttributes) : Command
  | ReportCursorPosition : Command
  | ReportExtendedCursorPosition : Command
  | FullReset : Command
deriving DecidableEq, Repr

/-- Applies `f` to every element of a list together with its 1-based position,
counted from `i`. -/
def mapIndexed {α : Type} (f : Nat → α → α) : Nat → List α → List α
  | _, [] => []
  | i, x :: rest => f i x :: mapIndexed f (i + 1) rest

/-- The line at a 1-based row of a page, the empty line when there is none. -/
def lineAt (lines : List InflatedBuffer) (row : Nat) : InflatedBuffer :=
  lines.getD (row - 1) []

/-- The cell at a 1-based row and column of a page, if there is one. -/
def cellAt (lines : List InflatedBuffer) (row column : Nat) : Option Cell :=
  if row = 0 ∨ column = 0 then none
  else (lines.get? (row - 1)).bind (fun line => line.get? (column - 1))

/-- Modelled from the spec: `Screen.cpp` is missing; part of scrolling within
horizontal margins: replaces the columns `left..right` of `line` by the same
columns of `source`. -/
def spliceColumns (line source : InflatedBuffer) (left right : Nat) : InflatedBuffer :=
  line.take (left - 1) ++ (source.take right).drop (left - 1) ++ line.drop right

/-- Modelled from the spec: `Screen.cpp` is missing; scrolling the rectangle
rows `top..bottom`, columns `left..right` up by `n`: inside the rectangle a row
takes the cells of the row `n` below it, or of `blank` when that row is outside
the rectangle; every cell outside the rectangle is untouched. -/
def scrollUpRect (lines : List InflatedBuffer) (top bottom left right n : Nat)
    (blank : InflatedBuffer) : List InflatedBuffer :=
  mapIndexed (fun i line =>
    if top ≤ i ∧ i ≤ bottom then
      spliceColumns line (if i + n ≤ bottom then lineAt lines (i + n) else blank) left right
    else line) 1 lines

/-- Modelled from the spec: `Screen.cpp` is missing; scrolling the rectangle
rows `top..bottom`, columns `left..right` down by `n`, the mirror image of
`scrollUpRect`. -/
def scrollDownRect (lines : List InflatedBuffer) (top bottom left right n : Nat)
    (blank : InflatedBuffer) : List InflatedBuffer :=
  mapIndexed (fun i line =>
    if top ≤ i ∧ i ≤ bottom then
      spliceColumns line (if top + n ≤ i then lineAt lines (i - n) else blank) left right
    else line) 1 lines

/-- Modelled from the spec: `Screen.cpp` is missing; part of the erase commands:
sets the cells of the columns `first..last` of a line to `cell`. -/
def fillColumns (line : InflatedBuffer) (first last : Nat) (cell : Cell) : InflatedBuffer :=
  mapIndexed (fun j c => if first ≤ j ∧ j ≤ last then cell else c) 1 line

/-- Applies `f` to the line at a 1-based row of a page. -/
def updateLine (lines : List InflatedBuffer) (row : Nat)
    (f : InflatedBuffer → InflatedBuffer) : List InflatedBuffer :=
  mapIndexed (fun i line => if i = row then f line else line) 1 lines

/-- Modelled from the spec: `Screen.cpp` is missing; keeps the last `capacity`
lines of the scrollback: lines are popped from the front when the capacity is
exceeded. -/
def trimHistory (capacity : Nat) (savedLines : List InflatedBuffer) : List InflatedBuffer :=
  savedLines.drop (savedLines.length - capacity)

/-- Modelled from the spec: `Screen.cpp` is missing; the default tab stops,
every 8 columns starting at column 9. -/
def defaultTabs (columns : Nat) : List Nat :=
  ((List.range columns).filter (fun c => c % 8 == 0 && decide (0 < c))).map (fun c => c + 1)

/-- Modelled from the spec: `Screen.cpp` is missing; the smallest tab stop right
of `column`, if there is one. -/
def nextTabStop (tabs : List Nat) (column : Nat) : Option Nat :=
  tabs.foldl (fun best t =>
    if column < t then
      match best with
      | none => some t
      | some b => some (min b t)
    else best) none

/-- The decimal digits of a number, as bytes. -/
def decimal (n : Nat) : List Nat :=
  (Nat.toDigits 10 n).map Char.toNat

namespace Screen

/-- Modelled from the spec: construction of a screen (`Screen.cpp` is missing)
from page size and scrollback capacity: empty page, empty scrollback, cursor at
home, margins spanning the page, default tab stops, default SGR. -/
def create (columns rows maxHistoryLineCount : Nat) : Screen :=
  { columns := columns
    rows := rows
    maxHistoryLineCount := maxHistoryLineCount
    lines := List.replicate rows (List.replicate columns Cell.blank)
    savedLines := []
    cursor := { row := 1, column := 1, wrapPending := false }
    margin := { top := 1, bottom := rows, left := 1, right := columns }
    autoWrap := false
    cursorRestrictedToMargin := false
    leftRightMargin := false
    graphicsRendition := ⟨0, 0, 0, 0⟩
    tabs := defaultTabs columns
    savedCursors := []
    reply := [] }

/-- Modelled from the spec: `Screen.cpp` is missing; the empty cell that erasing
and scrolling fill with: no codepoints, the current SGR attributes. -/
def blankCell (s : Screen) : Cell := Cell.ofAttributes s.graphicsRendition

/-- An empty line of the page. -/
def blankLine (s : Screen) : InflatedBuffer := List.replicate s.columns s.blankCell

/-- Modelled from the spec: `Screen.cpp` is missing; placing the cursor at an
absolute position, clamped to the page; the pending-wrap latch is cleared. -/
def moveCursorToReal (s : Screen) (row column : Nat) : Screen :=
  { s with cursor :=
      { row := min (max row 1) s.rows
        column := min (max column 1) s.columns
        wrapPending := false } }

/-- Modelled from the spec: `Screen.cpp` is missing; the row the cursor API
reports: relative to the top margin when origin mode is on, to the page
otherwise. -/
def currentRow (s : Screen) : Nat :=
  if s.cursorRestrictedToMargin then s.cursor.row + 1 - s.margin.top else s.cursor.row

/-- Modelled from the spec: `Screen.cpp` is missing; the column the cursor API
reports: relative to the left margin when origin mode is on, to the page
otherwise. -/
def currentColumn (s : Screen) : Nat :=
  if s.cursorRestrictedToMargin then s.cursor.column + 1 - s.margin.left else s.cursor.column

/-- Modelled from the spec: `Screen.cpp` is missing; the absolute row of a row
given to the cursor API: with origin mode on it is relative to the top margin
and clamped to the bottom margin; 0 is treated as 1. -/
def toRealRow (s : Screen) (row : Nat) : Nat :=
  if s.cursorRestrictedToMargin then min (s.margin.top + max row 1 - 1) s.margin.bottom
  else max row 1

/-- Modelled from the spec: `Screen.cpp` is missing; the absolute column of a
column given to the cursor API, as `toRealRow`. -/
def toRealColumn (s : Screen) (column : Nat) : Nat :=
  if s.cursorRestrictedToMargin then min (s.margin.left + max column 1 - 1) s.margin.right
  else max column 1

/-- Modelled from the spec: `Screen.cpp` is missing; `MoveCursorTo(row,
column)`: absolute; origin mode applies. -/
def moveCursorTo (s : Screen) (row column : Nat) : Screen :=
  s.moveCursorToReal (s.toRealRow row) (s.toRealColumn column)

/-- Whether the scroll region is the whole page with no horizontal margin. -/
def fullPageRegion (s : Screen) : Bool :=
  s.margin.top == 1 && s.margin.bottom == s.rows && s.margin.left == 1
    && s.margin.right == s.columns

/-- Modelled from the spec: `Screen.cpp` is missing; scroll up by `n` within the
margins: the top `n` rows of the region are evicted, to the scrollback when the
region is the whole page and no horizontal margin is active, otherwise they are
discarded; the remaining rows shift up and `n` empty rows appear at the bottom
of the region. `n` is clamped to the height of the region. -/
def scrollUp (s : Screen) (n : Nat) : Screen :=
  let count := min n (s.margin.bottom + 1 - s.margin.top)
  { s with
    lines := scrollUpRect s.lines s.margin.top s.margin.bottom s.margin.left s.margin.right
      count s.blankLine
    savedLines :=
      if s.fullPageRegion then trimHistory s.maxHistoryLineCount (s.savedLines ++ s.lines.take count)
      else s.savedLines }

/-- Modelled from the spec: `Screen.cpp` is missing; scroll down by `n` within
the margins, the mirror image of `scrollUp`; nothing goes to the scrollback. -/
def scrollDown (s : Screen) (n : Nat) : Screen :=
  let count := min n (s.margin.bottom + 1 - s.margin.top)
  { s with
    lines := scrollDownRect s.lines s.margin.top s.margin.bottom s.margin.left s.margin.right
      count s.blankLine }

/-- Modelled from the spec: `Screen.cpp` is missing; `Index`: move down; if at
the bottom margin, scroll up by 1. -/
def index (s : Screen) : Screen :=
  if s.cursor.row = s.margin.bottom then s.scrollUp 1
  else s.moveCursorToReal (s.cursor.row + 1) s.cursor.column

/-- Modelled from the spec: `Screen.cpp` is missing; `ReverseIndex`: move up; if
at the top margin, scroll down by 1. -/
def reverseIndex (s : Screen) : Screen :=
  if s.cursor.row = s.margin.top then s.scrollDown 1
  else s.moveCursorToReal (s.cursor.row - 1) s.cursor.column

/-- Modelled from the spec: `Screen.cpp` is missing; the line feed of `LF` and
of a pending wrap: down one row as `Index`, scrolling at the bottom margin, then
column 1; the pending-wrap latch is cleared. -/
def linefeed (s : Screen) : Screen :=
  let s1 := if s.cursor.row = s.margin.bottom then s.scrollUp 1
    else { s with cursor := { s.cursor with row := min (s.cursor.row + 1) s.rows } }
  { s1 with cursor := { row := s1.cursor.row, column := 1, wrapPending := false } }

/-- Modelled from the spec: `Screen.cpp` is missing; writing a printable
codepoint of width 1: a pending wrap (with autowrap on) first performs a line
feed; the codepoint is written at the cursor with the current SGR; the cursor
advances, or, on the last column, stays and sets the pending-wrap latch when
autowrap is on. -/
def appendChar (s : Screen) (ch : Nat) : Screen :=
  let s1 := if s.cursor.wrapPending && s.autoWrap then s.linefeed else s
  let cell := Cell.blank.write s1.graphicsRendition ch 1
  let s2 := { s1 with
    lines := updateLine s1.lines s1.cursor.row (fun line => line.set (s1.cursor.column - 1) cell) }
  if s2.cursor.column < s2.columns then
    { s2 with cursor := { s2.cursor with column := s2.cursor.column + 1, wrapPending := false } }
  else if s2.autoWrap then
    { s2 with cursor := { s2.cursor with wrapPending := true } }
  else s2

/-- Modelled from the spec: `Screen.cpp` is missing; the upper limit of an upward
move (moves never cross a margin): the top margin when the cursor is at or
below it, the first row otherwise. -/
def upperLimit (s : Screen) : Nat :=
  if s.margin.top ≤ s.cursor.row then s.margin.top else 1

/-- Modelled from the spec: `Screen.cpp` is missing; the lower limit of a
downward move (moves never cross a margin): the bottom margin when the cursor is at
or above it, the last row otherwise. -/
def lowerLimit (s : Screen) : Nat :=
  if s.cursor.row ≤ s.margin.bottom then s.margin.bottom else s.rows

/-- Modelled from the spec: `Screen.cpp` is missing; the left limit of a backward
move (moves never cross a margin): the left margin when the cursor is at or
right of it, the first column otherwise. -/
def leftLimit (s : Screen) : Nat :=
  if s.margin.left ≤ s.cursor.column then s.margin.left else 1

/-- Modelled from the spec: `Screen.cpp` is missing; the right limit of a forward
move (moves never cross a margin): the right margin when the cursor is at
or left of it, the last column otherwise. -/
def rightLimit (s : Screen) : Nat :=
  if s.cursor.column ≤ s.margin.right then s.margin.right else s.columns

/-- Modelled from the spec: `Screen.cpp` is missing; `MoveCursorToNextTab` (and
`HT`): to the next tab stop within the right margin, else to the right margin. -/
def moveCursorToNextTab (s : Screen) : Screen :=
  let target :=
    match nextTabStop s.tabs s.cursor.column with
    | some t => min t s.rightLimit
    | none => s.rightLimit
  s.moveCursorToReal s.cursor.row target

/-- Modelled from the spec: `Screen.cpp` is missing; `InsertCharacters(n)` on
one line, with the cursor at `column` and the right margin `right`: the cells
`column..right` shift right by `n`, empty cells fill the gap. -/
def insertCells (line : InflatedBuffer) (column right n : Nat) (blank : Cell) : InflatedBuffer :=
  let segment := (line.take right).drop (column - 1)
  let count := min n segment.length
  line.take (column - 1) ++ List.replicate count blank ++ segment.take (segment.length - count)
    ++ line.drop right

/-- Modelled from the spec: `Screen.cpp` is missing; `DeleteCharacters(n)` on
one line, with the cursor at `column` and the right margin `right`: `n` cells at
the cursor are removed, the rest of `column..right` shifts left, empty cells
fill the right end. -/
def deleteCells (line : InflatedBuffer) (column right n : Nat) (blank : Cell) : InflatedBuffer :=
  let segment := (line.take right).drop (column - 1)
  let count := min n segment.length
  line.take (column - 1) ++ segment.drop count ++ List.replicate count blank ++ line.drop right

/-- Whether the cursor is inside the horizontal margins. -/
def insideHorizontalMargin (s : Screen) : Bool :=
  decide (s.margin.left ≤ s.cursor.column) && decide (s.cursor.column ≤ s.margin.right)

/-- Whether the cursor is inside the vertical margins. -/
def insideVerticalMargin (s : Screen) : Bool :=
  decide (s.margin.top ≤ s.cursor.row) && decide (s.cursor.row ≤ s.margin.bottom)

/-- Modelled from the spec: `Screen.cpp` is missing; `SetTopBottomMargin(top,
bottom)`: 0 stands for the default; a pair that is not `top < bottom` within the
page is ignored; otherwise the margins are set and the cursor goes home. -/
def setTopBottomMargin (s : Screen) (top bottom : Nat) : Screen :=
  let t := if top = 0 then 1 else top
  let b := if bottom = 0 then s.rows else bottom
  if t < b ∧ b ≤ s.rows then
    moveCursorTo { s with margin := { s.margin with top := t, bottom := b } } 1 1
  else s

/-- Modelled from the spec: `Screen.cpp` is missing; `SetLeftRightMargin(left,
right)`: ignored unless left-right margin mode is on and `left < right` within
the page; otherwise the margins are set and the cursor goes home. -/
def setLeftRightMargin (s : Screen) (left right : Nat) : Screen :=
  let l := if left = 0 then 1 else left
  let r := if right = 0 then s.columns else right
  if s.leftRightMargin = true ∧ l < r ∧ r ≤ s.columns then
    moveCursorTo { s with margin := { s.margin with left := l, right := r } } 1 1
  else s

/-- Modelled from the spec: `Screen.cpp` is missing; `SetMode(mode, enable)`;
switching left-right margin mode off resets the horizontal margins to the page. -/
def setMode (s : Screen) (mode : Mode) (enable : Bool) : Screen :=
  match mode with
  | Mode.AutoWrap => { s with autoWrap := enable }
  | Mode.CursorRestrictedToMargin => { s with cursorRestrictedToMargin := enable }
  | Mode.LeftRightMargin =>
    if enable then { s with leftRightMargin := true }
    else { s with leftRightMargin := false,
                  margin := { s.margin with left := 1, right := s.columns } }

/-- Modelled from the spec: `Screen.cpp` is missing; the reply of
`ReportCursorPosition`, `ESC [ r ; c R`, and of `ReportExtendedCursorPosition`,
`ESC [ r ; c ; 1 R`, with the origin-relative position of the cursor. -/
def cursorPositionReport (s : Screen) (extended : Bool) : List Nat :=
  [0x1B, 0x5B] ++ decimal s.currentRow ++ [0x3B] ++ decimal s.currentColumn
    ++ (if extended then [0x3B, 0x31] else []) ++ [0x52]

/-- Modelled from the spec: the effect of one command on the screen
(`Screen.cpp` is missing). -/
def apply (s : Screen) : Command → Screen
  | Command.AppendChar ch => s.appendChar ch
  | Command.Linefeed => s.linefeed
  | Command.Backspace =>
    s.moveCursorToReal s.cursor.row (max (s.cursor.column - 1) s.leftLimit)
  | Command.MoveCursorToBeginOfLine =>
    s.moveCursorToReal s.cursor.row
      (if s.cursorRestrictedToMargin = false ∧ s.cursor.row < s.margin.top then 1
       else s.margin.left)
  | Command.Index => s.index
  | Command.ReverseIndex => s.reverseIndex
  | Command.MoveCursorUp n =>
    s.moveCursorToReal (max (s.cursor.row - n) s.upperLimit) s.cursor.column
  | Command.MoveCursorDown n =>
    s.moveCursorToReal (min (s.cursor.row + n) s.lowerLimit) s.cursor.column
  | Command.MoveCursorForward n =>
    s.moveCursorToReal s.cursor.row (min (s.cursor.column + n) s.rightLimit)
  | Command.MoveCursorBackward n =>
    s.moveCursorToReal s.cursor.row (max (s.cursor.column - n) s.leftLimit)
  | Command.MoveCursorTo row column => s.moveCursorTo row column
  | Command.MoveCursorToLine row => s.moveCursorToReal (s.toRealRow row) s.cursor.column
  | Command.MoveCursorToColumn column =>
    s.moveCursorToReal s.cursor.row (s.toRealColumn column)
  | Command.CursorNextLine n =>
    s.moveCursorToReal (min (s.cursor.row + n) s.lowerLimit) s.margin.left
  | Command.CursorPreviousLine n =>
    s.moveCursorToReal (max (s.cursor.row - n) s.upperLimit) s.margin.left
  | Command.MoveCursorToNextTab => s.moveCursorToNextTab
  | Command.HorizontalTabSet =>
    if s.cursor.column ∈ s.tabs then s else { s with tabs := s.cursor.column :: s.tabs }
  | Command.HorizontalTabClear all =>
    if all then { s with tabs := [] }
    else { s with tabs := s.tabs.filter (fun t => t != s.cursor.column) }
  | Command.InsertLines n =>
    if s.insideVerticalMargin then
      { s with
        lines := scrollDownRect s.lines s.cursor.row s.margin.bottom s.margin.left
          s.margin.right (min n (s.margin.bottom + 1 - s.cursor.row)) s.blankLine }
    else s
  | Command.DeleteLines n =>
    if s.insideVerticalMargin then
      { s with
        lines := scrollUpRect s.lines s.cursor.row s.margin.bottom s.margin.left
          s.margin.right (min n (s.margin.bottom + 1 - s.cursor.row)) s.blankLine }
    else s
  | Command.InsertCharacters n =>
    if s.insideHorizontalMargin then
      { s with
        lines := updateLine s.lines s.cursor.row
          (fun line => insertCells line s.cursor.column s.margin.right n s.blankCell) }
    else s
  | Command.DeleteCharacters n =>
    if s.insideHorizontalMargin then
      { s with
        lines := updateLine s.lines s.cursor.row
          (fun line => deleteCells line s.cursor.column s.margin.right n s.blankCell) }
    else s
  | Command.EraseCharacters n =>
    { s with
      lines := updateLine s.lines s.cursor.row
        (fun line =>
          fillColumns line s.cursor.column (s.cursor.column + max n 1 - 1) s.blankCell) }
  | Command.ClearToEndOfLine =>
    { s with
      lines := updateLine s.lines s.cursor.row
        (fun line => fillColumns line s.cursor.column s.columns s.blankCell) }
  | Command.ClearToBeginOfLine =>
    { s with
      lines := updateLine s.lines s.cursor.row
        (fun line => fillColumns line 1 s.cursor.column s.blankCell) }
  | Command.ClearLine =>
    { s with
      lines := updateLine s.lines s.cursor.row
        (fun line => fillColumns line 1 s.columns s.blankCell) }
  | Command.ClearToEndOfScreen =>
    { s with
      lines := mapIndexed (fun i line =>
        if s.cursor.row ≤ i then fillColumns line 1 s.columns s.blankCell else line) 1 s.lines }
  | Command.ClearToBeginOfScreen =>
    { s with
      lines := mapIndexed (fun i line =>
        if i < s.cursor.row then fillColumns line 1 s.columns s.blankCell
        else if i = s.cursor.row then fillColumns line 1 s.cursor.column s.blankCell
        else line) 1 s.lines }
  | Command.ClearScreen =>
    { s with
      lines := mapIndexed (fun _ line => fillColumns line 1 s.columns s.blankCell) 1 s.lines }
  | Command.ScrollUp n => s.scrollUp n
  | Command.ScrollDown n => s.scrollDown n
  | Command.ScreenAlignmentPattern =>
    -- the test `ScreenAlignmentPattern` expects the page to be filled with `X`
    moveCursorToReal
      { s with
        lines := mapIndexed (fun _ line =>
          fillColumns line 1 s.columns (Cell.blank.write ⟨0, 0, 0, 0⟩ 0x58 1)) 1 s.lines
        margin := { top := 1, bottom := s.rows, left := 1, right := s.columns } } 1 1
  | Command.SetMode mode enable => s.setMode mode enable
  | Command.SetTopBottomMargin top bottom => s.setTopBottomMargin top bottom
  | Command.SetLeftRightMargin left right => s.setLeftRightMargin left right
  | Command.SaveCursor =>
    { s with
      savedCursors :=
        { cursor := s.cursor, graphicsRendition := s.graphicsRendition,
          cursorRestrictedToMargin := s.cursorRestrictedToMargin, autoWrap := s.autoWrap }
          :: s.savedCursors }
  | Command.RestoreCursor =>
    match s.savedCursors with
    | [] => s
    | saved :: rest =>
      { s with cursor := saved.cursor, graphicsRendition := saved.graphicsRendition,
               cursorRestrictedToMargin := saved.cursorRestrictedToMargin,
               autoWrap := saved.autoWrap, savedCursors := rest }
  | Command.SetGraphicsRendition attributes => { s with graphicsRendition := attributes }
  | Command.ReportCursorPosition => { s with reply := s.reply ++ s.cursorPositionReport false }
  | Command.ReportExtendedCursorPosition =>
    { s with reply := s.reply ++ s.cursorPositionReport true }
  | Command.FullReset =>
    { create s.columns s.rows s.maxHistoryLineCount with reply := s.reply }

/-- The screen after a sequence of commands, applied in order. -/
def run (s : Screen) (commands : List Command) : Screen :=
  commands.foldl apply s

/-- Modelled from the spec: `Screen.cpp` is missing; the command a written byte
stands for when the parser is in its ground state: `LF`, `CR`, `BS`, `HT` and
printable ASCII; other bytes are not text. -/
def commandOfByte (byte : Nat) : Option Command :=
  if byte = 0x0A then some Command.Linefeed
  else if byte = 0x0D then some Command.MoveCursorToBeginOfLine
  else if byte = 0x08 then some Command.Backspace
  else if byte = 0x09 then some Command.MoveCursorToNextTab
  else if 0x20 ≤ byte ∧ byte < 0x7F then some (Command.AppendChar byte)
  else none

/-- Modelled from the spec: `Screen.cpp` is missing; `write(text)` for text
without escape sequences: every byte is applied as its command, in order. -/
def write (s : Screen) (text : List Nat) : Screen :=
  s.run (text.filterMap commandOfByte)

/-- Modelled from the spec: `Screen.cpp` is missing; `renderTextLine(row)`, the
rendering of one row of the page. -/
def renderTextLine {sigma : Type} (U : Unicode sigma) (s : Screen) (row : Nat) : List Nat :=
  Line.toUtf8Inflated U (lineAt s.lines row)

/-- Modelled from the spec: `Screen.cpp` is missing; `renderText()`, the
rendering of every row of the page, each followed by a newline. -/
def renderText {sigma : Type} (U : Unicode sigma) (s : Screen) : List Nat :=
  s.lines.flatMap (fun line => Line.toUtf8Inflated U line ++ [0x0A])

/-- Modelled from the spec: `Screen.cpp` is missing;
`renderHistoryTextLine(index)`, the rendering of a scrollback row; index 0 is
the row evicted last. -/
def renderHistoryTextLine {sigma : Type} (U : Unicode sigma) (s : Screen) (index : Nat) :
    List Nat :=
  Line.toUtf8Inflated U (s.savedLines.reverse.getD index [])

end Screen

/-- The bytes of a string of ASCII text. -/
def ascii (text : String) : List Nat :=
  text.toList.map Char.toNat

/-! ### Notions used to state the properties of the screen -/

namespace Screen

/-- The page has `rows` lines of `columns` cells each. -/
def wellFormed (s : Screen) : Bool :=
  s.lines.length == s.rows && s.lines.all (fun line => line.length == s.columns)

/-- The margins lie inside the page: `1 <= top <= bottom <= rows` and
`1 <= left <= right <= columns`. -/
def validMargins (s : Screen) : Bool :=
  decide (1 ≤ s.margin.top) && decide (s.margin.top ≤ s.margin.bottom)
    && decide (s.margin.bottom ≤ s.rows) && decide (1 ≤ s.margin.left)
    && decide (s.margin.left ≤ s.margin.right) && decide (s.margin.right ≤ s.columns)

/-- The page invariant of a screen: the page has at least one row and one
column, it is well formed, and the margins lie inside it. -/
def pageInvariant (s : Screen) : Prop :=
  1 ≤ s.rows ∧ 1 ≤ s.columns ∧ s.wellFormed = true ∧ s.validMargins = true

/-- The cell a printable codepoint of width 1 is written as. -/
def printedCell (s : Screen) (ch : Nat) : Cell :=
  Cell.blank.write s.graphicsRendition ch 1

/-- A cursor lies on a page of `rows` by `columns` and has its pending-wrap
latch set only on the last column. -/
def cursorOnPage (rows columns : Nat) (c : Cursor) : Prop :=
  1 ≤ c.row ∧ c.row ≤ rows ∧ 1 ≤ c.column ∧ c.column ≤ columns
    ∧ (c.wrapPending = true → c.column = columns)

/-- The cursor invariant of a screen, for the cursor and for every saved
cursor. -/
def cursorInvariant (s : Screen) : Prop :=
  1 ≤ s.rows ∧ 1 ≤ s.columns ∧ cursorOnPage s.rows s.columns s.cursor
    ∧ ∀ saved ∈ s.savedCursors, cursorOnPage s.rows s.columns saved.cursor

end Screen

/-- What is fed to a screen: a command, or bytes of text to write. -/
inductive Input where
  | command (c : Command) : Input
  | text (bytes : List Nat) : Input

/-- The screen after a sequence of commands and written bytes. -/
def Screen.feed (s : Screen) (inputs : List Input) : Screen :=
  inputs.foldl (fun s input =>
    match input with
    | Input.command c => s.apply c
    | Input.text bytes => s.write bytes) s

/-- Writes `cells` into a line, one per column, from the 1-based `column`
on. -/
def writeCells : List Cell → Nat → InflatedBuffer → InflatedBuffer
  | [], _, line => line
  | x :: xs, column, line => writeCells xs (column + 1) (line.set (column - 1) x)

/-- Writes `cells` into a line one after the other, all at the same 1-based
`column`. -/
def overwriteCells : List Cell → Nat → InflatedBuffer → InflatedBuffer
  | [], _, line => line
  | x :: xs, column, line => overwriteCells xs column (line.set (column - 1) x)

/-- A page of five rows and five columns holding `12345`, `67890`, `ABCDE`,
`FGHIJ`, `KLMNO`, as the tests set it up. -/
def samplePage : Screen :=
  (Screen.create 5 5 100).write (ascii "12345\n67890\nABCDE\nFGHIJ\nKLMNO")

/-- A variant of the sample instance in which the variation selector U+FE0F
joins the previous grapheme cluster and `Cell::appendCharacter` reports the
extended width 2 for it. -/
def sampleExtendingUnicode : Unicode utf8_decoder_state :=
  { sampleUnicode with
    breakable := fun a b => sample_breakable a b && b != 0xFE0F
    extendedWidth := fun _ c => if c = 0xFE0F then 2 else 0 }

/-- The number a sequence of decimal digits, given as bytes, stands for. -/
def decimalValue (bytes : List Nat) : Nat :=
  bytes.foldl (fun acc b => 10 * acc + (b - 0x30)) 0

/-- The cell that holds the single codepoint `ch` with width 1 and the default
attributes. -/
def defaultCell (ch : Nat) : Cell :=
  Cell.blank.write ⟨0, 0, 0, 0⟩ ch 1

/-- A page of two rows and five columns holding `12345` and `67890`, with the
cursor at row 1, column 2, as the test `DeleteCharacters` sets it up. -/
def sampleTwoRows : Screen :=
  ((Screen.create 5 2 100).write (ascii "12345\n67890")).apply (Command.MoveCursorTo 1 2)

namespace Line

/-- The member `Line<Cell>::resize(count)`: `assert(*_count >= 0)`, and nothing
else, since the rest of the body is between `#if 0` and `#endif`. The count is
an integer here, so that the assertion says something; `none` is the failed
assertion. -/
def resize (line : Line) (count : Int) : Option Line :=
  if count ≥ 0 then some line else none

end Line

end terminal

/-! ## Selector

`vtbackend/Selector.h` and `Selector.cpp` are not among the sources; only the
test `src/vtbackend/Selector_test.cpp` is. The linear selection is therefore
modelled from the specification and checked against the test. Positions are
0-based offsets; a negative line offset addresses the scrollback. -/

namespace vtbackend

/-- Modelled from the spec: `CellLocation` (`vtbackend/primitives.h` is
missing), a `LineOffset` and a `ColumnOffset`; a negative line offset addresses
the scrollback. -/
structure CellLocation where
  line : Int
  column : Int
deriving DecidableEq, Repr

namespace Selection

/-- Modelled from the spec: `Selection::Range` (`vtbackend/Selector.h` is
missing), the columns `fromColumn..toColumn` of one line. -/
structure Range where
  line : Int
  fromColumn : Int
  toColumn : Int
deriving DecidableEq, Repr

/-- Modelled from the spec: `Selection::Range::length()` (`vtbackend/Selector.h`
is missing), the number of columns of the range. -/
def Range.length (r : Range) : Int :=
  r.toColumn - r.fromColumn + 1

end Selection

/-- Modelled from the spec: `LinearSelection` (`vtbackend/Selector.h` is
missing): the column count of the page, which the `SelectionHelper` supplies
with `pageSize()`, the anchor the selection was started at and the head it was
extended to. -/
structure LinearSelection where
  columns : Nat
  anchor : CellLocation
  head : CellLocation
deriving DecidableEq, Repr

/-- Modelled from the spec: `vtbackend/Selector.cpp` is missing; the two ends of
a selection in reading order: by line, then by column. -/
def orderedPoints (a b : CellLocation) : CellLocation × CellLocation :=
  if a.line < b.line ∨ (a.line = b.line ∧ a.column ≤ b.column) then (a, b) else (b, a)

namespace LinearSelection

/-- Modelled from the spec: the constructor of `LinearSelection`
(`vtbackend/Selector.cpp` is missing): a selection of the single cell it is
anchored at. -/
def create (columns : Nat) (start : CellLocation) : LinearSelection :=
  { columns := columns, anchor := start, head := start }

/-- Modelled from the spec: `LinearSelection::extend(pos)`
(`vtbackend/Selector.cpp` is missing): the head moves to `pos`; the result
tells whether the selection changed. -/
def extend (sel : LinearSelection) (pos : CellLocation) : LinearSelection × Bool :=
  ({ sel with head := pos }, decide (sel.head ≠ pos))

/-- Modelled from the spec: `LinearSelection::ranges()` (`vtbackend/Selector.cpp`
is missing): one range per affected line, from the anchor to the head in
reading order; a selection of several lines takes the first line from its
first column to the last column of the page, every line in between whole, and
the last line from column 0 to its last column. -/
def ranges (sel : LinearSelection) : List Selection.Range :=
  let first := (orderedPoints sel.anchor sel.head).1
  let last := (orderedPoints sel.anchor sel.head).2
  let rightMargin : Int := (sel.columns : Int) - 1
  if first.line = last.line then
    [{ line := first.line, fromColumn := first.column, toColumn := last.column }]
  else
    [{ line := first.line, fromColumn := first.column, toColumn := rightMargin }]
      ++ (List.range (last.line - first.line - 1).toNat).map (fun (k : Nat) =>
          { line := first.line + 1 + (k : Int), fromColumn := 0, toColumn := rightMargin })
      ++ [{ line := last.line, fromColumn := 0, toColumn := last.column }]

end LinearSelection

/-! ### Notions used to state the properties of the selection -/

/-- A position comes before another one in reading order, or is the same. -/
def CellLocation.notAfter (a b : CellLocation) : Prop :=
  a.line < b.line ∨ (a.line = b.line ∧ a.column ≤ b.column)

/-- A position comes strictly before another one in reading order. -/
def CellLocation.before (a b : CellLocation) : Prop :=
  a.line < b.line ∨ (a.line = b.line ∧ a.column < b.column)

/-- A cell lies in a range. -/
def Selection.Range.covers (r : Selection.Range) (pos : CellLocation) : Prop :=
  r.line = pos.line ∧ r.fromColumn ≤ pos.column ∧ pos.column ≤ r.toColumn

/-- A cell is covered by one of the ranges of a list. -/
def covered (ranges : List Selection.Range) (pos : CellLocation) : Prop :=
  ∃ r ∈ ranges, r.covers pos

end vtbackend

/-! ## Parser

`vtparser/Parser.h` and `vtparser/ParserEvents.h` are not among the sources;
only the test `src/vtparser/Parser_test.cpp` is. The parser is therefore
modelled from the specification: the automaton of DEC STD 070 as Williams
describes it for the VT500 series, with the states and the listener events the
specification lists, UTF-8 assembly in the ground state and the events of the
`APC` and `PM` strings. The model is checked against the tests. Bytes are
natural numbers below 256. -/

namespace vtparser

open terminal (Unicode ConvertResult ReplacementCharacter)

/-- Modelled from the spec: the states of the parser (`vtparser/Parser.h` is
missing). -/
inductive State where
  | Ground : State
  | Escape : State
  | EscapeIntermediate : State
  | CsiEntry : State
  | CsiParam : State
  | CsiIntermediate : State
  | CsiIgnore : State
  | DcsEntry : State
  | DcsParam : State
  | DcsIntermediate : State
  | DcsPassthrough : State
  | DcsIgnore : State
  | OscString : State
  | SosPmApcString : State
deriving DecidableEq, Repr

/-- Modelled from the spec: which control string the state `SosPmApcString` is
reading (`vtparser/Parser.h` is missing): the listener has events for `APC` and
`PM` strings and none for `SOS` strings. -/
inductive StringKind where
  | SOS : StringKind
  | PM : StringKind
  | APC : StringKind
deriving DecidableEq, Repr

/-- Modelled from the spec: the events the parser emits to its listener
(`vtparser/ParserEvents.h` is missing). `print` is the event for one codepoint;
the run form of `print` hands over the same codepoints in one batch. -/
inductive Event where
  | print (codepoint : Nat) : Event
  | execute (controlCode : Nat) : Event
  | csiDispatch (privateMarker : Option Nat) (params : List Nat) (intermediates : List Nat)
      (final : Nat) : Event
  | escDispatch (intermediates : List Nat) (final : Nat) : Event
  | oscStart : Event
  | oscPut (byte : Nat) : Event
  | oscEnd : Event
  | dcsHook (privateMarker : Option Nat) (params : List Nat) (intermediates : List Nat)
      (final : Nat) : Event
  | dcsPut (byte : Nat) : Event
  | dcsUnhook : Event
  | startAPC : Event
  | putAPC (byte : Nat) : Event
  | dispatchAPC : Event
  | startPM : Event
  | putPM (byte : Nat) : Event
  | dispatchPM : Event
  | error (message : List Nat) : Event
deriving DecidableEq, Repr

/-- Modelled from the spec: the parser (`vtparser/Parser.h` is missing): its
state, the kind of string being read, what has been collected of the current
sequence (private marker, parameters, intermediates), the state of the UTF-8
decoder, and the events emitted to the listener so far, in order. -/
structure Parser (sigma : Type) where
  state : State
  stringKind : StringKind
  privateMarker : Option Nat
  params : List Nat
  intermediates : List Nat
  utf8DecoderState : sigma
  events : List Event

namespace Parser

variable {sigma : Type}

/-- Modelled from the spec: construction of a parser (`vtparser/Parser.h` is
missing): the initial state is `Ground`. -/
def create (U : Unicode sigma) : Parser sigma :=
  { state := State.Ground, stringKind := StringKind.SOS, privateMarker := none, params := [],
    intermediates := [], utf8DecoderState := U.init, events := [] }

/-- Modelled from the spec: `vtparser/Parser.h` is missing; the event with which
a control string of the given kind starts. -/
def startEvents : StringKind → List Event
  | StringKind.SOS => []
  | StringKind.PM => [Event.startPM]
  | StringKind.APC => [Event.startAPC]

/-- Modelled from the spec: `vtparser/Parser.h` is missing; the event for one
byte of a control string of the given kind. -/
def putEvents : StringKind → Nat → List Event
  | StringKind.SOS, _ => []
  | StringKind.PM, byte => [Event.putPM byte]
  | StringKind.APC, byte => [Event.putAPC byte]

/-- Modelled from the spec: `vtparser/Parser.h` is missing; the event with which
a control string of the given kind ends. -/
def dispatchEvents : StringKind → List Event
  | StringKind.SOS => []
  | StringKind.PM => [Event.dispatchPM]
  | StringKind.APC => [Event.dispatchAPC]

/-- Modelled from the spec: `vtparser/Parser.h` is missing; the events emitted
when the current state is left: the end of an `OSC` string, of a `DCS`
passthrough and of an `APC` or `PM` string. -/
def exitEvents (p : Parser sigma) : List Event :=
  match p.state with
  | State.OscString => [Event.oscEnd]
  | State.DcsPassthrough => [Event.dcsUnhook]
  | State.SosPmApcString => dispatchEvents p.stringKind
  | _ => []

/-- Modelled from the spec: `vtparser/Parser.h` is missing; a transition to
`target`: the events of leaving the current state, then those of the
transition. -/
def leaveTo (p : Parser sigma) (target : State) (action : List Event) : Parser sigma :=
  { p with state := target, events := p.events ++ p.exitEvents ++ action }

/-- Modelled from the spec: `vtparser/Parser.h` is missing; the action `clear`:
forgets what was collected of the previous sequence. -/
def clear (p : Parser sigma) : Parser sigma :=
  { p with privateMarker := none, params := [], intermediates := [] }

/-- Modelled from the spec: `vtparser/Parser.h` is missing; emits one event and
stays in the current state. -/
def emit (p : Parser sigma) (event : Event) : Parser sigma :=
  { p with events := p.events ++ [event] }

/-- Modelled from the spec: `vtparser/Parser.h` is missing; the action
`collect`: an intermediate byte, or the private marker `<`, `=`, `>`, `?`. -/
def collect (p : Parser sigma) (byte : Nat) : Parser sigma :=
  if 0x3C ≤ byte ∧ byte ≤ 0x3F then { p with privateMarker := some byte }
  else { p with intermediates := p.intermediates ++ [byte] }

/-- Modelled from the spec: `vtparser/Parser.h` is missing; the action `param`:
a decimal digit extends the current parameter, a semicolon starts the next
one. -/
def param (p : Parser sigma) (byte : Nat) : Parser sigma :=
  if byte = 0x3B then
    { p with params := (if p.params = [] then [0] else p.params) ++ [0] }
  else
    match p.params.getLast? with
    | none => { p with params := [byte - 0x30] }
    | some last => { p with params := p.params.dropLast ++ [10 * last + (byte - 0x30)] }

/-- Modelled from the spec: `vtparser/Parser.h` is missing; entering the state
`SosPmApcString` for a string of the given kind. -/
def enterString (p : Parser sigma) (kind : StringKind) : Parser sigma :=
  { p with state := State.SosPmApcString, stringKind := kind,
           events := p.events ++ p.exitEvents ++ startEvents kind }

/-- Modelled from the spec: `vtparser/Parser.h` is missing; UTF-8 assembly in
the ground state: the byte goes to the decoder; an incomplete sequence emits
nothing, a complete one is printed, a malformed one prints U+FFFD. -/
def printByte (U : Unicode sigma) (p : Parser sigma) (byte : Nat) : Parser sigma :=
  match (U.from_utf8 p.utf8DecoderState byte).2 with
  | ConvertResult.Incomplete =>
    { p with utf8DecoderState := (U.from_utf8 p.utf8DecoderState byte).1 }
  | ConvertResult.Success value =>
    { p with utf8DecoderState := (U.from_utf8 p.utf8DecoderState byte).1,
             events := p.events ++ [Event.print value] }
  | ConvertResult.Invalid =>
    { p with utf8DecoderState := (U.from_utf8 p.utf8DecoderState byte).1,
             events := p.events ++ [Event.print ReplacementCharacter] }

/-- Modelled from the spec: `vtparser/Parser.h` is missing; the final byte of a
control sequence: `csiDispatch` with what was collected, then `Ground`. -/
def csiDispatch (p : Parser sigma) (byte : Nat) : Parser sigma :=
  p.leaveTo State.Ground [Event.csiDispatch p.privateMarker p.params p.intermediates byte]

/-- Modelled from the spec: `vtparser/Parser.h` is missing; the final byte of the
header of a device control string: `dcsHook` with what was collected, then
`DcsPassthrough`. -/
def dcsHook (p : Parser sigma) (byte : Nat) : Parser sigma :=
  p.leaveTo State.DcsPassthrough [Event.dcsHook p.privateMarker p.params p.intermediates byte]

/-- Modelled from the spec: `vtparser/Parser.h` is missing; the transition of the
automaton on one byte. `CAN` and `SUB` cancel a sequence from every state and
`ESC` starts a new one; a C0 control is executed where the automaton executes
it; the bytes from 0x80 on belong to UTF-8 text, which the ground state
assembles and the strings pass on, and are ignored elsewhere. -/
def step (U : Unicode sigma) (p : Parser sigma) (byte : Nat) : Parser sigma :=
  if byte = 0x18 ∨ byte = 0x1A then p.leaveTo State.Ground [Event.execute byte]
  else if byte = 0x1B then (p.leaveTo State.Escape []).clear
  else
    match p.state with
    | State.Ground =>
      if byte < 0x20 then p.emit (Event.execute byte) else p.printByte U byte
    | State.Escape =>
      if byte < 0x20 then p.emit (Event.execute byte)
      else if byte < 0x30 then { p.collect byte with state := State.EscapeIntermediate }
      else if byte = 0x50 then (p.leaveTo State.DcsEntry []).clear
      else if byte = 0x58 then p.enterString StringKind.SOS
      else if byte = 0x5B then (p.leaveTo State.CsiEntry []).clear
      else if byte = 0x5D then p.leaveTo State.OscString [Event.oscStart]
      else if byte = 0x5E then p.enterString StringKind.PM
      else if byte = 0x5F then p.enterString StringKind.APC
      else if byte < 0x7F then
        p.leaveTo State.Ground [Event.escDispatch p.intermediates byte]
      else p
    | State.EscapeIntermediate =>
      if byte < 0x20 then p.emit (Event.execute byte)
      else if byte < 0x30 then p.collect byte
      else if byte < 0x7F then
        p.leaveTo State.Ground [Event.escDispatch p.intermediates byte]
      else p
    | State.CsiEntry =>
      if byte < 0x20 then p.emit (Event.execute byte)
      else if byte < 0x30 then { p.collect byte with state := State.CsiIntermediate }
      else if byte = 0x3A then p.leaveTo State.CsiIgnore []
      else if byte < 0x3C then { p.param byte with state := State.CsiParam }
      else if byte < 0x40 then { p.collect byte with state := State.CsiParam }
      else if byte < 0x7F then p.csiDispatch byte
      else p
    | State.CsiParam =>
      if byte < 0x20 then p.emit (Event.execute byte)
      else if byte < 0x30 then { p.collect byte with state := State.CsiIntermediate }
      else if byte = 0x3A then p.leaveTo State.CsiIgnore []
      else if byte < 0x3C then p.param byte
      else if byte < 0x40 then p.leaveTo State.CsiIgnore []
      else if byte < 0x7F then p.csiDispatch byte
      else p
    | State.CsiIntermediate =>
      if byte < 0x20 then p.emit (Event.execute byte)
      else if byte < 0x30 then p.collect byte
      else if byte < 0x40 then p.leaveTo State.CsiIgnore []
      else if byte < 0x7F then p.csiDispatch byte
      else p
    | State.CsiIgnore =>
      if byte < 0x20 then p.emit (Event.execute byte)
      else if byte < 0x40 then p
      else if byte < 0x7F then p.leaveTo State.Ground []
      else p
    | State.DcsEntry =>
      if byte < 0x20 then p
      else if byte < 0x30 then { p.collect byte with state := State.DcsIntermediate }
      else if byte = 0x3A then p.leaveTo State.DcsIgnore []
      else if byte < 0x3C then { p.param byte with state := State.DcsParam }
      else if byte < 0x40 then { p.collect byte with state := State.DcsParam }
      else if byte < 0x7F then p.dcsHook byte
      else p
    | State.DcsParam =>
      if byte < 0x20 then p
      else if byte < 0x30 then { p.collect byte with state := State.DcsIntermediate }
      else if byte = 0x3A then p.leaveTo State.DcsIgnore []
      else if byte < 0x3C then p.param byte
      else if byte < 0x40 then p.leaveTo State.DcsIgnore []
      else if byte < 0x7F then p.dcsHook byte
      else p
    | State.DcsIntermediate =>
      if byte < 0x20 then p
      else if byte < 0x30 then p.collect byte
      else if byte < 0x40 then p.leaveTo State.DcsIgnore []
      else if byte < 0x7F then p.dcsHook byte
      else p
    | State.DcsPassthrough =>
      if byte = 0x7F then p else p.emit (Event.dcsPut byte)
    | State.DcsIgnore => p
    | State.OscString =>
      if byte = 0x07 then p.leaveTo State.Ground []
      else if byte < 0x20 then p
      else p.emit (Event.oscPut byte)
    | State.SosPmApcString =>
      { p with events := p.events ++ putEvents p.stringKind byte }

/-- Modelled from the spec: `Parser::parseFragment` (`vtparser/Parser.h` is
missing): the bytes are consumed in order. -/
def parseFragment (U : Unicode sigma) (p : Parser sigma) (bytes : List Nat) : Parser sigma :=
  bytes.foldl (step U) p

end Parser

/-! ### Notions used to state the properties of the parser -/

/-- The state of the UTF-8 decoder after it has read `bytes`. -/
def decoderAfter {sigma : Type} (U : Unicode sigma) (state : sigma) (bytes : List Nat) : sigma :=
  bytes.foldl (fun s byte => (U.from_utf8 s byte).1) state

/-- The codepoints of the `print` events among `events`, in order. -/
def printedCodepoints (events : List Event) : List Nat :=
  events.filterMap (fun event =>
    match event with
    | Event.print codepoint => some codepoint
    | _ => none)

/-- What the listener of `Parser_test.cpp` records in `pm`: an opening brace for
`startPM`, the byte for `putPM`, a closing brace for `dispatchPM`. -/
def recordedPM (events : List Event) : List Nat :=
  events.flatMap (fun event =>
    match event with
    | Event.startPM => [0x7B]
    | Event.putPM byte => [byte]
    | Event.dispatchPM => [0x7D]
    | _ => [])

/-- What the listener of `Parser_test.cpp` records in `apc`: an opening brace
for `startAPC`, the byte for `putAPC`, a closing brace for `dispatchAPC`. -/
def recordedAPC (events : List Event) : List Nat :=
  events.flatMap (fun event =>
    match event with
    | Event.startAPC => [0x7B]
    | Event.putAPC byte => [byte]
    | Event.dispatchAPC => [0x7D]
    | _ => [])

/-- What the listener of `Parser_test.cpp` records in `text`: the UTF-8 of the
printed codepoints. -/
def recordedText {sigma : Type} (U : Unicode sigma) (events : List Event) : List Nat :=
  (printedCodepoints events).flatMap U.to_utf8

end vtparser

/-! ## `ImageSize`

A shallow embedding of `src/vtpty/ImageSize.h`. `Width` and `Height` box an
`unsigned`, a number below `2^32`; `size_t` has `sizeBits` bits, a parameter of
the embedding (64 on the platforms the claim speaks of). -/

namespace vtpty

/-- The struct `ImageSize`: `width` and `height`, each an `unsigned`. -/
structure ImageSize where
  width : Nat
  height : Nat
deriving DecidableEq, Repr

namespace ImageSize

/-- The values an `ImageSize` can hold: both fields are 32-bit unsigned
numbers. -/
def representable (a : ImageSize) : Prop :=
  a.width < 2 ^ 32 ∧ a.height < 2 ^ 32

/-- The conversion `unbox<size_t>(value)` of an `unsigned` to a `size_t` of
`sizeBits` bits. -/
def unboxSize (sizeBits : Nat) (value : Nat) : Nat :=
  value % 2 ^ sizeBits

/-- The member `ImageSize::area()`: the product of the two factors, each
converted to `size_t`, in the arithmetic of `size_t` (modulo `2^sizeBits`). -/
def area (sizeBits : Nat) (a : ImageSize) : Nat :=
  (unboxSize sizeBits a.width * unboxSize sizeBits a.height) % 2 ^ sizeBits

/-- The function `operator==(ImageSize, ImageSize)`. -/
def eq (a b : ImageSize) : Bool :=
  a.width == b.width && a.height == b.height

/-- The function `operator!=(ImageSize, ImageSize)`. -/
def ne (a b : ImageSize) : Bool :=
  !(eq a b)

/-- The function `operator<(ImageSize, ImageSize)`. -/
def lt (a b : ImageSize) : Bool :=
  decide (a.width < b.width) || (a.width == b.width && decide (a.height < b.height))

end ImageSize

end vtpty

/-! ## The fontconfig font locator

A shallow embedding of `src/text_shaper/fontconfig_locator.cpp`, in the build
for a platform that is neither Windows nor macOS. The header
`text_shaper/font.h` is not among the sources, and fontconfig is a library
outside the repository: the constants of `fontconfig/fontconfig.h` are
parameters of the embedding, and what the library answers (the sorted font set
and the properties of its fonts) is data handed to the embedded functions. -/

namespace text

/-- Modelled from the spec: the enumeration `font_weight` (declared in
`text_shaper/font.h`, which is missing), with the enumerators that
`FontWeightMappings` names. -/
inductive font_weight where
  | thin : font_weight
  | extra_light : font_weight
  | light : font_weight
  | demilight : font_weight
  | book : font_weight
  | normal : font_weight
  | medium : font_weight
  | demibold : font_weight
  | bold : font_weight
  | extra_bold : font_weight
  | black : font_weight
  | extra_black : font_weight
deriving DecidableEq, Repr

/-- Modelled from the spec: the enumeration `font_slant` (declared in
`text_shaper/font.h`, which is missing), with the enumerators that
`FontSlantMappings` names. -/
inductive font_slant where
  | normal : font_slant
  | italic : font_slant
  | oblique : font_slant
deriving DecidableEq, Repr

/-- Modelled from the spec: the enumeration `font_spacing` (declared in
`text_shaper/font.h`, which is missing), with the enumerators that `locate`
names. -/
inductive font_spacing where
  | proportional : font_spacing
  | mono : font_spacing
deriving DecidableEq, Repr

/-- Modelled from the spec: the variant `font_fallback` (declared in
`text_shaper/font.h`, which is missing): `locate` tells `font_fallback_none`
and `font_fallback_list`, with its `fallbackFonts`, from every other
alternative. -/
inductive font_fallback where
  | other : font_fallback
  | font_fallback_none : font_fallback
  | font_fallback_list (fallbackFonts : List (List Nat)) : font_fallback
deriving DecidableEq, Repr

/-- Modelled from the spec: the struct `font_description` (declared in
`text_shaper/font.h`, which is missing), with the members that `locate`
reads. -/
structure font_description where
  familyName : List Nat
  weight : font_weight
  slant : font_slant
  spacing : font_spacing
  strictSpacing : Bool
  fontFallback : font_fallback
deriving DecidableEq, Repr

/-- Modelled from the spec: the struct `font_path` (declared in
`text_shaper/font.h`, which is missing), the font source that `locate` builds:
file name, index in a font collection, weight and slant. -/
structure font_path where
  value : List Nat
  collectionIndex : Int
  weight : Option font_weight
  slant : Option font_slant
deriving DecidableEq, Repr

/-- The type `font_source_list`, of which `locate` builds only `font_path`
entries. -/
abbrev font_source_list := List font_path

/-- The constants of `fontconfig/fontconfig.h` that the locator uses. The header
belongs to the fontconfig library, so the constants are parameters. -/
structure FontconfigConstants where
  FC_WEIGHT_THIN : Int
  FC_WEIGHT_EXTRALIGHT : Int
  FC_WEIGHT_LIGHT : Int
  FC_WEIGHT_DEMILIGHT : Int
  FC_WEIGHT_BOOK : Int
  FC_WEIGHT_NORMAL : Int
  FC_WEIGHT_MEDIUM : Int
  FC_WEIGHT_DEMIBOLD : Int
  FC_WEIGHT_BOLD : Int
  FC_WEIGHT_EXTRABOLD : Int
  FC_WEIGHT_BLACK : Int
  FC_WEIGHT_EXTRABLACK : Int
  FC_SLANT_ROMAN : Int
  FC_SLANT_ITALIC : Int
  FC_SLANT_OBLIQUE : Int
  FC_PROPORTIONAL : Int
  FC_DUAL : Int
  FC_MONO : Int
  FC_CHARCELL : Int

/-- What fontconfig answers for one font of a font set: the values that
`FcPatternGetString` and `FcPatternGetInteger` yield for the properties
`FC_FILE`, `FC_FAMILY`, `FC_SPACING`, `FC_INDEX`, `FC_WEIGHT` and `FC_SLANT`,
`none` where the result is not `FcResultMatch`. -/
structure FcPattern where
  file : Option (List Nat)
  family : Option (List Nat)
  spacing : Option Int
  index : Option Int
  weight : Option Int
  slant : Option Int
deriving DecidableEq, Repr

/-- The table `FontWeightMappings`. -/
def FontWeightMappings (K : FontconfigConstants) : List (font_weight × Int) :=
  [ (font_weight.thin, K.FC_WEIGHT_THIN),
    (font_weight.extra_light, K.FC_WEIGHT_EXTRALIGHT),
    (font_weight.light, K.FC_WEIGHT_LIGHT),
    (font_weight.demilight, K.FC_WEIGHT_DEMILIGHT),
    (font_weight.book, K.FC_WEIGHT_BOOK),
    (font_weight.normal, K.FC_WEIGHT_NORMAL),
    (font_weight.medium, K.FC_WEIGHT_MEDIUM),
    (font_weight.demibold, K.FC_WEIGHT_DEMIBOLD),
    (font_weight.bold, K.FC_WEIGHT_BOLD),
    (font_weight.extra_bold, K.FC_WEIGHT_EXTRABOLD),
    (font_weight.black, K.FC_WEIGHT_BLACK),
    (font_weight.extra_black, K.FC_WEIGHT_EXTRABLACK) ]

/-- The table `FontSlantMappings`. -/
def FontSlantMappings (K : FontconfigConstants) : List (font_slant × Int) :=
  [ (font_slant.italic, K.FC_SLANT_ITALIC),
    (font_slant.oblique, K.FC_SLANT_OBLIQUE),
    (font_slant.normal, K.FC_SLANT_ROMAN) ]

/-- The loop `for (auto const& mapping: ...) if (mapping.second == value) return
mapping.first;` of `fcToFontWeight` and `fcToFontSlant`, followed by
`return nullopt`. -/
def findBySecond {α : Type} : List (α × Int) → Int → Option α
  | [], _ => none
  | mapping :: rest, value =>
    if mapping.2 = value then some mapping.1 else findBySecond rest value

/-- The loop `for (auto const& mapping: ...) if (mapping.first == key) return
mapping.second;` of `fcWeight` and `fcSlant`; `none` when the loop ends without
a match. -/
def findByFirst {α : Type} [DecidableEq α] : List (α × Int) → α → Option Int
  | [], _ => none
  | mapping :: rest, key =>
    if mapping.1 = key then some mapping.2 else findByFirst rest key

/-- The function `fcToFontWeight(value)`. -/
def fcToFontWeight (K : FontconfigConstants) (value : Int) : Option font_weight :=
  findBySecond (FontWeightMappings K) value

/-- The function `fcToFontSlant(value)`. -/
def fcToFontSlant (K : FontconfigConstants) (value : Int) : Option font_slant :=
  findBySecond (FontSlantMappings K) value

/-- The function `fcWeight(weight)`; `none` is the call of `crispy::fatal` after
the loop. -/
def fcWeight (K : FontconfigConstants) (weight : font_weight) : Option Int :=
  findByFirst (FontWeightMappings K) weight

/-- The function `fcSlant(slant)`. -/
def fcSlant (K : FontconfigConstants) (slant : font_slant) : Int :=
  (findByFirst (FontSlantMappings K) slant).getD K.FC_SLANT_ROMAN

/-- The test of the loop of `locate` for a description with a
`font_fallback_list`: `std::none_of(fallbackFonts, font == family)`, and `false`
for the other alternatives. `none` is the comparison of a string with the null
pointer that `family` is when the font has no `FC_FAMILY`. -/
def notInFallbackList (description : font_description) (font : FcPattern) : Option Bool :=
  match description.fontFallback with
  | font_fallback.font_fallback_list fallbackFonts =>
    match fallbackFonts, font.family with
    | [], _ => some true
    | _ :: _, none => none
    | _ :: _, some family => some (fallbackFonts.all (fun name => name != family))
  | _ => some false

/-- The strict-spacing test of the loop of `locate`, on the `spacing` that
`FcPatternGetInteger` leaves at -1 when the font has no `FC_SPACING`. -/
def skippedBySpacing (K : FontconfigConstants) (description : font_description)
    (font : FcPattern) : Bool :=
  let spacing := font.spacing.getD (-1)
  description.strictSpacing
    && (spacing != -1
      && ((description.spacing == font_spacing.proportional
            && decide (spacing < K.FC_PROPORTIONAL))
          || (description.spacing == font_spacing.mono && decide (spacing < K.FC_MONO))))

/-- The font source that the loop of `locate` appends for a font with the file
name `file`: `font_path { file, ttcIndex, weight, slant }`. -/
def fontSource (K : FontconfigConstants) (font : FcPattern) (file : List Nat) : font_path :=
  { value := file
    collectionIndex :=
      match font.index with
      | some integerValue => if integerValue ≥ 0 then integerValue else -1
      | none => -1
    weight := font.weight.bind (fcToFontWeight K)
    slant := font.slant.bind (fcToFontSlant K) }

/-- The loop `for (int i = 0; i < fs->nfont; ++i)` of `locate`, from index `i`
on, over the fonts from that index on, with `output` as built so far. -/
def locateLoop (K : FontconfigConstants) (description : font_description) :
    Nat → List FcPattern → font_source_list → Option font_source_list
  | _, [], output => some output
  | i, font :: rest, output =>
    match font.file with
    | none => locateLoop K description (i + 1) rest output
    | some file =>
      if i > 0 ∧ description.fontFallback = font_fallback.font_fallback_none then some output
      else
        match (if i > 0 then notInFallbackList description font else some false) with
        | none => none
        | some true => locateLoop K description (i + 1) rest output
        | some false =>
          if skippedBySpacing K description font then
            locateLoop K description (i + 1) rest output
          else locateLoop K description (i + 1) rest (output ++ [fontSource K font file])

/-- The member `fontconfig_locator::locate(description)`. `sorted` is what
`FcFontSort` answers for the pattern built from the description: the fonts of
the font set, or `none` when there is no font set or the result is not
`FcResultMatch`. The result is `none` when `fcWeight` ends in `crispy::fatal` or
a null family name is compared. -/
def locate (K : FontconfigConstants) (description : font_description)
    (sorted : Option (List FcPattern)) : Option font_source_list :=
  if description.weight ≠ font_weight.normal ∧ fcWeight K description.weight = none then none
  else
    match sorted with
    | none => some []
    | some fonts => locateLoop K description 0 fonts []

/-! ### Sample data for the font locator -/

/-- The values that `fontconfig/fontconfig.h` gives the constants. -/
def fontconfigValues : FontconfigConstants :=
  { FC_WEIGHT_THIN := 0, FC_WEIGHT_EXTRALIGHT := 40, FC_WEIGHT_LIGHT := 50,
    FC_WEIGHT_DEMILIGHT := 55, FC_WEIGHT_BOOK := 75, FC_WEIGHT_NORMAL := 80,
    FC_WEIGHT_MEDIUM := 100, FC_WEIGHT_DEMIBOLD := 180, FC_WEIGHT_BOLD := 200,
    FC_WEIGHT_EXTRABOLD := 205, FC_WEIGHT_BLACK := 210, FC_WEIGHT_EXTRABLACK := 215,
    FC_SLANT_ROMAN := 0, FC_SLANT_ITALIC := 100, FC_SLANT_OBLIQUE := 110,
    FC_PROPORTIONAL := 0, FC_DUAL := 90, FC_MONO := 100, FC_CHARCELL := 110 }

/-- A description of a monospace font with strict spacing and no fallback. -/
def sampleDescription : font_description :=
  { familyName := terminal.ascii "monospace", weight := font_weight.normal,
    slant := font_slant.normal, spacing := font_spacing.mono, strictSpacing := true,
    fontFallback := font_fallback.font_fallback_none }

/-- A proportional font, which the strict-spacing test rejects for
`sampleDescription`. -/
def sampleProportionalFont : FcPattern :=
  { file := some (terminal.ascii "/fonts/sans.ttf"), family := some (terminal.ascii "Sans"),
    spacing := some 0, index := some 0, weight := some 80, slant := some 0 }

/-- A monospace font in bold, which `sampleDescription` accepts. -/
def sampleMonoFont : FcPattern :=
  { file := some (terminal.ascii "/fonts/mono.ttf"), family := some (terminal.ascii "Mono"),
    spacing := some 100, index := some 0, weight := some 200, slant := some 0 }

end text

/-! ## Properties -/

namespace terminal

namespace Line

theorem reflowEndLoop_spec (buffer : InflatedBuffer) (n : Nat) :
    ∀ e, n ≤ e → e ≤ buffer.length →
      (buffer.take (reflowEndLoop buffer n e)).drop n
        = ((buffer.take e).drop n).rdropWhile Cell.empty := by
  intro e
  induction e with
  | zero =>
    intro _ _
    simp [reflowEndLoop, List.rdropWhile_nil]
  | succ e ih =>
    intro hne hel
    have hlt : e < buffer.length := by omega
    have htake : buffer.take (e + 1) = buffer.take e ++ [buffer.getD e Cell.blank] := by
      rw [List.take_succ]
      simp [List.getD, List.getElem?_eq_getElem hlt]
    by_cases heq : e + 1 = n
    · subst heq
      have hlen : (buffer.take (e + 1)).length ≤ e + 1 := by simp
      simp [reflowEndLoop, List.drop_eq_nil_of_le hlen]
    · have hne2 : n ≤ e := by omega
      have hdrop : (buffer.take (e + 1)).drop n
          = (buffer.take e).drop n ++ [buffer.getD e Cell.blank] := by
        rw [htake, List.drop_append_of_le_length]
        simp; omega
      rw [hdrop, List.rdropWhile_concat]
      by_cases hemp : (buffer.getD e Cell.blank).empty = true
      · simp only [reflowEndLoop, hemp, and_true, ne_eq, heq, not_false_eq_true, if_true]
        exact ih hne2 (by omega)
      · simp only [reflowEndLoop, hemp, and_false, if_false]
        simp [hdrop]

theorem rdropWhile_rest_all {α : Type} (p : α → Bool) (l : List α) :
    ∀ x ∈ l.drop (l.rdropWhile p).length, p x = true := by
  induction l using List.reverseRecOn with
  | nil => simp
  | append_singleton l a ih =>
    rw [List.rdropWhile_concat]
    by_cases hp : p a = true
    · simp only [hp, if_true]
      have hle : (l.rdropWhile p).length ≤ l.length := (List.rdropWhile_prefix p l).length_le
      rw [List.drop_append_of_le_length hle]
      intro x hx
      rcases List.mem_append.mp hx with h | h
      · exact ih x h
      · simp at h; subst h; exact hp
    · simp [hp]

theorem vectorResize_length (buffer : InflatedBuffer) (n : Nat) :
    (vectorResize buffer n).length = n := by
  simp [vectorResize]; omega

theorem reflow_inflated {sigma : Type} (U : Unicode sigma) (line : Line) (c : InflatedBuffer)
    (n : Nat) (hs : line.storage = Storage.inflated c) :
    line.reflow U n = some (reflowInflated line c n) := by
  simp [reflow, inflatedBuffer, hs]

theorem reflowInflated_wrappable_lt (line : Line) (c : InflatedBuffer) (n : Nat)
    (hw : line.wrappable = true) (hn : n < c.length) :
    reflowInflated line c n
      = ({ line with storage := Storage.inflated (c.take n) },
          (c.drop n).rdropWhile Cell.empty) := by
  have hcmp : compare n c.length = Ordering.lt := by
    rw [Nat.compare_eq_lt]; exact hn
  have hloop := reflowEndLoop_spec c n c.length (by omega) (le_refl _)
  rw [List.take_length] at hloop
  simp [reflowInflated, hcmp, hw, hloop]

/-- C3: on an inflated wrappable line with cells `c` and `n < |c|`, `reflow(n)`
keeps exactly the first `n` cells and returns `c[n..]` without its trailing
empty cells: the returned buffer is a prefix of `c[n..]`, all cells after it are
empty, it is empty or ends in a non-empty cell, and it is empty exactly when
every cell of `c[n..]` is empty. -/
theorem reflow_wrappable_shrink {sigma : Type} (U : Unicode sigma) (line : Line)
    (c : InflatedBuffer) (n : Nat) (hs : line.storage = Storage.inflated c)
    (hw : line.wrappable = true) (hn : n < c.length) :
    ∃ r, line.reflow U n = some ({ line with storage := Storage.inflated (c.take n) }, r)
      ∧ r = (c.drop n).rdropWhile Cell.empty
      ∧ r <+: c.drop n
      ∧ (∀ x ∈ (c.drop n).drop r.length, x.empty = true)
      ∧ (∀ h : r ≠ [], (r.getLast h).empty = false)
      ∧ (r = [] ↔ ∀ x ∈ c.drop n, x.empty = true) := by
  refine ⟨(c.drop n).rdropWhile Cell.empty, ?_, rfl, List.rdropWhile_prefix _ _, ?_, ?_, ?_⟩
  · rw [reflow_inflated U line c n hs, reflowInflated_wrappable_lt line c n hw hn]
  · exact rdropWhile_rest_all Cell.empty (c.drop n)
  · intro h
    have := List.rdropWhile_last_not Cell.empty (c.drop n) h
    simpa using this
  · exact List.rdropWhile_eq_nil_iff

/-- C3 at a sample line: the cells `A B _ C _ _` reflowed to 2 columns. -/
theorem reflow_wrappable_shrink_witness :
    ∃ r, sampleLine.reflow sampleUnicode 2
        = some ({ sampleLine with storage := Storage.inflated (sampleCells.take 2) }, r)
      ∧ r = (sampleCells.drop 2).rdropWhile Cell.empty
      ∧ r <+: sampleCells.drop 2
      ∧ (∀ x ∈ (sampleCells.drop 2).drop r.length, x.empty = true)
      ∧ (∀ h : r ≠ [], (r.getLast h).empty = false)
      ∧ (r = [] ↔ ∀ x ∈ sampleCells.drop 2, x.empty = true) :=
  reflow_wrappable_shrink sampleUnicode sampleLine sampleCells 2 rfl rfl (by decide)

theorem toUtf8Loop_eq {sigma : Type} (U : Unicode sigma) (cells : InflatedBuffer) :
    ∀ str, toUtf8Loop U cells str = str ++ cells.flatMap (renderCell U) := by
  induction cells with
  | nil => intro str; simp [toUtf8Loop]
  | cons cell rest ih =>
    intro str
    by_cases h : cell.codepointCount = 0
    · simp [toUtf8Loop, h, ih, renderCell]
    · simp [toUtf8Loop, h, ih, renderCell]

theorem toUtf8Inflated_eq {sigma : Type} (U : Unicode sigma) (cells : InflatedBuffer) :
    toUtf8Inflated U cells = cells.flatMap (renderCell U) := by
  simp [toUtf8Inflated, toUtf8Loop_eq]

theorem toUtf8Inflated_append {sigma : Type} (U : Unicode sigma) (a b : InflatedBuffer) :
    toUtf8Inflated U (a ++ b) = toUtf8Inflated U a ++ toUtf8Inflated U b := by
  simp [toUtf8Inflated_eq]

theorem toUtf8Inflated_all_empty {sigma : Type} (U : Unicode sigma) (cells : InflatedBuffer)
    (h : ∀ x ∈ cells, x.empty = true) :
    toUtf8Inflated U cells = List.replicate cells.length space := by
  rw [toUtf8Inflated_eq]
  induction cells with
  | nil => simp
  | cons cell rest ih =>
    have h0 : cell.codepointCount = 0 := by
      have := h cell (List.mem_cons_self _ _)
      simpa [Cell.empty] using this
    have ih2 := ih (fun x hx => h x (List.mem_cons_of_mem _ hx))
    simp [List.flatMap_cons, renderCell, h0, ih2, List.replicate_succ]

/-- C4: reflow conservation. On an inflated wrappable line with cells `c` and
`n < |c|`, `reflow(n)` keeps `kept` and returns `overflow` such that
`kept ++ overflow` is a prefix of `c`, every cell of `c` after that prefix is
empty, and the rendering of the original line is the rendering of the kept line
followed by that of the overflow cells followed only by spaces. -/
theorem reflow_conservation {sigma : Type} (U : Unicode sigma) (line : Line)
    (c : InflatedBuffer) (n : Nat) (hs : line.storage = Storage.inflated c)
    (hw : line.wrappable = true) (hn : n < c.length) :
    ∃ kept overflow,
      line.reflow U n = some ({ line with storage := Storage.inflated kept }, overflow)
      ∧ (kept ++ overflow) <+: c
      ∧ (∀ x ∈ c.drop (kept ++ overflow).length, x.empty = true)
      ∧ line.toUtf8 U
          = Line.toUtf8 U { line with storage := Storage.inflated kept }
              ++ toUtf8Inflated U overflow
              ++ List.replicate (c.length - (kept ++ overflow).length) space := by
  have hrest := rdropWhile_rest_all Cell.empty (c.drop n)
  have hpre : (c.drop n).rdropWhile Cell.empty <+: c.drop n := List.rdropWhile_prefix _ _
  have hlen : (c.take n ++ (c.drop n).rdropWhile Cell.empty).length
      = n + ((c.drop n).rdropWhile Cell.empty).length := by
    simp [List.length_take]; omega
  have hsplit : c = (c.take n ++ (c.drop n).rdropWhile Cell.empty)
      ++ (c.drop n).drop ((c.drop n).rdropWhile Cell.empty).length := by
    rw [List.append_assoc, List.prefix_iff_eq_append.mp hpre, List.take_append_drop]
  have hdrop : c.drop (c.take n ++ (c.drop n).rdropWhile Cell.empty).length
      = (c.drop n).drop ((c.drop n).rdropWhile Cell.empty).length := by
    rw [hlen, List.drop_drop, Nat.add_comm]
  refine ⟨c.take n, (c.drop n).rdropWhile Cell.empty, ?_, ?_, ?_, ?_⟩
  · rw [reflow_inflated U line c n hs, reflowInflated_wrappable_lt line c n hw hn]
  · exact ⟨_, hsplit.symm⟩
  · rw [hdrop]; exact hrest
  · have hlen2 : ((c.drop n).drop ((c.drop n).rdropWhile Cell.empty).length).length
        = c.length - (c.take n ++ (c.drop n).rdropWhile Cell.empty).length := by
      rw [← hdrop]; simp
    have hr := toUtf8Inflated_all_empty U _ hrest
    rw [hlen2] at hr
    simp only [toUtf8, hs]
    conv_lhs => rw [hsplit]
    rw [toUtf8Inflated_append, toUtf8Inflated_append, hr]

/-- C4 at a sample line: the cells `A B _ C _ _` reflowed to 2 columns. -/
theorem reflow_conservation_witness :
    ∃ kept overflow,
      sampleLine.reflow sampleUnicode 2
        = some ({ sampleLine with storage := Storage.inflated kept }, overflow)
      ∧ (kept ++ overflow) <+: sampleCells
      ∧ (∀ x ∈ sampleCells.drop (kept ++ overflow).length, x.empty = true)
      ∧ sampleLine.toUtf8 sampleUnicode
          = Line.toUtf8 sampleUnicode { sampleLine with storage := Storage.inflated kept }
              ++ toUtf8Inflated sampleUnicode overflow
              ++ List.replicate (sampleCells.length - (kept ++ overflow).length) space :=
  reflow_conservation sampleUnicode sampleLine sampleCells 2 rfl rfl (by decide)

/-- C5: a trivial line holding `AB` (2 bytes of text) in 5 columns, reflowed to
2 columns, is returned unchanged by the `Equal` case and still has 5 columns,
not 2. -/
theorem reflow_trivial_equal_keeps_width :
    sampleTrivialLine.reflow sampleUnicode 2 = some (sampleTrivialLine, [])
      ∧ sampleTrivialLine.size = 5 := by
  decide

/-- C6: the line `A W~ B` with the wide cell at index 1 and its continuation at
index 2, reflowed to 2 columns, keeps the wide cell at index 1 and returns a
buffer that starts with the continuation cell: the wide character is split,
not wrapped. -/
theorem reflow_splits_wide_cell :
    sampleWideLine.reflow sampleUnicode 2
      = some ({ sampleWideLine with storage := Storage.inflated [sampleCell 65, sampleWideCell] },
          [sampleContinuation, sampleCell 66])
      ∧ sampleWideCell.empty = false ∧ sampleContinuation.empty = true := by
  decide

/-- C7: on an inflated line that is not wrappable, with cells `c` and
`n < |c|`, `reflow(n)` truncates the line to the first `n` cells of `c` and
returns an empty buffer, whatever `c[n..]` holds. -/
theorem reflow_not_wrappable_shrink {sigma : Type} (U : Unicode sigma) (line : Line)
    (c : InflatedBuffer) (n : Nat) (hs : line.storage = Storage.inflated c)
    (hw : line.wrappable = false) (hn : n < c.length) :
    line.reflow U n = some ({ line with storage := Storage.inflated (c.take n) }, []) := by
  have hcmp : compare n c.length = Ordering.lt := by
    rw [Nat.compare_eq_lt]; exact hn
  have hz : n - c.length = 0 := by omega
  rw [reflow_inflated U line c n hs]
  simp [reflowInflated, hcmp, hw, vectorResize, hz]

/-- C7 at a sample line: the cells `A B _ C _ _` of a line that is not wrappable,
reflowed to 2 columns; the non-empty cell `C` is discarded. -/
theorem reflow_not_wrappable_shrink_witness :
    sampleFixedLine.reflow sampleUnicode 2
      = some ({ sampleFixedLine with storage := Storage.inflated (sampleCells.take 2) }, []) :=
  reflow_not_wrappable_shrink sampleUnicode sampleFixedLine sampleCells 2 rfl rfl (by decide)

/-- C8: on an inflated line with cells `c` (wrappable or not) and `n > |c|`,
`reflow(n)` returns an empty buffer and leaves exactly `n` cells: `c` unchanged,
followed by `n - |c|` empty cells. -/
theorem reflow_grow {sigma : Type} (U : Unicode sigma) (line : Line)
    (c : InflatedBuffer) (n : Nat) (hs : line.storage = Storage.inflated c)
    (hn : c.length < n) :
    ∃ cells, line.reflow U n = some ({ line with storage := Storage.inflated cells }, [])
      ∧ cells.length = n
      ∧ cells.take c.length = c
      ∧ cells.drop c.length = List.replicate (n - c.length) Cell.blank
      ∧ (∀ x ∈ cells.drop c.length, x.empty = true) := by
  have hcmp : compare n c.length = Ordering.gt := by
    rw [Nat.compare_eq_gt]; exact hn
  have htake : c.take n = c := List.take_of_length_le (by omega)
  refine ⟨c ++ List.replicate (n - c.length) Cell.blank, ?_, ?_, ?_, ?_, ?_⟩
  · rw [reflow_inflated U line c n hs]
    simp [reflowInflated, hcmp, vectorResize, htake]
  · simp; omega
  · simp
  · simp
  · intro x hx
    simp only [List.drop_left] at hx
    rw [List.eq_of_mem_replicate hx]
    rfl

/-- C8 at a sample line: the six cells `A B _ C _ _` reflowed to 8 columns. -/
theorem reflow_grow_witness :
    ∃ cells, sampleLine.reflow sampleUnicode 8
        = some ({ sampleLine with storage := Storage.inflated cells }, [])
      ∧ cells.length = 8
      ∧ cells.take sampleCells.length = sampleCells
      ∧ cells.drop sampleCells.length = List.replicate (8 - sampleCells.length) Cell.blank
      ∧ (∀ x ∈ cells.drop sampleCells.length, x.empty = true) :=
  reflow_grow sampleUnicode sampleLine sampleCells 8 rfl (by decide)

/-- C9: on a trivial line whose text is `m` bytes long and for `n > m`,
`reflow(n)` returns an empty buffer and leaves the line in trivial form with
`displayWidth = n`; text, `usedColumns`, attributes, hyperlink and the flags of
the line are unchanged. -/
theorem reflow_trivial_widen {sigma : Type} (U : Unicode sigma) (line : Line)
    (t : TrivialLineBuffer) (n : Nat) (hs : line.storage = Storage.trivial t)
    (hn : t.text.length < n) :
    ∃ line1 t1, line.reflow U n = some (line1, [])
      ∧ line1.storage = Storage.trivial t1
      ∧ t1.displayWidth = n
      ∧ t1.text = t.text
      ∧ t1.usedColumns = t.usedColumns
      ∧ t1.textAttributes = t.textAttributes
      ∧ t1.fillAttributes = t.fillAttributes
      ∧ t1.hyperlink = t.hyperlink
      ∧ line1.wrappable = line.wrappable
      ∧ line1.marked = line.marked := by
  have hcmp : compare n t.text.length = Ordering.gt := by
    rw [Nat.compare_eq_gt]; exact hn
  refine ⟨{ line with storage := Storage.trivial { t with displayWidth := n } },
    { t with displayWidth := n }, ?_, rfl, rfl, rfl, rfl, rfl, rfl, rfl, rfl, rfl⟩
  simp [reflow, hs, hcmp]

/-- C9 at a sample line: the trivial line `AB` of 5 columns reflowed to 9
columns. -/
theorem reflow_trivial_widen_witness :
    ∃ line1 t1, sampleTrivialLine.reflow sampleUnicode 9 = some (line1, [])
      ∧ line1.storage = Storage.trivial t1
      ∧ t1.displayWidth = 9
      ∧ t1.text = sampleTrivial.text
      ∧ t1.usedColumns = sampleTrivial.usedColumns
      ∧ t1.textAttributes = sampleTrivial.textAttributes
      ∧ t1.fillAttributes = sampleTrivial.fillAttributes
      ∧ t1.hyperlink = sampleTrivial.hyperlink
      ∧ line1.wrappable = sampleTrivialLine.wrappable
      ∧ line1.marked = sampleTrivialLine.marked :=
  reflow_trivial_widen sampleUnicode sampleTrivialLine sampleTrivial 9 rfl (by decide)

/-- C10: the rendering of an inflated line is the in-order concatenation, over
its cells, of a single space for a cell without codepoints and of the cell's
own UTF-8 otherwise; a line of only empty cells renders as one space per
cell. -/
theorem toUtf8_inflated_concat {sigma : Type} (U : Unicode sigma) (line : Line)
    (cells : InflatedBuffer) (hs : line.storage = Storage.inflated cells) :
    line.toUtf8 U
        = cells.flatMap (fun cell => if cell.codepointCount = 0 then [space] else cell.toUtf8 U)
      ∧ ((∀ x ∈ cells, x.empty = true) → line.toUtf8 U = List.replicate cells.length space) := by
  constructor
  · simp only [toUtf8, hs, toUtf8Inflated_eq]
    rfl
  · intro h
    simp only [toUtf8, hs]
    exact toUtf8Inflated_all_empty U cells h

/-- C10 at a sample line: the cells `A B _ C _ _` render as `AB C  `. -/
theorem toUtf8_inflated_concat_witness :
    sampleLine.toUtf8 sampleUnicode = [65, 66, 32, 67, 32, 32]
      ∧ sampleLine.toUtf8 sampleUnicode
        = sampleCells.flatMap
            (fun cell => if cell.codepointCount = 0 then [space] else cell.toUtf8 sampleUnicode) :=
  ⟨by decide, (toUtf8_inflated_concat sampleUnicode sampleLine sampleCells rfl).1⟩

end Line

/-! ### `inflate` -/

theorem emplaceBackTimes_eq (cell : Cell) (k : Nat) :
    ∀ columns, emplaceBackTimes cell k columns = columns ++ List.replicate k cell := by
  induction k with
  | zero => intro columns; simp [emplaceBackTimes]
  | succ k ih =>
    intro columns
    simp [emplaceBackTimes, ih, List.replicate_succ]

theorem carriesText_append (input : TrivialLineBuffer) (a b : InflatedBuffer)
    (ha : carriesText input a) (hb : carriesText input b) : carriesText input (a ++ b) := by
  intro x hx
  rcases List.mem_append.mp hx with h | h
  · exact ha x h
  · exact hb x h

theorem carriesText_replicate (input : TrivialLineBuffer) (k : Nat) (cell : Cell)
    (h1 : cell.attributes = input.textAttributes) (h2 : cell.hyperlink = input.hyperlink) :
    carriesText input (List.replicate k cell) := by
  intro x hx
  rw [List.eq_of_mem_replicate hx]
  exact ⟨h1, h2⟩

theorem getLast?_split (columns : InflatedBuffer) (prevCell : Cell)
    (h : columns.getLast? = some prevCell) : columns = columns.dropLast ++ [prevCell] := by
  have hne : columns ≠ [] := by
    intro hnil
    simp [hnil] at h
  rw [List.getLast?_eq_getLast _ hne] at h
  have h2 : columns.getLast hne = prevCell := by simpa using h
  rw [← h2, List.dropLast_append_getLast hne]

theorem inflateChar_carriesText {sigma : Type} (U : Unicode sigma) (input : TrivialLineBuffer)
    (st st1 : InflateState sigma) (nextChar : Nat)
    (h : inflateChar U input st nextChar = some st1) (hc : carriesText input st.columns) :
    carriesText input st1.columns := by
  unfold inflateChar at h
  split at h
  · simp only [Option.some.injEq] at h
    rw [← h]
    simp only [emplaceBackTimes_eq]
    refine carriesText_append _ _ _ (carriesText_append _ _ _ hc ?_) ?_
    · exact carriesText_replicate _ _ _ rfl rfl
    · intro x hx
      simp only [List.mem_singleton] at hx
      rw [hx]
      exact ⟨rfl, rfl⟩
  · split at h
    · exact absurd h (by simp)
    · rename_i prevCell hlast
      have hsplit := getLast?_split _ _ hlast
      have hprev : prevCell.attributes = input.textAttributes
          ∧ prevCell.hyperlink = input.hyperlink := by
        apply hc
        rw [hsplit]
        simp
      have hdl : carriesText input st.columns.dropLast := by
        intro x hx
        exact hc x (List.mem_of_mem_dropLast hx)
      have hback : carriesText input
          (setBack st.columns (prevCell.appendCharacter U nextChar).1) := by
        refine carriesText_append _ _ _ hdl ?_
        intro x hx
        simp only [List.mem_singleton] at hx
        rw [hx]
        exact hprev
      dsimp only at h
      split at h
      · simp only [Option.some.injEq] at h
        rw [← h]
        simp only [emplaceBackTimes_eq]
        exact carriesText_append _ _ _ hback (carriesText_replicate _ _ _ rfl rfl)
      · simp only [Option.some.injEq] at h
        rw [← h]
        exact hback

theorem inflateStep_carriesText {sigma : Type} (U : Unicode sigma) (input : TrivialLineBuffer)
    (st st1 : InflateState sigma) (ch : Nat)
    (h : inflateStep U input st ch = some st1) (hc : carriesText input st.columns) :
    carriesText input st1.columns := by
  unfold inflateStep at h
  dsimp only at h
  split at h
  · simp only [Option.some.injEq] at h
    rw [← h]
    exact hc
  · exact inflateChar_carriesText U input _ st1 _ h hc
  · exact inflateChar_carriesText U input _ st1 _ h hc

theorem inflateLoop_carriesText {sigma : Type} (U : Unicode sigma) (input : TrivialLineBuffer)
    (text : List Nat) :
    ∀ (st st1 : InflateState sigma), inflateLoop U input text st = some st1 →
      carriesText input st.columns → carriesText input st1.columns := by
  induction text with
  | nil =>
    intro st st1 h hc
    simp only [inflateLoop, Option.some.injEq] at h
    rw [← h]
    exact hc
  | cons ch rest ih =>
    intro st st1 h hc
    simp only [inflateLoop] at h
    split at h
    · exact absurd h (by simp)
    · rename_i st2 hstep
      exact ih st2 st1 h (inflateStep_carriesText U input st st2 ch hstep hc)

theorem inflateText_carriesText {sigma : Type} (U : Unicode sigma) (input : TrivialLineBuffer)
    (columns : InflatedBuffer) (h : inflateText U input = some columns) :
    carriesText input columns := by
  unfold inflateText at h
  split at h
  · exact absurd h (by simp)
  · rename_i st hloop
    simp only [Option.some.injEq] at h
    rw [← h, emplaceBackTimes_eq]
    refine carriesText_append _ _ _ ?_ (carriesText_replicate _ _ _ rfl rfl)
    exact inflateLoop_carriesText U input input.text _ st hloop (by intro x hx; simp at hx)

theorem inflate_eq {sigma : Type} (U : Unicode sigma) (input : TrivialLineBuffer)
    (columns : InflatedBuffer) (h : inflateText U input = some columns) :
    inflate U input = some (columns
      ++ List.replicate (input.displayWidth - columns.length)
          (Cell.ofAttributes input.fillAttributes)) := by
  simp [inflate, h, emplaceBackTimes_eq]

/-- C2: for a trivial buffer with `usedColumns <= displayWidth` whose text
inflates to exactly `usedColumns` cells, `inflate` returns exactly
`displayWidth` cells; the first `usedColumns` of them carry the text attributes
and the hyperlink of the buffer, and every cell from index `usedColumns` on is
empty and carries the fill attributes. -/
theorem inflate_cells {sigma : Type} (U : Unicode sigma) (input : TrivialLineBuffer)
    (columns : InflatedBuffer) (hle : input.usedColumns ≤ input.displayWidth)
    (htext : inflateText U input = some columns)
    (hused : columns.length = input.usedColumns) :
    ∃ cells, inflate U input = some cells
      ∧ cells.length = input.displayWidth
      ∧ (∀ x ∈ cells.take input.usedColumns,
          x.attributes = input.textAttributes ∧ x.hyperlink = input.hyperlink)
      ∧ (∀ x ∈ cells.drop input.usedColumns,
          x.empty = true ∧ x.attributes = input.fillAttributes) := by
  refine ⟨_, inflate_eq U input columns htext, ?_, ?_, ?_⟩
  · simp; omega
  · rw [← hused, List.take_left]
    exact inflateText_carriesText U input columns htext
  · rw [← hused, List.drop_left]
    intro x hx
    rw [List.eq_of_mem_replicate hx]
    exact ⟨rfl, rfl⟩

/-- C2 at a sample buffer: the text `AB` in five columns. -/
theorem inflate_cells_witness :
    ∃ cells, inflate sampleUnicode sampleTrivial = some cells
      ∧ cells.length = sampleTrivial.displayWidth
      ∧ (∀ x ∈ cells.take sampleTrivial.usedColumns,
          x.attributes = sampleTrivial.textAttributes ∧ x.hyperlink = sampleTrivial.hyperlink)
      ∧ (∀ x ∈ cells.drop sampleTrivial.usedColumns,
          x.empty = true ∧ x.attributes = sampleTrivial.fillAttributes) :=
  inflate_cells sampleUnicode sampleTrivial
    [(Cell.blank.setHyperlink 7).write sampleText 65 1,
     (Cell.blank.setHyperlink 7).write sampleText 66 1]
    (by decide) (by decide) (by decide)

theorem storedText_append {sigma : Type} (U : Unicode sigma) (a b : InflatedBuffer) :
    storedText U (a ++ b) = storedText U a ++ storedText U b := by
  simp [storedText]

theorem storedText_replicate {sigma : Type} (U : Unicode sigma) (k : Nat) (cell : Cell)
    (h : cell.codepoints = []) : storedText U (List.replicate k cell) = [] := by
  induction k with
  | zero => simp [storedText]
  | succ k ih =>
    simp only [storedText] at ih
    simp [storedText, List.replicate_succ, Cell.toUtf8, h, ih]

theorem inflateChar_storedText {sigma : Type} (U : Unicode sigma) (input : TrivialLineBuffer)
    (st st1 : InflateState sigma) (nextChar : Nat)
    (h : inflateChar U input st nextChar = some st1) :
    storedText U st1.columns = storedText U st.columns ++ U.to_utf8 nextChar
      ∧ st1.utf8DecoderState = st.utf8DecoderState := by
  unfold inflateChar at h
  split at h
  · simp only [Option.some.injEq] at h
    rw [← h]
    simp only [emplaceBackTimes_eq, storedText_append, and_true]
    rw [storedText_replicate U _ _ rfl]
    simp [storedText, Cell.toUtf8, Cell.write]
  · split at h
    · exact absurd h (by simp)
    · rename_i prevCell hlast
      have hsplit := getLast?_split _ _ hlast
      have hback : storedText U (setBack st.columns (prevCell.appendCharacter U nextChar).1)
          = storedText U st.columns ++ U.to_utf8 nextChar := by
        conv_rhs => rw [hsplit]
        simp [setBack, storedText, Cell.toUtf8, Cell.appendCharacter]
      dsimp only at h
      split at h
      · simp only [Option.some.injEq] at h
        rw [← h]
        simp only [emplaceBackTimes_eq, storedText_append, and_true]
        rw [storedText_replicate U _ _ rfl, hback]
        simp
      · simp only [Option.some.injEq] at h
        rw [← h]
        exact ⟨hback, rfl⟩

theorem inflateStep_storedText {sigma : Type} (U : Unicode sigma) (input : TrivialLineBuffer)
    (st st1 : InflateState sigma) (ch : Nat) (rest : List Nat)
    (h : inflateStep U input st ch = some st1) :
    storedText U st1.columns ++ (decodeText U st1.utf8DecoderState rest).flatMap U.to_utf8
      = storedText U st.columns
          ++ (decodeText U st.utf8DecoderState (ch :: rest)).flatMap U.to_utf8 := by
  unfold inflateStep at h
  dsimp only at h
  split at h
  · rename_i hr
    simp only [Option.some.injEq] at h
    rw [← h]
    simp [decodeText, hr]
  · rename_i value hr
    obtain ⟨h1, h2⟩ := inflateChar_storedText U input _ st1 _ h
    rw [h1, h2]
    simp [decodeText, hr]
  · rename_i hr
    obtain ⟨h1, h2⟩ := inflateChar_storedText U input _ st1 _ h
    rw [h1, h2]
    simp [decodeText, hr]

theorem inflateLoop_storedText {sigma : Type} (U : Unicode sigma) (input : TrivialLineBuffer)
    (text : List Nat) :
    ∀ (st st1 : InflateState sigma), inflateLoop U input text st = some st1 →
      storedText U st1.columns
        = storedText U st.columns
            ++ (decodeText U st.utf8DecoderState text).flatMap U.to_utf8 := by
  induction text with
  | nil =>
    intro st st1 h
    simp only [inflateLoop, Option.some.injEq] at h
    rw [← h]
    simp [decodeText]
  | cons ch rest ih =>
    intro st st1 h
    simp only [inflateLoop] at h
    split at h
    · exact absurd h (by simp)
    · rename_i st2 hstep
      rw [ih st2 st1 h, inflateStep_storedText U input st st2 ch rest hstep]

theorem inflateText_storedText {sigma : Type} (U : Unicode sigma) (input : TrivialLineBuffer)
    (columns : InflatedBuffer) (h : inflateText U input = some columns) :
    storedText U columns = (decodeText U U.init input.text).flatMap U.to_utf8 := by
  unfold inflateText at h
  split at h
  · exact absurd h (by simp)
  · rename_i st hloop
    simp only [Option.some.injEq] at h
    rw [← h, emplaceBackTimes_eq, storedText_append, storedText_replicate U _ _ rfl,
      inflateLoop_storedText U input input.text _ st hloop]
    simp [storedText]

theorem toUtf8Inflated_of_nonempty {sigma : Type} (U : Unicode sigma) (cells : InflatedBuffer)
    (h : ∀ x ∈ cells, x.empty = false) : Line.toUtf8Inflated U cells = storedText U cells := by
  rw [Line.toUtf8Inflated_eq]
  induction cells with
  | nil => simp [storedText]
  | cons cell rest ih =>
    have h0 : ¬ cell.codepointCount = 0 := by
      have := h cell (List.mem_cons_self _ _)
      simpa [Cell.empty] using this
    have ih2 := ih (fun x hx => h x (List.mem_cons_of_mem _ hx))
    simp only [storedText] at ih2
    simp [storedText, Line.renderCell, h0, ih2]

theorem appendSpaces_eq (k : Nat) :
    ∀ str, Line.appendSpaces k str = str ++ List.replicate k space := by
  induction k with
  | zero => intro str; simp [Line.appendSpaces]
  | succ k ih =>
    intro str
    simp [Line.appendSpaces, ih, List.replicate_succ]

/-- C1, the claim as stated fails: the trivial buffer holding the wide
ideograph U+4E2D satisfies the preconditions (`usedColumns <= displayWidth`,
the text inflates to `usedColumns` cells), yet its inflated rendering has a
space for the continuation cell that the trivial rendering lacks; and for the
buffer whose text is the byte `0xFF` the inflated rendering holds the encoding
of U+FFFD where the trivial rendering holds the byte itself. -/
theorem inflate_toUtf8_differs :
    (sampleWideTrivial.usedColumns ≤ sampleWideTrivial.displayWidth
      ∧ (inflateText sampleUnicode sampleWideTrivial).map List.length
          = some sampleWideTrivial.usedColumns
      ∧ (inflate sampleUnicode sampleWideTrivial).map (Line.toUtf8Inflated sampleUnicode)
          = some [0xE4, 0xB8, 0xAD, 32, 32]
      ∧ Line.toUtf8Trivial sampleWideTrivial = [0xE4, 0xB8, 0xAD, 32]
      ∧ (inflate sampleUnicode sampleWideTrivial).map (Line.toUtf8Inflated sampleUnicode)
          ≠ some (Line.toUtf8Trivial sampleWideTrivial))
    ∧ (sampleInvalidTrivial.usedColumns ≤ sampleInvalidTrivial.displayWidth
      ∧ (inflateText sampleUnicode sampleInvalidTrivial).map List.length
          = some sampleInvalidTrivial.usedColumns
      ∧ (inflate sampleUnicode sampleInvalidTrivial).map (Line.toUtf8Inflated sampleUnicode)
          = some [0xEF, 0xBF, 0xBD, 32]
      ∧ Line.toUtf8Trivial sampleInvalidTrivial = [0xFF, 32]
      ∧ (inflate sampleUnicode sampleInvalidTrivial).map (Line.toUtf8Inflated sampleUnicode)
          ≠ some (Line.toUtf8Trivial sampleInvalidTrivial)) := by
  decide

/-- C1, amended: for a trivial buffer with `usedColumns <= displayWidth` whose
text inflates to exactly `usedColumns` cells, none of them an empty
continuation cell (the text holds no wide character), and whose text is
well-formed (encoding the codepoints decoded from it gives the text back),
rendering the cells returned by `inflate` with the inflated branch of `toUtf8`
yields the same string as the trivial branch: the text followed by
`displayWidth - usedColumns` spaces. -/
theorem inflate_toUtf8_roundtrip {sigma : Type} (U : Unicode sigma) (input : TrivialLineBuffer)
    (columns : InflatedBuffer) (_hle : input.usedColumns ≤ input.displayWidth)
    (htext : inflateText U input = some columns)
    (hused : columns.length = input.usedColumns)
    (hnarrow : ∀ x ∈ columns, x.empty = false)
    (hvalid : (decodeText U U.init input.text).flatMap U.to_utf8 = input.text) :
    ∃ cells, inflate U input = some cells
      ∧ Line.toUtf8Inflated U cells = Line.toUtf8Trivial input
      ∧ Line.toUtf8Trivial input
          = input.text ++ List.replicate (input.displayWidth - input.usedColumns) space := by
  refine ⟨_, inflate_eq U input columns htext, ?_, ?_⟩
  · rw [Line.toUtf8Inflated_append, toUtf8Inflated_of_nonempty U columns hnarrow,
      inflateText_storedText U input columns htext, hvalid,
      Line.toUtf8Inflated_all_empty U _ (by
        intro x hx
        rw [List.eq_of_mem_replicate hx]
        rfl)]
    simp [Line.toUtf8Trivial, appendSpaces_eq, hused]
  · simp [Line.toUtf8Trivial, appendSpaces_eq]

/-- C1, amended, at a sample buffer: the text `AB` in five columns renders as
`AB` and three spaces in both forms. -/
theorem inflate_toUtf8_roundtrip_witness :
    ∃ cells, inflate sampleUnicode sampleTrivial = some cells
      ∧ Line.toUtf8Inflated sampleUnicode cells = Line.toUtf8Trivial sampleTrivial
      ∧ Line.toUtf8Trivial sampleTrivial
          = sampleTrivial.text
              ++ List.replicate (sampleTrivial.displayWidth - sampleTrivial.usedColumns) space :=
  inflate_toUtf8_roundtrip sampleUnicode sampleTrivial
    [(Cell.blank.setHyperlink 7).write sampleText 65 1,
     (Cell.blank.setHyperlink 7).write sampleText 66 1]
    (by decide) (by decide) (by decide) (by decide) (by decide)

/-! ### `trim_blank_right` and `toUtf8Trimmed` -/

namespace Line

theorem trimBlankRightLoop_eq (buffer : InflatedBuffer) :
    ∀ e, trimBlankRightLoop buffer e = reflowEndLoop buffer 0 e := by
  intro e
  induction e with
  | zero => rfl
  | succ e ih => simp [trimBlankRightLoop, reflowEndLoop, ih]

theorem trimBlankRight_take (buffer : InflatedBuffer) :
    buffer.take (trimBlankRightLoop buffer buffer.length) = buffer.rdropWhile Cell.empty := by
  have h := reflowEndLoop_spec buffer 0 buffer.length (Nat.zero_le _) (le_refl _)
  simpa [trimBlankRightLoop_eq] using h

/-- C11: on an inflated line with cells `c`, `trim_blank_right()` returns `c`
without its trailing empty cells: a prefix of `c` after which every cell of `c`
is empty, that is empty or ends in a non-empty cell, and that is the longest
such prefix; for a line of only empty cells it is the empty view. -/
theorem trim_blank_right_spec (line : Line) (c : InflatedBuffer)
    (hs : line.storage = Storage.inflated c) :
    ∃ r, line.trim_blank_right = some r
      ∧ r = c.rdropWhile Cell.empty
      ∧ r <+: c
      ∧ (∀ x ∈ c.drop r.length, x.empty = true)
      ∧ (∀ h : r ≠ [], (r.getLast h).empty = false)
      ∧ (∀ p : InflatedBuffer, p <+: c → (∀ h : p ≠ [], (p.getLast h).empty = false) →
          p.length ≤ r.length)
      ∧ ((∀ x ∈ c, x.empty = true) → r = []) := by
  have hrest := rdropWhile_rest_all Cell.empty c
  refine ⟨c.rdropWhile Cell.empty, ?_, rfl, List.rdropWhile_prefix _ _, hrest, ?_, ?_, ?_⟩
  · simp [trim_blank_right, hs, trimBlankRight_take]
  · intro h
    have := List.rdropWhile_last_not Cell.empty c h
    simpa using this
  · intro p hp hlast
    by_contra hlt
    generalize (c.rdropWhile Cell.empty).length = k at hrest hlt
    have hlt2 : k < p.length := by omega
    have hpne : p ≠ [] := by
      intro h0
      simp [h0] at hlt2
    obtain ⟨t, ht⟩ := hp
    have hd : p.drop k ≠ [] := by
      intro h0
      have := congrArg List.length h0
      simp at this
      omega
    have hmem : p.getLast hpne ∈ c.drop k := by
      rw [← ht, List.drop_append_of_le_length (by omega)]
      apply List.mem_append_left
      rw [← List.getLast_drop hd]
      exact List.getLast_mem hd
    have h1 := hrest _ hmem
    have h2 := hlast hpne
    rw [h1] at h2
    exact absurd h2 (by simp)
  · intro hall
    exact List.rdropWhile_eq_nil_iff.mpr hall

/-- C11 at a sample line: the cells `A B _ C _ _` are trimmed to `A B _ C`. -/
theorem trim_blank_right_spec_witness :
    ∃ r, sampleLine.trim_blank_right = some r
      ∧ r = sampleCells.rdropWhile Cell.empty
      ∧ r <+: sampleCells
      ∧ (∀ x ∈ sampleCells.drop r.length, x.empty = true)
      ∧ (∀ h : r ≠ [], (r.getLast h).empty = false)
      ∧ (∀ p : InflatedBuffer, p <+: sampleCells →
          (∀ h : p ≠ [], (p.getLast h).empty = false) → p.length ≤ r.length)
      ∧ ((∀ x ∈ sampleCells, x.empty = true) → r = []) :=
  trim_blank_right_spec sampleLine sampleCells rfl

theorem popBackSpaces_eq :
    ∀ (fuel : Nat) (output : List Nat), output.length ≤ fuel →
      popBackSpaces fuel output = output.rdropWhile isspace := by
  intro fuel
  induction fuel with
  | zero =>
    intro output h
    have h0 : output = [] := List.length_eq_zero.mp (by omega)
    simp [popBackSpaces, h0, List.rdropWhile_nil]
  | succ fuel ih =>
    intro output h
    induction output using List.reverseRecOn with
    | nil => simp [popBackSpaces, List.rdropWhile_nil]
    | append_singleton l c _ =>
      have hl : l.length ≤ fuel := by
        simp at h
        omega
      rw [List.rdropWhile_concat]
      by_cases hc : isspace c = true
      · simp [popBackSpaces, hc, ih l hl]
      · simp [popBackSpaces, hc]

theorem frontGapLoop_drop (output : List Nat) :
    ∀ (fuel frontGap : Nat), output.length ≤ frontGap + fuel →
      output.drop (frontGapLoop output fuel frontGap)
        = (output.drop frontGap).dropWhile isspace := by
  intro fuel
  induction fuel with
  | zero =>
    intro frontGap h
    have h0 : output.drop frontGap = [] := List.drop_eq_nil_of_le (by omega)
    simp [frontGapLoop, h0]
  | succ fuel ih =>
    intro frontGap h
    by_cases hlt : frontGap < output.length
    · have hsplit : output.drop frontGap
          = output.getD frontGap 0 :: output.drop (frontGap + 1) := by
        rw [List.drop_eq_getElem_cons hlt]
        simp [List.getD, List.getElem?_eq_getElem hlt]
      by_cases hc : isspace (output.getD frontGap 0) = true
      · have hcond : frontGap < output.length ∧ isspace (output.getD frontGap 0) = true :=
          ⟨hlt, hc⟩
        rw [frontGapLoop, if_pos hcond, ih (frontGap + 1) (by omega), hsplit,
          List.dropWhile_cons_of_pos hc]
      · have hcond : ¬ (frontGap < output.length ∧ isspace (output.getD frontGap 0) = true) :=
          fun h1 => hc h1.2
        rw [frontGapLoop, if_neg hcond, hsplit, List.dropWhile_cons_of_neg hc]
    · have hcond : ¬ (frontGap < output.length ∧ isspace (output.getD frontGap 0) = true) :=
        fun h1 => hlt h1.1
      have h0 : output.drop frontGap = [] := List.drop_eq_nil_of_le (by omega)
      rw [frontGapLoop, if_neg hcond, h0]
      rfl

theorem toUtf8Trimmed_eq {sigma : Type} (U : Unicode sigma) (line : Line) :
    line.toUtf8Trimmed U = ((line.toUtf8 U).rdropWhile isspace).dropWhile isspace := by
  unfold toUtf8Trimmed
  simp only [popBackSpaces_eq _ _ (le_refl _)]
  rw [frontGapLoop_drop _ _ 0 (by omega)]
  simp

/-- C12: for every line, `toUtf8Trimmed()` returns the string `r` with
`toUtf8() = w1 ++ r ++ w2`, where `w1` and `w2` consist only of whitespace
bytes and `r` neither begins nor ends with a whitespace byte; `r` is empty when
the line renders to whitespace only. -/
theorem toUtf8Trimmed_spec {sigma : Type} (U : Unicode sigma) (line : Line) :
    ∃ w1 w2, line.toUtf8 U = w1 ++ line.toUtf8Trimmed U ++ w2
      ∧ (∀ c ∈ w1, isspace c = true)
      ∧ (∀ c ∈ w2, isspace c = true)
      ∧ (∀ h : line.toUtf8Trimmed U ≠ [],
          isspace ((line.toUtf8Trimmed U).head h) = false
            ∧ isspace ((line.toUtf8Trimmed U).getLast h) = false)
      ∧ ((∀ c ∈ line.toUtf8 U, isspace c = true) → line.toUtf8Trimmed U = []) := by
  rw [toUtf8Trimmed_eq]
  generalize line.toUtf8 U = l
  have hpre : l.rdropWhile isspace <+: l := List.rdropWhile_prefix _ _
  refine ⟨(l.rdropWhile isspace).takeWhile isspace, l.drop (l.rdropWhile isspace).length,
    ?_, ?_, ?_, ?_, ?_⟩
  · rw [List.takeWhile_append_dropWhile]
    exact (List.prefix_iff_eq_append.mp hpre).symm
  · intro c hc
    exact List.mem_takeWhile_imp hc
  · exact rdropWhile_rest_all isspace l
  · intro h
    constructor
    · have := List.head_dropWhile_not isspace (l.rdropWhile isspace) h
      simpa using this
    · have hm : l.rdropWhile isspace ≠ [] := by
        intro h0
        rw [h0] at h
        exact h rfl
      have hlast := List.rdropWhile_last_not isspace l hm
      have hsuf : (l.rdropWhile isspace).dropWhile isspace <:+ l.rdropWhile isspace :=
        List.dropWhile_suffix _
      obtain ⟨t, ht⟩ := hsuf
      have heq : ((l.rdropWhile isspace).dropWhile isspace).getLast h
          = (l.rdropWhile isspace).getLast hm := by
        have h2 : (t ++ (l.rdropWhile isspace).dropWhile isspace).getLast
            (by simp [h]) = ((l.rdropWhile isspace).dropWhile isspace).getLast h :=
          List.getLast_append_of_ne_nil h
        rw [← h2]
        congr 1
      rw [heq]
      simpa using hlast
  · intro hall
    rw [List.rdropWhile_eq_nil_iff.mpr hall]
    rfl

end Line

/-! ### `inflate`: decoding and wide characters -/

theorem inflateLoop_append {sigma : Type} (U : Unicode sigma) (input : TrivialLineBuffer)
    (a b : List Nat) :
    ∀ st : InflateState sigma,
      inflateLoop U input (a ++ b) st = (inflateLoop U input a st).bind (inflateLoop U input b) := by
  induction a with
  | nil => intro st; simp [inflateLoop]
  | cons ch rest ih =>
    intro st
    simp only [List.cons_append, inflateLoop]
    cases inflateStep U input st ch with
    | none => simp
    | some st1 => simpa using ih st1

theorem inflateLoop_cons {sigma : Type} (U : Unicode sigma) (input : TrivialLineBuffer)
    (ch : Nat) (rest : List Nat) (st : InflateState sigma) :
    inflateLoop U input (ch :: rest) st
      = (inflateStep U input st ch).bind (inflateLoop U input rest) := by
  simp only [inflateLoop]
  cases inflateStep U input st ch <;> rfl

/-- C13: when `inflate` has read `pre` and the decoder reports the next byte `b`
as invalid, the loop goes on exactly as if U+FFFD had been decoded: U+FFFD is
given to the loop body, and the bytes after `b` are decoded from the state the
decoder is left in; a byte reported as incomplete only advances the decoder and
the cells are passed on untouched. Whatever codepoint the body gets, it stores
that codepoint's encoding after the text stored so far. -/
theorem inflate_invalid_replaced {sigma : Type} (U : Unicode sigma) (input : TrivialLineBuffer)
    (pre post : List Nat) (b : Nat) (st0 st1 : InflateState sigma)
    (hpre : inflateLoop U input pre st0 = some st1) :
    ((U.from_utf8 st1.utf8DecoderState b).2 = ConvertResult.Invalid →
        inflateLoop U input (pre ++ b :: post) st0
          = (inflateChar U input (afterByte U st1 b) ReplacementCharacter).bind
              (inflateLoop U input post))
      ∧ ((U.from_utf8 st1.utf8DecoderState b).2 = ConvertResult.Incomplete →
        inflateLoop U input (pre ++ b :: post) st0 = inflateLoop U input post (afterByte U st1 b)
          ∧ (afterByte U st1 b).columns = st1.columns)
      ∧ (∀ st2, inflateChar U input (afterByte U st1 b) ReplacementCharacter = some st2 →
          storedText U st2.columns = storedText U st1.columns ++ U.to_utf8 0xFFFD
            ∧ st2.utf8DecoderState = (U.from_utf8 st1.utf8DecoderState b).1) := by
  refine ⟨?_, ?_, ?_⟩
  · intro hr
    rw [inflateLoop_append, hpre, Option.some_bind, inflateLoop_cons]
    simp [inflateStep, hr, afterByte]
  · intro hr
    rw [inflateLoop_append, hpre, Option.some_bind, inflateLoop_cons]
    simp [inflateStep, hr, afterByte]
  · intro st2 h
    have := inflateChar_storedText U input _ st2 _ h
    simpa [afterByte, ReplacementCharacter] using this

/-- C13 at a sample text: in `A`, `0xFF`, `B` the byte `0xFF` is invalid, and
the loop goes on with U+FFFD in its place. -/
theorem inflate_invalid_replaced_witness :
    inflateLoop sampleUnicode sampleTrivial ([65] ++ 0xFF :: [66]) (initialInflateState sampleUnicode)
      = (inflateChar sampleUnicode sampleTrivial (afterByte sampleUnicode sampleStateAfterA 0xFF)
          ReplacementCharacter).bind (inflateLoop sampleUnicode sampleTrivial [66]) :=
  (inflate_invalid_replaced sampleUnicode sampleTrivial [65] [66] 0xFF
    (initialInflateState sampleUnicode) sampleStateAfterA rfl).1 rfl

theorem inflateChar_breakable {sigma : Type} (U : Unicode sigma) (input : TrivialLineBuffer)
    (st : InflateState sigma) (c : Nat) (hb : U.breakable st.lastChar c = true)
    (h1 : 1 ≤ U.width c) (h2 : U.width c < 256) :
    inflateChar U input st c
      = some { columns := flushedColumns input st ++ [clusterCell U input c]
               lastChar := c
               utf8DecoderState := st.utf8DecoderState
               gapPending := U.width c - 1 } := by
  have hw : (U.width c % 256).toNat = (U.width c).toNat := by
    rw [Int.emod_eq_of_lt (by omega) h2]
  simp [inflateChar, hb, emplaceBackTimes_eq, flushedColumns, continuationCell, clusterCell,
    Cell.write, Cell.setHyperlink, Cell.blank, hw]

theorem inflateLoop_clusters {sigma : Type} (U : Unicode sigma) (input : TrivialLineBuffer)
    (text : List Nat) :
    ∀ st : InflateState sigma,
      startsClusters U st.lastChar (decodeText U st.utf8DecoderState text) = true →
      (∀ c ∈ decodeText U st.utf8DecoderState text, 1 ≤ U.width c ∧ U.width c < 256) →
      ∃ st1, inflateLoop U input text st = some st1
        ∧ flushedColumns input st1
            = flushedColumns input st
              ++ (decodeText U st.utf8DecoderState text).flatMap (fun c =>
                  clusterCell U input c
                    :: List.replicate ((U.width c).toNat - 1) (continuationCell input)) := by
  induction text with
  | nil =>
    intro st _ _
    exact ⟨st, rfl, by simp [decodeText]⟩
  | cons ch rest ih =>
    intro st hs hw
    have key : ∀ v : Nat,
        decodeText U st.utf8DecoderState (ch :: rest)
          = v :: decodeText U (U.from_utf8 st.utf8DecoderState ch).1 rest →
        inflateStep U input st ch = inflateChar U input (afterByte U st ch) v →
        ∃ st1, inflateLoop U input (ch :: rest) st = some st1
          ∧ flushedColumns input st1
              = flushedColumns input st
                ++ (decodeText U st.utf8DecoderState (ch :: rest)).flatMap (fun c =>
                    clusterCell U input c
                      :: List.replicate ((U.width c).toNat - 1) (continuationCell input)) := by
      intro v hd hstep
      rw [hd] at hs hw ⊢
      simp only [startsClusters, Bool.and_eq_true] at hs
      have hwv := hw v (List.mem_cons_self _ _)
      have hchar := inflateChar_breakable U input (afterByte U st ch) v hs.1 hwv.1 hwv.2
      obtain ⟨st1, hloop, hflush⟩ := ih
        { columns := flushedColumns input (afterByte U st ch) ++ [clusterCell U input v]
          lastChar := v
          utf8DecoderState := (afterByte U st ch).utf8DecoderState
          gapPending := U.width v - 1 }
        (by simpa [afterByte] using hs.2)
        (by
          intro c hc
          exact hw c (List.mem_cons_of_mem _ (by simpa [afterByte] using hc)))
      refine ⟨st1, ?_, ?_⟩
      · rw [inflateLoop_cons, hstep, hchar, Option.some_bind]
        exact hloop
      · rw [hflush]
        have hgap : (U.width v - 1).toNat = (U.width v).toNat - 1 := by omega
        simp [flushedColumns, afterByte, hgap]
    cases hr : (U.from_utf8 st.utf8DecoderState ch).2 with
    | Incomplete =>
      have hd : decodeText U st.utf8DecoderState (ch :: rest)
          = decodeText U (U.from_utf8 st.utf8DecoderState ch).1 rest := by
        simp [decodeText, hr]
      rw [hd] at hs hw ⊢
      obtain ⟨st1, hloop, hflush⟩ := ih (afterByte U st ch) (by simpa [afterByte] using hs)
        (by simpa [afterByte] using hw)
      refine ⟨st1, ?_, ?_⟩
      · rw [inflateLoop_cons]
        simp only [inflateStep, hr, Option.some_bind]
        exact hloop
      · rw [hflush]
        simp [flushedColumns, afterByte]
    | Success value =>
      exact key value (by simp [decodeText, hr]) (by simp [inflateStep, hr, afterByte])
    | Invalid =>
      exact key ReplacementCharacter (by simp [decodeText, hr])
        (by simp [inflateStep, hr, afterByte])

/-- C14: a codepoint that starts a new grapheme cluster and has display width
`w >= 1` makes `inflate` flush the pending gap and append one cell holding that
codepoint with width `w`, the text attributes and the hyperlink, and leaves
`w - 1` continuation cells pending; and for a text all of whose codepoints
start a cluster and have a width of at least 1, the cells of the text are, per
codepoint, that cell followed by exactly `w - 1` continuation cells (no
codepoints, text attributes, hyperlink), so the text occupies the sum of the
widths in cells. A codepoint that joins the previous cluster without extending
its width leaves the pending continuation cells and the number of cells as they
are. Widths are taken below 256, the range of the `uint8_t` the width is stored
in. -/
theorem inflate_wide_cells {sigma : Type} (U : Unicode sigma) (input : TrivialLineBuffer) :
    (∀ (st : InflateState sigma) (c : Nat), U.breakable st.lastChar c = true →
        1 ≤ U.width c → U.width c < 256 →
        inflateChar U input st c
          = some { columns := st.columns
                      ++ List.replicate st.gapPending.toNat (continuationCell input)
                      ++ [clusterCell U input c]
                   lastChar := c
                   utf8DecoderState := st.utf8DecoderState
                   gapPending := U.width c - 1 })
      ∧ (startsClusters U 0 (decodeText U U.init input.text) = true →
          (∀ c ∈ decodeText U U.init input.text, 1 ≤ U.width c ∧ U.width c < 256) →
          ∃ cells, inflateText U input = some cells
            ∧ cells = (decodeText U U.init input.text).flatMap (fun c =>
                clusterCell U input c
                  :: List.replicate ((U.width c).toNat - 1) (continuationCell input))
            ∧ cells.length
                = ((decodeText U U.init input.text).map (fun c => (U.width c).toNat)).sum)
      ∧ ((continuationCell input).codepointCount = 0
          ∧ (continuationCell input).attributes = input.textAttributes
          ∧ (continuationCell input).hyperlink = input.hyperlink)
      ∧ (∀ (st : InflateState sigma) (c : Nat) (prevCell : Cell),
          U.breakable st.lastChar c = false → st.columns.getLast? = some prevCell →
          U.extendedWidth prevCell.width c ≤ 0 →
          ∃ st1, inflateChar U input st c = some st1
            ∧ st1.gapPending = st.gapPending
            ∧ st1.columns.length = st.columns.length
            ∧ st1.columns.dropLast = st.columns.dropLast) := by
  refine ⟨?_, ?_, ⟨rfl, rfl, rfl⟩, ?_⟩
  rotate_left 2
  · intro st c prevCell hb hlast hext
    have hne : st.columns ≠ [] := by
      intro h0
      rw [h0] at hlast
      simp at hlast
    have hnot : ¬ (Cell.appendCharacter U prevCell c).2 > 0 := by
      simp only [Cell.appendCharacter]
      omega
    refine ⟨{ st with columns := setBack st.columns (prevCell.appendCharacter U c).1,
                      lastChar := c }, ?_, rfl, ?_, ?_⟩
    · simp only [inflateChar, hb, hlast]
      rw [if_neg hnot]
      simp
    · simp only [setBack, List.length_append, List.length_dropLast, List.length_singleton]
      have := List.length_pos.mpr hne
      omega
    · simp [setBack]
  · intro st c hb h1 h2
    exact inflateChar_breakable U input st c hb h1 h2
  · intro hs hw
    obtain ⟨st1, hloop, hflush⟩ := inflateLoop_clusters U input input.text
      (initialInflateState U) hs hw
    have hcells : inflateText U input = some (flushedColumns input st1) := by
      simp only [inflateText]
      have hl : inflateLoop U input input.text
          { columns := [], lastChar := 0, utf8DecoderState := U.init, gapPending := 0 }
            = some st1 := hloop
      rw [hl]
      simp [emplaceBackTimes_eq, flushedColumns, continuationCell]
    refine ⟨_, hcells, ?_, ?_⟩
    · simpa [flushedColumns, initialInflateState] using hflush
    · rw [hflush]
      simp only [flushedColumns, initialInflateState, Int.toNat_zero, List.replicate_zero,
        List.append_nil, List.nil_append]
      generalize decodeText U U.init input.text = cps at hw
      induction cps with
      | nil => simp
      | cons c rest ih =>
        have hc := hw c (List.mem_cons_self _ _)
        have ih2 := ih (fun x hx => hw x (List.mem_cons_of_mem _ hx))
        simp only [List.flatMap_cons, List.length_append, List.length_cons,
          List.length_replicate, List.map_cons, List.sum_cons, ih2]
        omega

/-- C14 at a sample buffer: the wide ideograph U+4E2D (width 2) inflates to its
cell followed by one continuation cell, two cells in all. -/
theorem inflate_wide_cells_witness :
    ∃ cells, inflateText sampleUnicode sampleWideTrivial = some cells
      ∧ cells = (decodeText sampleUnicode sampleUnicode.init sampleWideTrivial.text).flatMap
          (fun c => clusterCell sampleUnicode sampleWideTrivial c
            :: List.replicate ((sampleUnicode.width c).toNat - 1)
                (continuationCell sampleWideTrivial))
      ∧ cells.length
          = ((decodeText sampleUnicode sampleUnicode.init sampleWideTrivial.text).map
              (fun c => (sampleUnicode.width c).toNat)).sum :=
  (inflate_wide_cells sampleUnicode sampleWideTrivial).2.1 (by decide) (by decide)

/-! ### Screen: lists with positions -/

theorem length_mapIndexed {α : Type} (f : Nat → α → α) (l : List α) :
    ∀ k, (mapIndexed f k l).length = l.length := by
  induction l with
  | nil => intro k; rfl
  | cons x rest ih => intro k; simp [mapIndexed, ih]

theorem getElem?_mapIndexed {α : Type} (f : Nat → α → α) (l : List α) :
    ∀ k i, (mapIndexed f k l)[i]? = (l[i]?).map (f (k + i)) := by
  induction l with
  | nil => intro k i; simp [mapIndexed]
  | cons x rest ih =>
    intro k i
    cases i with
    | zero => simp [mapIndexed]
    | succ i =>
      simp only [mapIndexed, List.getElem?_cons_succ, ih]
      have : k + 1 + i = k + (i + 1) := by omega
      rw [this]

theorem mapIndexed_congr {α : Type} (f g : Nat → α → α) (l : List α) :
    ∀ k, (∀ i x, x ∈ l → f i x = g i x) → mapIndexed f k l = mapIndexed g k l := by
  induction l with
  | nil => intro k _; rfl
  | cons x rest ih =>
    intro k h
    simp only [mapIndexed]
    rw [h k x (List.mem_cons_self _ _), ih (k + 1) (fun i y hy => h i y (List.mem_cons_of_mem _ hy))]

theorem mapIndexed_mapIndexed {α : Type} (f g : Nat → α → α) (l : List α) :
    ∀ k, mapIndexed g k (mapIndexed f k l) = mapIndexed (fun i x => g i (f i x)) k l := by
  induction l with
  | nil => intro k; rfl
  | cons x rest ih => intro k; simp [mapIndexed, ih]

theorem mem_mapIndexed {α : Type} (f : Nat → α → α) (l : List α) :
    ∀ k y, y ∈ mapIndexed f k l → ∃ i x, x ∈ l ∧ y = f i x := by
  induction l with
  | nil => intro k y h; simp [mapIndexed] at h
  | cons x rest ih =>
    intro k y h
    simp only [mapIndexed, List.mem_cons] at h
    rcases h with h | h
    · exact ⟨k, x, List.mem_cons_self _ _, h⟩
    · obtain ⟨i, z, hz, hy⟩ := ih (k + 1) y h
      exact ⟨i, z, List.mem_cons_of_mem _ hz, hy⟩

theorem updateLine_updateLine (lines : List InflatedBuffer) (row : Nat)
    (f g : InflatedBuffer → InflatedBuffer) :
    updateLine (updateLine lines row f) row g = updateLine lines row (fun line => g (f line)) := by
  unfold updateLine
  rw [mapIndexed_mapIndexed]
  apply mapIndexed_congr
  intro i x _
  by_cases h : i = row <;> simp [h]

theorem updateLine_congr (lines : List InflatedBuffer) (row : Nat)
    (f g : InflatedBuffer → InflatedBuffer) (h : ∀ line ∈ lines, f line = g line) :
    updateLine lines row f = updateLine lines row g := by
  unfold updateLine
  apply mapIndexed_congr
  intro i x hx
  by_cases hi : i = row
  · simp [hi, h x hx]
  · simp [hi]

theorem updateLine_id (lines : List InflatedBuffer) (row : Nat) :
    updateLine lines row (fun line => line) = lines := by
  apply List.ext_getElem?
  intro n
  simp only [updateLine, getElem?_mapIndexed]
  cases lines[n]? <;> simp

/-! ### Screen: writing text -/

namespace Screen

theorem wellFormed_iff (s : Screen) :
    s.wellFormed = true ↔ s.lines.length = s.rows ∧ ∀ line ∈ s.lines, line.length = s.columns := by
  simp [wellFormed]

theorem run_cons (s : Screen) (c : Command) (rest : List Command) :
    s.run (c :: rest) = (s.apply c).run rest := rfl

theorem run_append (s : Screen) (a b : List Command) :
    s.run (a ++ b) = (s.run a).run b := by
  simp [run, List.foldl_append]

theorem appendChar_advance (s : Screen) (ch : Nat) (hw : s.cursor.wrapPending = false)
    (hc : s.cursor.column < s.columns) :
    s.appendChar ch
      = { s with
          lines := updateLine s.lines s.cursor.row
            (fun line => line.set (s.cursor.column - 1) (s.printedCell ch))
          cursor := { row := s.cursor.row, column := s.cursor.column + 1, wrapPending := false } } := by
  simp [appendChar, hw, hc, printedCell]

theorem appendChar_last_wrap (s : Screen) (ch : Nat) (hw : s.cursor.wrapPending = false)
    (hc : ¬ s.cursor.column < s.columns) (ha : s.autoWrap = true) :
    s.appendChar ch
      = { s with
          lines := updateLine s.lines s.cursor.row
            (fun line => line.set (s.cursor.column - 1) (s.printedCell ch))
          cursor := { s.cursor with wrapPending := true } } := by
  simp [appendChar, hw, hc, ha, printedCell]

theorem appendChar_last_nowrap (s : Screen) (ch : Nat) (hc : ¬ s.cursor.column < s.columns)
    (ha : s.autoWrap = false) :
    s.appendChar ch
      = { s with
          lines := updateLine s.lines s.cursor.row
            (fun line => line.set (s.cursor.column - 1) (s.printedCell ch)) } := by
  simp [appendChar, hc, ha, printedCell]

theorem run_appendChar_advance (text : List Nat) :
    ∀ s : Screen, s.cursor.wrapPending = false →
      s.cursor.column + text.length ≤ s.columns →
      s.run (text.map Command.AppendChar)
        = { s with
            lines := updateLine s.lines s.cursor.row
              (writeCells (text.map s.printedCell) s.cursor.column)
            cursor := { row := s.cursor.row, column := s.cursor.column + text.length,
                        wrapPending := false } } := by
  induction text with
  | nil =>
    intro s hw _
    obtain ⟨columns, rows, cap, lines, saved, ⟨row, column, wrapPending⟩, rest⟩ := s
    simp only at hw
    subst hw
    have hid : updateLine lines row (writeCells [] column) = lines := updateLine_id lines row
    simp [run, hid]
  | cons ch rest ih =>
    intro s hw hlen
    simp only [List.length_cons] at hlen
    rw [List.map_cons, run_cons]
    show (s.appendChar ch).run _ = _
    rw [appendChar_advance s ch hw (by omega), ih _ rfl (by simp only; omega)]
    simp only [updateLine_updateLine, printedCell, List.map_cons, writeCells, List.length_cons]
    have : s.cursor.column + 1 + rest.length = s.cursor.column + (rest.length + 1) := by omega
    rw [this]
    rfl

theorem run_appendChar_overwrite (text : List Nat) :
    ∀ s : Screen, s.autoWrap = false → ¬ s.cursor.column < s.columns →
      s.run (text.map Command.AppendChar)
        = { s with
            lines := updateLine s.lines s.cursor.row
              (overwriteCells (text.map s.printedCell) s.cursor.column) } := by
  induction text with
  | nil =>
    intro s _ _
    have hid : updateLine s.lines s.cursor.row (overwriteCells [] s.cursor.column) = s.lines :=
      updateLine_id s.lines s.cursor.row
    simp [run, hid]
  | cons ch rest ih =>
    intro s ha hc
    rw [List.map_cons, run_cons]
    show (s.appendChar ch).run _ = _
    rw [appendChar_last_nowrap s ch hc ha, ih]
    · simp only [updateLine_updateLine, List.map_cons, overwriteCells]
      rfl
    · exact ha
    · exact hc

end Screen

theorem writeCells_append (cells : List Cell) :
    ∀ (before old after : List Cell), old.length = cells.length →
      writeCells cells (before.length + 1) (before ++ old ++ after) = before ++ cells ++ after := by
  induction cells with
  | nil =>
    intro before old after h
    have h0 : old = [] := List.length_eq_zero.mp (by simpa using h)
    simp [writeCells, h0]
  | cons x xs ih =>
    intro before old after h
    cases old with
    | nil => simp at h
    | cons y ys =>
      simp only [List.length_cons, Nat.add_right_cancel_iff] at h
      have hset : (before ++ (y :: ys) ++ after).set (before.length + 1 - 1) x
          = (before ++ [x]) ++ ys ++ after := by
        simp [List.set_append_right]
      simp only [writeCells, hset]
      have := ih (before ++ [x]) ys after h
      simpa using this

theorem overwriteCells_eq (cells : List Cell) :
    ∀ (column : Nat) (line : InflatedBuffer),
      overwriteCells cells column line
        = match cells.getLast? with
          | none => line
          | some x => line.set (column - 1) x := by
  induction cells with
  | nil => intro column line; rfl
  | cons x xs ih =>
    intro column line
    simp only [overwriteCells, ih]
    cases xs with
    | nil => simp
    | cons y ys =>
      have hl : (y :: ys).getLast? = some ((y :: ys).getLast (by simp)) :=
        List.getLast?_eq_getLast _ _
      simp only [List.getLast?_cons_cons, hl, List.set_set]

/-! ### Screen: scrolling a rectangle -/

theorem getElem?_spliceColumns (old source : InflatedBuffer) (left right width k : Nat)
    (hline : old.length = width) (hsource : source.length = width)
    (hl : 1 ≤ left) (hlr : left ≤ right) (hr : right ≤ width) :
    (spliceColumns old source left right)[k]?
      = if left ≤ k + 1 ∧ k + 1 ≤ right then source[k]? else old[k]? := by
  unfold spliceColumns
  have hA : (old.take (left - 1)).length = left - 1 := by
    rw [List.length_take]; omega
  have hB : ((source.take right).drop (left - 1)).length = right - (left - 1) := by
    rw [List.length_drop, List.length_take]; omega
  by_cases h1 : k < left - 1
  · have hcond : ¬ (left ≤ k + 1 ∧ k + 1 ≤ right) := by omega
    rw [if_neg hcond, List.append_assoc, List.getElem?_append_left (by omega),
      List.getElem?_take_of_lt h1]
  · by_cases h2 : k < right
    · have hcond : left ≤ k + 1 ∧ k + 1 ≤ right := by omega
      rw [if_pos hcond, List.getElem?_append_left (by rw [List.length_append]; omega),
        List.getElem?_append_right (by omega), hA, List.getElem?_drop,
        List.getElem?_take_of_lt (by omega)]
      congr 1
      omega
    · have hcond : ¬ (left ≤ k + 1 ∧ k + 1 ≤ right) := by omega
      rw [if_neg hcond, List.getElem?_append_right (by rw [List.length_append]; omega),
        List.length_append, hA, hB, List.getElem?_drop]
      congr 1
      omega

theorem cellAt_eq (lines : List InflatedBuffer) (i j : Nat) (hi : 1 ≤ i) (hj : 1 ≤ j) :
    cellAt lines i j = (lines[i - 1]?).bind (fun cells => cells[j - 1]?) := by
  have h : ¬ (i = 0 ∨ j = 0) := by omega
  simp [cellAt, h]

theorem lineAt_of_le (lines : List InflatedBuffer) (i : Nat) (hi : 1 ≤ i) (hi2 : i ≤ lines.length) :
    lines[i - 1]? = some (lineAt lines i) ∧ lineAt lines i ∈ lines := by
  have hlt : i - 1 < lines.length := by omega
  have h : lines[i - 1]? = some lines[i - 1] := List.getElem?_eq_getElem hlt
  have h2 : lineAt lines i = lines[i - 1] := by
    simp [lineAt, List.getD, h]
  rw [h2]
  exact ⟨h, List.getElem_mem hlt⟩

theorem cellAt_spliceRows (lines : List InflatedBuffer) (source : Nat → InflatedBuffer)
    (top bottom left right width i j : Nat)
    (hlines : ∀ line ∈ lines, line.length = width)
    (hl : 1 ≤ left) (hlr : left ≤ right) (hr : right ≤ width)
    (hi : 1 ≤ i) (hi2 : i ≤ lines.length) (hj : 1 ≤ j)
    (hsource : top ≤ i ∧ i ≤ bottom → (source i).length = width) :
    cellAt (mapIndexed (fun i line =>
        if top ≤ i ∧ i ≤ bottom then spliceColumns line (source i) left right else line) 1 lines) i j
      = if top ≤ i ∧ i ≤ bottom ∧ left ≤ j ∧ j ≤ right then (source i)[j - 1]?
        else cellAt lines i j := by
  obtain ⟨hget, hmem⟩ := lineAt_of_le lines i hi hi2
  rw [cellAt_eq _ i j hi hj, cellAt_eq _ i j hi hj, getElem?_mapIndexed, hget]
  have hidx : 1 + (i - 1) = i := by omega
  simp only [Option.map_some', Option.some_bind, hidx]
  by_cases hv : top ≤ i ∧ i ≤ bottom
  · rw [if_pos hv, getElem?_spliceColumns _ _ left right width (j - 1) (hlines _ hmem)
      (hsource hv) hl hlr hr]
    have hj1 : j - 1 + 1 = j := by omega
    rw [hj1]
    by_cases hh : left ≤ j ∧ j ≤ right
    · rw [if_pos hh, if_pos ⟨hv.1, hv.2, hh.1, hh.2⟩]
    · rw [if_neg hh, if_neg (fun h => hh ⟨h.2.2.1, h.2.2.2⟩)]
  · rw [if_neg hv, if_neg (fun h => hv ⟨h.1, h.2.1⟩)]

theorem cellAt_scrollUpRect (lines : List InflatedBuffer) (blank : InflatedBuffer)
    (top bottom left right n width i j : Nat)
    (hlines : ∀ line ∈ lines, line.length = width) (hblank : blank.length = width)
    (hl : 1 ≤ left) (hlr : left ≤ right) (hr : right ≤ width) (hb : bottom ≤ lines.length)
    (hi : 1 ≤ i) (hi2 : i ≤ lines.length) (hj : 1 ≤ j) :
    cellAt (scrollUpRect lines top bottom left right n blank) i j
      = if top ≤ i ∧ i ≤ bottom ∧ left ≤ j ∧ j ≤ right then
          (if i + n ≤ bottom then cellAt lines (i + n) j else blank[j - 1]?)
        else cellAt lines i j := by
  unfold scrollUpRect
  rw [cellAt_spliceRows lines (fun i => if i + n ≤ bottom then lineAt lines (i + n) else blank)
    top bottom left right width i j hlines hl hlr hr hi hi2 hj]
  · by_cases hin : top ≤ i ∧ i ≤ bottom ∧ left ≤ j ∧ j ≤ right
    · rw [if_pos hin, if_pos hin]
      by_cases hn : i + n ≤ bottom
      · simp only [if_pos hn]
        rw [cellAt_eq _ _ _ (by omega) hj, (lineAt_of_le lines (i + n) (by omega) (by omega)).1]
        rfl
      · simp only [if_neg hn]
    · rw [if_neg hin, if_neg hin]
  · intro _
    by_cases hn : i + n ≤ bottom
    · simp only [if_pos hn]
      exact hlines _ (lineAt_of_le lines (i + n) (by omega) (by omega)).2
    · simp only [if_neg hn]
      exact hblank

theorem cellAt_scrollDownRect (lines : List InflatedBuffer) (blank : InflatedBuffer)
    (top bottom left right n width i j : Nat)
    (hlines : ∀ line ∈ lines, line.length = width) (hblank : blank.length = width)
    (ht : 1 ≤ top) (hl : 1 ≤ left) (hlr : left ≤ right) (hr : right ≤ width)
    (hi : 1 ≤ i) (hi2 : i ≤ lines.length) (hj : 1 ≤ j) :
    cellAt (scrollDownRect lines top bottom left right n blank) i j
      = if top ≤ i ∧ i ≤ bottom ∧ left ≤ j ∧ j ≤ right then
          (if top + n ≤ i then cellAt lines (i - n) j else blank[j - 1]?)
        else cellAt lines i j := by
  unfold scrollDownRect
  rw [cellAt_spliceRows lines (fun i => if top + n ≤ i then lineAt lines (i - n) else blank)
    top bottom left right width i j hlines hl hlr hr hi hi2 hj]
  · by_cases hin : top ≤ i ∧ i ≤ bottom ∧ left ≤ j ∧ j ≤ right
    · rw [if_pos hin, if_pos hin]
      by_cases hn : top + n ≤ i
      · simp only [if_pos hn]
        rw [cellAt_eq _ _ _ (by omega) hj, (lineAt_of_le lines (i - n) (by omega) (by omega)).1]
        rfl
      · simp only [if_neg hn]
    · rw [if_neg hin, if_neg hin]
  · intro _
    by_cases hn : top + n ≤ i
    · simp only [if_pos hn]
      exact hlines _ (lineAt_of_le lines (i - n) (by omega) (by omega)).2
    · simp only [if_neg hn]
      exact hblank

theorem spliceColumns_full (line source : InflatedBuffer) (width : Nat)
    (hline : line.length = width) (hsource : source.length = width) :
    spliceColumns line source 1 width = source := by
  unfold spliceColumns
  rw [List.take_of_length_le (le_of_eq hsource), List.drop_of_length_le (le_of_eq hline)]
  simp

theorem scrollUpRect_full (lines : List InflatedBuffer) (blank : InflatedBuffer)
    (width n : Nat) (hlines : ∀ line ∈ lines, line.length = width)
    (hblank : blank.length = width) (hn : n ≤ lines.length) :
    scrollUpRect lines 1 lines.length 1 width n blank
      = lines.drop n ++ List.replicate n blank := by
  apply List.ext_getElem?
  intro k
  unfold scrollUpRect
  rw [getElem?_mapIndexed]
  by_cases hk : k < lines.length
  · have hget := lineAt_of_le lines (k + 1) (by omega) (by omega)
    simp only [Nat.add_sub_cancel] at hget
    rw [hget.1, Option.map_some']
    have hv : 1 ≤ 1 + k ∧ 1 + k ≤ lines.length := by omega
    rw [if_pos hv]
    by_cases hs : 1 + k + n ≤ lines.length
    · rw [if_pos hs, spliceColumns_full _ _ width (hlines _ hget.2)
        (hlines _ (lineAt_of_le lines (1 + k + n) (by omega) hs).2),
        List.getElem?_append_left (by rw [List.length_drop]; omega), List.getElem?_drop,
        ← (lineAt_of_le lines (1 + k + n) (by omega) hs).1]
      congr 1
      omega
    · rw [if_neg hs, spliceColumns_full _ _ width (hlines _ hget.2) hblank,
        List.getElem?_append_right (by rw [List.length_drop]; omega), List.length_drop,
        List.getElem?_replicate, if_pos (by omega)]
  · rw [List.getElem?_eq_none (by omega), List.getElem?_eq_none (by simp; omega)]
    rfl

/-! ### Screen: autowrap -/

namespace Screen

theorem lineAt_updateLine (lines : List InflatedBuffer) (row : Nat)
    (f : InflatedBuffer → InflatedBuffer) (h1 : 1 ≤ row) (h2 : row ≤ lines.length) :
    lineAt (updateLine lines row f) row = f (lineAt lines row) := by
  have hget := (lineAt_of_le lines row h1 h2).1
  have hidx : 1 + (row - 1) = row := by omega
  have h : (updateLine lines row f)[row - 1]? = some (f (lineAt lines row)) := by
    simp [updateLine, getElem?_mapIndexed, hget, hidx]
  have h3 := (lineAt_of_le (updateLine lines row f) row h1
    (by simpa [updateLine, length_mapIndexed] using h2)).1
  rw [h] at h3
  exact (Option.some.inj h3).symm

theorem wellFormed_updateLine (s : Screen) (row : Nat) (f : InflatedBuffer → InflatedBuffer)
    (hwf : s.wellFormed = true) (hf : ∀ line ∈ s.lines, (f line).length = s.columns) :
    (updateLine s.lines row f).length = s.rows
      ∧ ∀ line ∈ updateLine s.lines row f, line.length = s.columns := by
  obtain ⟨h1, h2⟩ := (wellFormed_iff s).mp hwf
  refine ⟨by simpa [updateLine, length_mapIndexed] using h1, ?_⟩
  intro line hline
  obtain ⟨i, x, hx, hy⟩ := mem_mapIndexed _ _ _ _ hline
  by_cases hi : i = row
  · rw [hy, if_pos hi]
    exact hf x hx
  · rw [hy, if_neg hi]
    exact h2 x hx

theorem linefeed_not_bottom (s : Screen) (h : s.cursor.row ≠ s.margin.bottom) :
    s.linefeed
      = { s with cursor := { row := min (s.cursor.row + 1) s.rows, column := 1,
                             wrapPending := false } } := by
  simp [linefeed, h]

theorem linefeed_bottom (s : Screen) (h : s.cursor.row = s.margin.bottom) :
    s.linefeed
      = { s.scrollUp 1 with cursor := { row := s.cursor.row, column := 1, wrapPending := false } } := by
  simp [linefeed, h, scrollUp]

theorem scrollUp_fullPage (s : Screen) (n : Nat) (hwf : s.wellFormed = true)
    (hfull : s.fullPageRegion = true) :
    (s.scrollUp n).lines
        = s.lines.drop (min n s.rows) ++ List.replicate (min n s.rows) s.blankLine
      ∧ (s.scrollUp n).savedLines
        = trimHistory s.maxHistoryLineCount (s.savedLines ++ s.lines.take (min n s.rows)) := by
  obtain ⟨h1, h2⟩ := (wellFormed_iff s).mp hwf
  simp only [fullPageRegion, Bool.and_eq_true, beq_iff_eq] at hfull
  obtain ⟨⟨⟨ht, hb⟩, hl⟩, hr⟩ := hfull
  have hcount : min n (s.margin.bottom + 1 - s.margin.top) = min n s.rows := by
    rw [ht, hb]; simp
  constructor
  · simp only [scrollUp, hcount, ht, hb, hl, hr]
    rw [← h1]
    exact scrollUpRect_full s.lines s.blankLine s.columns _ h2 (by simp [blankLine])
      (Nat.min_le_right _ _)
  · simp [scrollUp, hcount, fullPageRegion, ht, hb, hl, hr]

theorem appendChar_lines (s : Screen) (ch : Nat) :
    (s.appendChar ch).lines
        = updateLine (if s.cursor.wrapPending && s.autoWrap then s.linefeed else s).lines
            (if s.cursor.wrapPending && s.autoWrap then s.linefeed else s).cursor.row
            (fun line =>
              line.set ((if s.cursor.wrapPending && s.autoWrap then s.linefeed else s).cursor.column - 1)
                ((if s.cursor.wrapPending && s.autoWrap then s.linefeed else s).printedCell ch))
      ∧ (s.appendChar ch).cursor.row
        = (if s.cursor.wrapPending && s.autoWrap then s.linefeed else s).cursor.row := by
  unfold appendChar
  generalize (if (s.cursor.wrapPending && s.autoWrap) = true then s.linefeed else s) = x
  dsimp only
  by_cases h1 : x.cursor.column < x.columns
  · simp [h1, printedCell]
  · by_cases h2 : x.autoWrap = true
    · simp [h1, h2, printedCell]
    · simp [h1, h2, printedCell]

theorem linefeed_graphicsRendition (s : Screen) :
    s.linefeed.graphicsRendition = s.graphicsRendition := by
  unfold linefeed
  by_cases h : s.cursor.row = s.margin.bottom <;> simp [h, scrollUp]

theorem appendChar_wrap (s : Screen) (ch : Nat) (hw : s.cursor.wrapPending = true)
    (ha : s.autoWrap = true) :
    (s.appendChar ch).lines
        = updateLine s.linefeed.lines s.linefeed.cursor.row
            (fun line => line.set 0 (s.printedCell ch))
      ∧ (s.appendChar ch).cursor.row = s.linefeed.cursor.row := by
  have h := appendChar_lines s ch
  have hcond : (s.cursor.wrapPending && s.autoWrap) = true := by simp [hw, ha]
  simp only [hcond, if_true] at h
  have hcol : s.linefeed.cursor.column = 1 := by simp [linefeed]
  have hcell : s.linefeed.printedCell ch = s.printedCell ch := by
    simp [printedCell, linefeed_graphicsRendition]
  rw [hcol, hcell] at h
  exact h

theorem writeCells_then_set (front : List Cell) (x : Cell) (old : InflatedBuffer)
    (h : old.length = front.length + 1) :
    (writeCells front 1 old).set front.length x = front ++ [x] := by
  have hwc := writeCells_append front [] (old.take front.length) (old.drop front.length)
    (by rw [List.length_take]; omega)
  simp only [List.length_nil, Nat.zero_add, List.nil_append, List.take_append_drop] at hwc
  rw [hwc]
  have hl : (old.drop front.length).length = 1 := by
    rw [List.length_drop]; omega
  match hq : old.drop front.length, hl with
  | [y], _ =>
    rw [List.set_append_right _ _ (le_refl _)]
    simp

/-- C15: on a well-formed screen with autowrap on and the cursor at column 1 of
a row without pending wrap, writing exactly `columns` narrow printable
characters fills that row and leaves the cursor on the same row, at the last
column, with the pending-wrap latch set; nothing else changes, so nothing
scrolls. The next printable character first performs a line feed and is then
written at column 1: the line feed moves the cursor down one row, and when the
cursor was on the bottom row of a page whose scroll region is the whole page it
scrolls the page up by one. -/
theorem write_row_then_wrap (s : Screen) (text : List Nat) (hwf : s.wellFormed = true)
    (hauto : s.autoWrap = true) (hrow : 1 ≤ s.cursor.row ∧ s.cursor.row ≤ s.rows)
    (hcol : s.cursor.column = 1) (hlatch : s.cursor.wrapPending = false)
    (hlen : text.length = s.columns) (hpos : 1 ≤ s.columns) :
    s.run (text.map Command.AppendChar)
        = { s with
            lines := updateLine s.lines s.cursor.row (fun _ => text.map s.printedCell)
            cursor := { row := s.cursor.row, column := s.columns, wrapPending := true } }
      ∧ lineAt (s.run (text.map Command.AppendChar)).lines s.cursor.row = text.map s.printedCell
      ∧ ∀ ch,
          ((s.run (text.map Command.AppendChar)).appendChar ch).lines
              = updateLine (s.run (text.map Command.AppendChar)).linefeed.lines
                  (s.run (text.map Command.AppendChar)).linefeed.cursor.row
                  (fun line => line.set 0 (s.printedCell ch))
            ∧ ((s.run (text.map Command.AppendChar)).appendChar ch).cursor.row
              = (s.run (text.map Command.AppendChar)).linefeed.cursor.row
            ∧ (s.run (text.map Command.AppendChar)).linefeed.cursor.column = 1
            ∧ (s.cursor.row ≠ s.margin.bottom →
                (s.run (text.map Command.AppendChar)).linefeed.lines
                    = (s.run (text.map Command.AppendChar)).lines
                  ∧ (s.run (text.map Command.AppendChar)).linefeed.cursor.row
                    = min (s.cursor.row + 1) s.rows)
            ∧ (s.cursor.row = s.rows → s.fullPageRegion = true →
                (s.run (text.map Command.AppendChar)).linefeed.lines
                    = (s.run (text.map Command.AppendChar)).lines.drop 1 ++ [s.blankLine]
                  ∧ (s.run (text.map Command.AppendChar)).linefeed.cursor.row = s.rows) := by
  obtain ⟨hlines, hwidth⟩ := (wellFormed_iff s).mp hwf
  have hne : text ≠ [] := by
    intro h0
    simp [h0] at hlen
    omega
  obtain ⟨front, last, hsplit⟩ : ∃ front last, text = front ++ [last] :=
    ⟨text.dropLast, text.getLast hne, (List.dropLast_append_getLast hne).symm⟩
  have hfront : front.length + 1 = s.columns := by
    rw [← hlen, hsplit]; simp
  have hL : updateLine s.lines s.cursor.row (fun line =>
        (writeCells (front.map s.printedCell) 1 line).set (1 + front.length - 1)
          (s.printedCell last))
      = updateLine s.lines s.cursor.row (fun _ => text.map s.printedCell) := by
    apply updateLine_congr
    intro line hline
    have h1 := writeCells_then_set (front.map s.printedCell) (s.printedCell last) line
      (by rw [List.length_map, hwidth line hline]; omega)
    rw [List.length_map] at h1
    have hidx : 1 + front.length - 1 = front.length := by omega
    rw [hidx, h1, hsplit]
    simp
  have hrun : s.run (text.map Command.AppendChar)
      = { s with
          lines := updateLine s.lines s.cursor.row (fun _ => text.map s.printedCell)
          cursor := { row := s.cursor.row, column := s.columns, wrapPending := true } } := by
    have hstep : s.run (text.map Command.AppendChar)
        = Screen.appendChar
            { s with
              lines := updateLine s.lines s.cursor.row
                (writeCells (front.map s.printedCell) s.cursor.column)
              cursor := { row := s.cursor.row, column := s.cursor.column + front.length,
                          wrapPending := false } } last := by
      rw [hsplit, List.map_append, run_append,
        run_appendChar_advance front s hlatch (by omega)]
      rfl
    rw [hstep, appendChar_last_wrap]
    · simp only [updateLine_updateLine, hcol]
      rw [show (fun line => (writeCells (front.map s.printedCell) 1 line).set (1 + front.length - 1)
            (Screen.printedCell
              { s with
                lines := updateLine s.lines s.cursor.row (writeCells (front.map s.printedCell) 1)
                cursor := { row := s.cursor.row, column := 1 + front.length,
                            wrapPending := false } } last))
          = (fun line => (writeCells (front.map s.printedCell) 1 line).set (1 + front.length - 1)
              (s.printedCell last)) from rfl, hL]
      have hc : 1 + front.length = s.columns := by omega
      rw [hc]
    · rfl
    · simp only
      omega
    · exact hauto
  have hwf1 := wellFormed_updateLine s s.cursor.row (fun _ => text.map s.printedCell) hwf
    (by intro _ _; simp [hlen])
  refine ⟨hrun, ?_, ?_⟩
  · rw [hrun]
    exact lineAt_updateLine s.lines s.cursor.row _ hrow.1 (by omega)
  · intro ch
    rw [hrun]
    have hal := appendChar_wrap
      { s with
        lines := updateLine s.lines s.cursor.row (fun _ => text.map s.printedCell)
        cursor := { row := s.cursor.row, column := s.columns, wrapPending := true } } ch rfl hauto
    refine ⟨hal.1, hal.2, by simp [linefeed], ?_, ?_⟩
    · intro hnb
      rw [linefeed_not_bottom _ (by simpa using hnb)]
      exact ⟨rfl, rfl⟩
    · intro hbottom hfull
      have hfull2 := hfull
      simp only [fullPageRegion, Bool.and_eq_true, beq_iff_eq] at hfull2
      have hb : s.cursor.row = s.margin.bottom := by
        rw [hbottom, hfull2.1.1.2]
      rw [linefeed_bottom _ (by simpa using hb)]
      have hsu := scrollUp_fullPage
        { s with
          lines := updateLine s.lines s.cursor.row (fun _ => text.map s.printedCell)
          cursor := { row := s.cursor.row, column := s.columns, wrapPending := true } } 1
        (by
          rw [wellFormed_iff]
          exact hwf1)
        hfull
      have hmin : min 1 s.rows = 1 := by omega
      simp only [hmin] at hsu
      exact ⟨hsu.1, hbottom⟩

/-- C15 at a sample screen: three columns, two rows, autowrap on, `ABC` written
from the home position fills row 1. -/
theorem write_row_then_wrap_witness :
    lineAt (((create 3 2 100).apply (Command.SetMode Mode.AutoWrap true)).run
        ((ascii "ABC").map Command.AppendChar)).lines 1
      = (ascii "ABC").map ((create 3 2 100).apply (Command.SetMode Mode.AutoWrap true)).printedCell :=
  (write_row_then_wrap ((create 3 2 100).apply (Command.SetMode Mode.AutoWrap true)) (ascii "ABC")
    (by decide) rfl ⟨by decide, by decide⟩ rfl rfl (by decide) (by decide)).2.1

/-- C16: on a screen with autowrap off, a printable character written while the
cursor is at the last column overwrites the cell in the last column and changes
nothing else: cursor row and column stay, nothing wraps or scrolls. Hence
writing more than `columns` narrow characters from column 1 of a row leaves that
row holding the first `columns - 1` characters followed by the last character
written, with the cursor at the last column. -/
theorem overwrite_last_column (s : Screen) (hauto : s.autoWrap = false) :
    (s.cursor.column = s.columns → ∀ ch,
        s.appendChar ch
          = { s with
              lines := updateLine s.lines s.cursor.row
                (fun line => line.set (s.columns - 1) (s.printedCell ch)) })
      ∧ (∀ (text : List Nat) (h : text ≠ []), s.wellFormed = true → s.cursor.column = 1 →
          s.cursor.wrapPending = false → 1 ≤ s.columns → s.columns < text.length →
          s.run (text.map Command.AppendChar)
            = { s with
                lines := updateLine s.lines s.cursor.row
                  (fun _ => (text.take (s.columns - 1)).map s.printedCell
                    ++ [s.printedCell (text.getLast h)])
                cursor := { row := s.cursor.row, column := s.columns, wrapPending := false } }) := by
  constructor
  · intro hcol ch
    rw [appendChar_last_nowrap s ch (by omega) hauto, hcol]
  · intro text hne hwf hcol hlatch hpos hlen
    obtain ⟨_, hwidth⟩ := (wellFormed_iff s).mp hwf
    have hsplit : text = text.take (s.columns - 1) ++ text.drop (s.columns - 1) :=
      (List.take_append_drop _ _).symm
    have hfl : (text.take (s.columns - 1)).length = s.columns - 1 := by
      rw [List.length_take]; omega
    have hrest : text.drop (s.columns - 1) ≠ [] := by
      intro h0
      have := congrArg List.length h0
      simp at this
      omega
    have hlast : (text.drop (s.columns - 1)).getLast hrest = text.getLast hne := by
      rw [List.getLast_drop]
    have hL : updateLine s.lines s.cursor.row (fun line =>
          overwriteCells ((text.drop (s.columns - 1)).map s.printedCell) (1 + (s.columns - 1))
            (writeCells ((text.take (s.columns - 1)).map s.printedCell) 1 line))
        = updateLine s.lines s.cursor.row
            (fun _ => (text.take (s.columns - 1)).map s.printedCell
              ++ [s.printedCell (text.getLast hne)]) := by
      apply updateLine_congr
      intro line hline
      rw [overwriteCells_eq, List.getLast?_map, List.getLast?_eq_getLast _ hrest]
      simp only [Option.map_some']
      have h1 := writeCells_then_set ((text.take (s.columns - 1)).map s.printedCell)
        (s.printedCell ((text.drop (s.columns - 1)).getLast hrest)) line
        (by rw [List.length_map, hfl, hwidth line hline]; omega)
      rw [List.length_map, hfl] at h1
      have hidx : 1 + (s.columns - 1) - 1 = s.columns - 1 := by omega
      rw [hidx, h1, hlast]
    have hrun : s.run (text.map Command.AppendChar)
        = Screen.run
            { s with
              lines := updateLine s.lines s.cursor.row
                (writeCells ((text.take (s.columns - 1)).map s.printedCell) s.cursor.column)
              cursor := { row := s.cursor.row,
                          column := s.cursor.column + (text.take (s.columns - 1)).length,
                          wrapPending := false } }
            ((text.drop (s.columns - 1)).map Command.AppendChar) := by
      conv_lhs => rw [hsplit]
      rw [List.map_append, run_append,
        run_appendChar_advance (text.take (s.columns - 1)) s hlatch (by omega)]
    rw [hrun, run_appendChar_overwrite]
    · simp only [updateLine_updateLine, hcol, hfl]
      rw [show (fun line =>
            overwriteCells
              ((text.drop (s.columns - 1)).map
                (Screen.printedCell
                  { s with
                    lines := updateLine s.lines s.cursor.row
                      (writeCells ((text.take (s.columns - 1)).map s.printedCell) 1)
                    cursor := { row := s.cursor.row, column := 1 + (s.columns - 1),
                                wrapPending := false } }))
              (1 + (s.columns - 1))
              (writeCells ((text.take (s.columns - 1)).map s.printedCell) 1 line))
          = (fun line =>
            overwriteCells ((text.drop (s.columns - 1)).map s.printedCell) (1 + (s.columns - 1))
              (writeCells ((text.take (s.columns - 1)).map s.printedCell) 1 line)) from rfl, hL]
      have hc : 1 + (s.columns - 1) = s.columns := by omega
      rw [hc]
    · exact hauto
    · simp only
      omega

/-- C16 at a sample screen: three columns, one row, autowrap off; `ABCD` written
from the home position leaves the row holding `ABD`. -/
theorem overwrite_last_column_witness :
    ((create 3 1 100).apply (Command.SetMode Mode.AutoWrap false)).run
        ((ascii "ABCD").map Command.AppendChar)
      = { (create 3 1 100).apply (Command.SetMode Mode.AutoWrap false) with
          lines := updateLine ((create 3 1 100).apply (Command.SetMode Mode.AutoWrap false)).lines 1
            (fun _ => ((ascii "ABCD").take 2).map
                ((create 3 1 100).apply (Command.SetMode Mode.AutoWrap false)).printedCell
              ++ [((create 3 1 100).apply (Command.SetMode Mode.AutoWrap false)).printedCell 68])
          cursor := { row := 1, column := 3, wrapPending := false } } :=
  (overwrite_last_column ((create 3 1 100).apply (Command.SetMode Mode.AutoWrap false)) rfl).2
    (ascii "ABCD") (by decide) (by decide) rfl rfl (by decide) (by decide)

/-! ### Screen: the cursor invariant -/

theorem cursorInvariant_moveCursorToReal (s : Screen) (row column : Nat)
    (h : s.cursorInvariant) :
    (s.moveCursorToReal row column).cursorInvariant
      ∧ (s.moveCursorToReal row column).rows = s.rows
      ∧ (s.moveCursorToReal row column).columns = s.columns := by
  obtain ⟨h1, h2, _, h4⟩ := h
  refine ⟨⟨h1, h2, ⟨?_, ?_, ?_, ?_, ?_⟩, h4⟩, rfl, rfl⟩
  · show 1 ≤ min (max row 1) s.rows
    omega
  · show min (max row 1) s.rows ≤ s.rows
    omega
  · show 1 ≤ min (max column 1) s.columns
    omega
  · show min (max column 1) s.columns ≤ s.columns
    omega
  · intro hw
    exact absurd hw (by simp [moveCursorToReal])

theorem cursorInvariant_scrollUp (s : Screen) (n : Nat) (h : s.cursorInvariant) :
    (s.scrollUp n).cursorInvariant ∧ (s.scrollUp n).rows = s.rows
      ∧ (s.scrollUp n).columns = s.columns :=
  ⟨h, rfl, rfl⟩

theorem cursorInvariant_scrollDown (s : Screen) (n : Nat) (h : s.cursorInvariant) :
    (s.scrollDown n).cursorInvariant ∧ (s.scrollDown n).rows = s.rows
      ∧ (s.scrollDown n).columns = s.columns :=
  ⟨h, rfl, rfl⟩

theorem cursorInvariant_linefeed (s : Screen) (h : s.cursorInvariant) :
    s.linefeed.cursorInvariant ∧ s.linefeed.rows = s.rows ∧ s.linefeed.columns = s.columns := by
  obtain ⟨h1, h2, ⟨h3, h4, _, _, _⟩, h6⟩ := h
  by_cases hb : s.cursor.row = s.margin.bottom
  · rw [linefeed_bottom s hb]
    exact ⟨⟨h1, h2, ⟨h3, h4, le_refl 1, h2, fun hw => absurd hw (by simp)⟩, h6⟩, rfl, rfl⟩
  · rw [linefeed_not_bottom s hb]
    refine ⟨⟨h1, h2, ⟨?_, ?_, le_refl 1, h2, fun hw => absurd hw (by simp)⟩, h6⟩, rfl, rfl⟩
    · show 1 ≤ min (s.cursor.row + 1) s.rows
      omega
    · show min (s.cursor.row + 1) s.rows ≤ s.rows
      omega

theorem cursorInvariant_appendChar (s : Screen) (ch : Nat) (h : s.cursorInvariant) :
    (s.appendChar ch).cursorInvariant ∧ (s.appendChar ch).rows = s.rows
      ∧ (s.appendChar ch).columns = s.columns := by
  have hx : (if (s.cursor.wrapPending && s.autoWrap) = true then s.linefeed else s).cursorInvariant
      ∧ (if (s.cursor.wrapPending && s.autoWrap) = true then s.linefeed else s).rows = s.rows
      ∧ (if (s.cursor.wrapPending && s.autoWrap) = true then s.linefeed else s).columns
          = s.columns := by
    by_cases hc : (s.cursor.wrapPending && s.autoWrap) = true
    · rw [if_pos hc]
      exact cursorInvariant_linefeed s h
    · rw [if_neg hc]
      exact ⟨h, rfl, rfl⟩
  unfold appendChar
  generalize (if (s.cursor.wrapPending && s.autoWrap) = true then s.linefeed else s) = x at hx
  obtain ⟨⟨h1, h2, ⟨h3, h4, h5, h6, h7⟩, h8⟩, hr, hc⟩ := hx
  dsimp only
  by_cases hlt : x.cursor.column < x.columns
  · rw [if_pos hlt]
    exact ⟨⟨h1, h2, ⟨h3, h4, Nat.le_succ_of_le h5, hlt, fun hw => absurd hw (by simp)⟩, h8⟩,
      hr, hc⟩
  · rw [if_neg hlt]
    by_cases ha : x.autoWrap = true
    · rw [if_pos ha]
      exact ⟨⟨h1, h2, ⟨h3, h4, h5, h6, fun _ => Nat.le_antisymm h6 (Nat.le_of_not_lt hlt)⟩, h8⟩,
        hr, hc⟩
    · rw [if_neg ha]
      exact ⟨⟨h1, h2, ⟨h3, h4, h5, h6, h7⟩, h8⟩, hr, hc⟩

theorem cursorInvariant_create (columns rows maxHistoryLineCount : Nat) (hc : 1 ≤ columns)
    (hr : 1 ≤ rows) : (create columns rows maxHistoryLineCount).cursorInvariant :=
  ⟨hr, hc, ⟨le_refl 1, hr, le_refl 1, hc, fun hw => absurd hw (by simp [create])⟩,
    fun _ hs => absurd hs (by simp [create])⟩

theorem cursorInvariant_moveCursorTo (s : Screen) (row column : Nat) (h : s.cursorInvariant) :
    (s.moveCursorTo row column).cursorInvariant ∧ (s.moveCursorTo row column).rows = s.rows
      ∧ (s.moveCursorTo row column).columns = s.columns :=
  cursorInvariant_moveCursorToReal s _ _ h

theorem cursorInvariant_setMode (s : Screen) (mode : Mode) (enable : Bool)
    (h : s.cursorInvariant) :
    (s.setMode mode enable).cursorInvariant ∧ (s.setMode mode enable).rows = s.rows
      ∧ (s.setMode mode enable).columns = s.columns := by
  cases mode with
  | AutoWrap => exact ⟨h, rfl, rfl⟩
  | CursorRestrictedToMargin => exact ⟨h, rfl, rfl⟩
  | LeftRightMargin =>
    cases enable with
    | true => exact ⟨h, rfl, rfl⟩
    | false => exact ⟨h, rfl, rfl⟩

theorem cursorInvariant_setTopBottomMargin (s : Screen) (top bottom : Nat)
    (h : s.cursorInvariant) :
    (s.setTopBottomMargin top bottom).cursorInvariant
      ∧ (s.setTopBottomMargin top bottom).rows = s.rows
      ∧ (s.setTopBottomMargin top bottom).columns = s.columns := by
  unfold setTopBottomMargin
  dsimp only
  generalize (if top = 0 then 1 else top) = t
  generalize (if bottom = 0 then s.rows else bottom) = b
  by_cases hv : t < b ∧ b ≤ s.rows
  · rw [if_pos hv]
    exact cursorInvariant_moveCursorTo { s with margin := { s.margin with top := t, bottom := b } }
      1 1 h
  · rw [if_neg hv]
    exact ⟨h, rfl, rfl⟩

theorem cursorInvariant_setLeftRightMargin (s : Screen) (left right : Nat)
    (h : s.cursorInvariant) :
    (s.setLeftRightMargin left right).cursorInvariant
      ∧ (s.setLeftRightMargin left right).rows = s.rows
      ∧ (s.setLeftRightMargin left right).columns = s.columns := by
  unfold setLeftRightMargin
  dsimp only
  generalize (if left = 0 then 1 else left) = l
  generalize (if right = 0 then s.columns else right) = r
  by_cases hv : s.leftRightMargin = true ∧ l < r ∧ r ≤ s.columns
  · rw [if_pos hv]
    exact cursorInvariant_moveCursorTo { s with margin := { s.margin with left := l, right := r } }
      1 1 h
  · rw [if_neg hv]
    exact ⟨h, rfl, rfl⟩

theorem cursorInvariant_apply (s : Screen) (c : Command) (h : s.cursorInvariant) :
    (s.apply c).cursorInvariant ∧ (s.apply c).rows = s.rows ∧ (s.apply c).columns = s.columns := by
  cases c with
  | AppendChar ch => exact cursorInvariant_appendChar s ch h
  | Linefeed => exact cursorInvariant_linefeed s h
  | Backspace => exact cursorInvariant_moveCursorToReal s _ _ h
  | MoveCursorToBeginOfLine => exact cursorInvariant_moveCursorToReal s _ _ h
  | Index =>
    show s.index.cursorInvariant ∧ s.index.rows = s.rows ∧ s.index.columns = s.columns
    unfold index
    split
    · exact cursorInvariant_scrollUp s 1 h
    · exact cursorInvariant_moveCursorToReal s _ _ h
  | ReverseIndex =>
    show s.reverseIndex.cursorInvariant ∧ s.reverseIndex.rows = s.rows
      ∧ s.reverseIndex.columns = s.columns
    unfold reverseIndex
    split
    · exact cursorInvariant_scrollDown s 1 h
    · exact cursorInvariant_moveCursorToReal s _ _ h
  | MoveCursorUp n => exact cursorInvariant_moveCursorToReal s _ _ h
  | MoveCursorDown n => exact cursorInvariant_moveCursorToReal s _ _ h
  | MoveCursorForward n => exact cursorInvariant_moveCursorToReal s _ _ h
  | MoveCursorBackward n => exact cursorInvariant_moveCursorToReal s _ _ h
  | MoveCursorTo row column => exact cursorInvariant_moveCursorToReal s _ _ h
  | MoveCursorToLine row => exact cursorInvariant_moveCursorToReal s _ _ h
  | MoveCursorToColumn column => exact cursorInvariant_moveCursorToReal s _ _ h
  | CursorNextLine n => exact cursorInvariant_moveCursorToReal s _ _ h
  | CursorPreviousLine n => exact cursorInvariant_moveCursorToReal s _ _ h
  | MoveCursorToNextTab => exact cursorInvariant_moveCursorToReal s _ _ h
  | HorizontalTabSet =>
    simp only [apply]
    split <;> exact ⟨h, rfl, rfl⟩
  | HorizontalTabClear all =>
    simp only [apply]
    split <;> exact ⟨h, rfl, rfl⟩
  | InsertLines n =>
    simp only [apply]
    split <;> exact ⟨h, rfl, rfl⟩
  | DeleteLines n =>
    simp only [apply]
    split <;> exact ⟨h, rfl, rfl⟩
  | InsertCharacters n =>
    simp only [apply]
    split <;> exact ⟨h, rfl, rfl⟩
  | DeleteCharacters n =>
    simp only [apply]
    split <;> exact ⟨h, rfl, rfl⟩
  | EraseCharacters n => exact ⟨h, rfl, rfl⟩
  | ClearToEndOfLine => exact ⟨h, rfl, rfl⟩
  | ClearToBeginOfLine => exact ⟨h, rfl, rfl⟩
  | ClearLine => exact ⟨h, rfl, rfl⟩
  | ClearToEndOfScreen => exact ⟨h, rfl, rfl⟩
  | ClearToBeginOfScreen => exact ⟨h, rfl, rfl⟩
  | ClearScreen => exact ⟨h, rfl, rfl⟩
  | ScrollUp n => exact cursorInvariant_scrollUp s n h
  | ScrollDown n => exact cursorInvariant_scrollDown s n h
  | ScreenAlignmentPattern =>
    exact cursorInvariant_moveCursorToReal
      { s with
        lines := mapIndexed (fun _ line =>
          fillColumns line 1 s.columns (Cell.blank.write ⟨0, 0, 0, 0⟩ 0x58 1)) 1 s.lines
        margin := { top := 1, bottom := s.rows, left := 1, right := s.columns } } 1 1 h
  | SetMode mode enable => exact cursorInvariant_setMode s mode enable h
  | SetTopBottomMargin top bottom => exact cursorInvariant_setTopBottomMargin s top bottom h
  | SetLeftRightMargin left right => exact cursorInvariant_setLeftRightMargin s left right h
  | SaveCursor =>
    obtain ⟨h1, h2, h3, h4⟩ := h
    refine ⟨⟨h1, h2, h3, ?_⟩, rfl, rfl⟩
    intro saved hs
    rcases List.mem_cons.mp hs with hs | hs
    · rw [hs]
      exact h3
    · exact h4 saved hs
  | RestoreCursor =>
    simp only [apply]
    split
    · exact ⟨h, rfl, rfl⟩
    · rename_i saved rest hsaved
      obtain ⟨h1, h2, _, h4⟩ := h
      refine ⟨⟨h1, h2, h4 saved (by rw [hsaved]; exact List.mem_cons_self _ _), ?_⟩, rfl, rfl⟩
      intro x hx
      exact h4 x (by rw [hsaved]; exact List.mem_cons_of_mem _ hx)
  | SetGraphicsRendition attributes => exact ⟨h, rfl, rfl⟩
  | ReportCursorPosition => exact ⟨h, rfl, rfl⟩
  | ReportExtendedCursorPosition => exact ⟨h, rfl, rfl⟩
  | FullReset =>
    exact ⟨cursorInvariant_create s.columns s.rows s.maxHistoryLineCount h.2.1 h.1, rfl, rfl⟩

theorem cursorInvariant_run (commands : List Command) :
    ∀ s : Screen, s.cursorInvariant →
      (s.run commands).cursorInvariant ∧ (s.run commands).rows = s.rows
        ∧ (s.run commands).columns = s.columns := by
  induction commands with
  | nil => intro s h; exact ⟨h, rfl, rfl⟩
  | cons c rest ih =>
    intro s h
    obtain ⟨h1, h2, h3⟩ := cursorInvariant_apply s c h
    obtain ⟨h4, h5, h6⟩ := ih (s.apply c) h1
    exact ⟨h4, h5.trans h2, h6.trans h3⟩

theorem cursorInvariant_feed (inputs : List Input) :
    ∀ s : Screen, s.cursorInvariant →
      (s.feed inputs).cursorInvariant ∧ (s.feed inputs).rows = s.rows
        ∧ (s.feed inputs).columns = s.columns := by
  induction inputs with
  | nil => intro s h; exact ⟨h, rfl, rfl⟩
  | cons input rest ih =>
    intro s h
    have hstep : ∃ s1 : Screen, s.feed (input :: rest) = s1.feed rest
        ∧ s1.cursorInvariant ∧ s1.rows = s.rows ∧ s1.columns = s.columns := by
      cases input with
      | command c => exact ⟨s.apply c, rfl, cursorInvariant_apply s c h⟩
      | text bytes => exact ⟨s.write bytes, rfl, cursorInvariant_run _ s h⟩
    obtain ⟨s1, heq, h1, h2, h3⟩ := hstep
    obtain ⟨h4, h5, h6⟩ := ih s1 h1
    rw [heq]
    exact ⟨h4, h5.trans h2, h6.trans h3⟩

/-- C17: the cursor invariant. In every screen state reached from the
construction of a page of at least one row and one column by any sequence of
commands and written bytes, the page size is the one of the construction,
`1 <= cursor row <= rows`, `1 <= cursor column <= columns`, and whenever the
pending-wrap latch is set the cursor column equals the column count of the
page. -/
theorem cursor_invariant (columns rows maxHistoryLineCount : Nat) (hc : 1 ≤ columns)
    (hr : 1 ≤ rows) (inputs : List Input) :
    ((create columns rows maxHistoryLineCount).feed inputs).rows = rows
      ∧ ((create columns rows maxHistoryLineCount).feed inputs).columns = columns
      ∧ 1 ≤ ((create columns rows maxHistoryLineCount).feed inputs).cursor.row
      ∧ ((create columns rows maxHistoryLineCount).feed inputs).cursor.row ≤ rows
      ∧ 1 ≤ ((create columns rows maxHistoryLineCount).feed inputs).cursor.column
      ∧ ((create columns rows maxHistoryLineCount).feed inputs).cursor.column ≤ columns
      ∧ (((create columns rows maxHistoryLineCount).feed inputs).cursor.wrapPending = true →
          ((create columns rows maxHistoryLineCount).feed inputs).cursor.column = columns) := by
  obtain ⟨⟨_, _, ⟨h3, h4, h5, h6, h7⟩, _⟩, hrows, hcols⟩ :=
    cursorInvariant_feed inputs _ (cursorInvariant_create columns rows maxHistoryLineCount hc hr)
  have hrows2 : ((create columns rows maxHistoryLineCount).feed inputs).rows = rows := hrows
  have hcols2 : ((create columns rows maxHistoryLineCount).feed inputs).columns = columns := hcols
  rw [hrows2] at h4
  rw [hcols2] at h6 h7
  exact ⟨hrows2, hcols2, h3, h4, h5, h6, h7⟩

/-- C17 at a sample run: a page of 3 columns and 2 rows, autowrap switched on,
`ABC` written, the cursor moved up by 5. -/
theorem cursor_invariant_witness :
    ((create 3 2 100).feed [Input.command (Command.SetMode Mode.AutoWrap true),
        Input.text (ascii "ABC"), Input.command (Command.MoveCursorUp 5)]).rows = 2
      ∧ ((create 3 2 100).feed [Input.command (Command.SetMode Mode.AutoWrap true),
        Input.text (ascii "ABC"), Input.command (Command.MoveCursorUp 5)]).columns = 3
      ∧ 1 ≤ ((create 3 2 100).feed [Input.command (Command.SetMode Mode.AutoWrap true),
        Input.text (ascii "ABC"), Input.command (Command.MoveCursorUp 5)]).cursor.row
      ∧ ((create 3 2 100).feed [Input.command (Command.SetMode Mode.AutoWrap true),
        Input.text (ascii "ABC"), Input.command (Command.MoveCursorUp 5)]).cursor.row ≤ 2
      ∧ 1 ≤ ((create 3 2 100).feed [Input.command (Command.SetMode Mode.AutoWrap true),
        Input.text (ascii "ABC"), Input.command (Command.MoveCursorUp 5)]).cursor.column
      ∧ ((create 3 2 100).feed [Input.command (Command.SetMode Mode.AutoWrap true),
        Input.text (ascii "ABC"), Input.command (Command.MoveCursorUp 5)]).cursor.column ≤ 3
      ∧ (((create 3 2 100).feed [Input.command (Command.SetMode Mode.AutoWrap true),
        Input.text (ascii "ABC"), Input.command (Command.MoveCursorUp 5)]).cursor.wrapPending = true →
          ((create 3 2 100).feed [Input.command (Command.SetMode Mode.AutoWrap true),
        Input.text (ascii "ABC"), Input.command (Command.MoveCursorUp 5)]).cursor.column = 3) :=
  cursor_invariant 3 2 100 (by decide) (by decide) _

/-! ### Screen: scrolling -/

theorem validMargins_iff (s : Screen) :
    s.validMargins = true ↔
      1 ≤ s.margin.top ∧ s.margin.top ≤ s.margin.bottom ∧ s.margin.bottom ≤ s.rows
        ∧ 1 ≤ s.margin.left ∧ s.margin.left ≤ s.margin.right ∧ s.margin.right ≤ s.columns := by
  simp [validMargins, and_assoc]

theorem blankLine_getElem? (s : Screen) (j : Nat) (h1 : 1 ≤ j) (h2 : j ≤ s.columns) :
    s.blankLine[j - 1]? = some s.blankCell := by
  simp only [blankLine, List.getElem?_replicate]
  rw [if_pos (by omega)]

theorem cellAt_scrollUp (s : Screen) (n i j : Nat) (hwf : s.wellFormed = true)
    (hm : s.validMargins = true) (hi : 1 ≤ i) (hi2 : i ≤ s.rows) (hj : 1 ≤ j)
    (hj2 : j ≤ s.columns) :
    cellAt (s.scrollUp n).lines i j
      = if s.margin.top ≤ i ∧ i ≤ s.margin.bottom ∧ s.margin.left ≤ j ∧ j ≤ s.margin.right then
          (if i + n ≤ s.margin.bottom then cellAt s.lines (i + n) j else some s.blankCell)
        else cellAt s.lines i j := by
  obtain ⟨hlen, hwidth⟩ := (wellFormed_iff s).mp hwf
  obtain ⟨m1, m2, m3, m4, m5, m6⟩ := (validMargins_iff s).mp hm
  simp only [scrollUp]
  rw [cellAt_scrollUpRect s.lines s.blankLine _ _ _ _ _ s.columns i j hwidth (by simp [blankLine])
    m4 m5 m6 (by omega) hi (by omega) hj, blankLine_getElem? s j hj hj2]
  by_cases hin : s.margin.top ≤ i ∧ i ≤ s.margin.bottom ∧ s.margin.left ≤ j ∧ j ≤ s.margin.right
  · rw [if_pos hin, if_pos hin]
    by_cases hn : i + n ≤ s.margin.bottom
    · have hmin : min n (s.margin.bottom + 1 - s.margin.top) = n := by omega
      rw [hmin]
    · have hn2 : ¬ i + min n (s.margin.bottom + 1 - s.margin.top) ≤ s.margin.bottom := by omega
      rw [if_neg hn, if_neg hn2]
  · rw [if_neg hin, if_neg hin]

theorem cellAt_scrollDown (s : Screen) (n i j : Nat) (hwf : s.wellFormed = true)
    (hm : s.validMargins = true) (hi : 1 ≤ i) (hi2 : i ≤ s.rows) (hj : 1 ≤ j)
    (hj2 : j ≤ s.columns) :
    cellAt (s.scrollDown n).lines i j
      = if s.margin.top ≤ i ∧ i ≤ s.margin.bottom ∧ s.margin.left ≤ j ∧ j ≤ s.margin.right then
          (if s.margin.top + n ≤ i then cellAt s.lines (i - n) j else some s.blankCell)
        else cellAt s.lines i j := by
  obtain ⟨hlen, hwidth⟩ := (wellFormed_iff s).mp hwf
  obtain ⟨m1, m2, m3, m4, m5, m6⟩ := (validMargins_iff s).mp hm
  simp only [scrollDown]
  rw [cellAt_scrollDownRect s.lines s.blankLine _ _ _ _ _ s.columns i j hwidth
    (by simp [blankLine]) m1 m4 m5 m6 hi (by omega) hj, blankLine_getElem? s j hj hj2]
  by_cases hin : s.margin.top ≤ i ∧ i ≤ s.margin.bottom ∧ s.margin.left ≤ j ∧ j ≤ s.margin.right
  · rw [if_pos hin, if_pos hin]
    by_cases hn : s.margin.top + n ≤ i
    · have hmin : min n (s.margin.bottom + 1 - s.margin.top) = n := by omega
      rw [hmin]
    · have hn2 : ¬ s.margin.top + min n (s.margin.bottom + 1 - s.margin.top) ≤ i := by omega
      rw [if_neg hn, if_neg hn2]
  · rw [if_neg hin, if_neg hin]

/-- C18: `Index` with the cursor on the bottom-margin row, with vertical margins
`[t, b]` and horizontal margins `[l, r]`, scrolls only the rectangle rows
`t..b`, columns `l..r` up by one row and blanks columns `l..r` of row `b`: a
cell of the rectangle takes the cell below it, or becomes empty on row `b`, and
every cell outside the rectangle is unchanged; the cursor is unchanged. -/
theorem index_at_bottom_margin (s : Screen) (hwf : s.wellFormed = true)
    (hm : s.validMargins = true) (hrow : s.cursor.row = s.margin.bottom) :
    (s.apply Command.Index).cursor = s.cursor
      ∧ ∀ i j, 1 ≤ i → i ≤ s.rows → 1 ≤ j → j ≤ s.columns →
          cellAt (s.apply Command.Index).lines i j
            = if s.margin.top ≤ i ∧ i ≤ s.margin.bottom
                  ∧ s.margin.left ≤ j ∧ j ≤ s.margin.right then
                (if i < s.margin.bottom then cellAt s.lines (i + 1) j else some s.blankCell)
              else cellAt s.lines i j := by
  have hidx : s.apply Command.Index = s.scrollUp 1 := by
    show s.index = _
    rw [index, if_pos hrow]
  rw [hidx]
  refine ⟨rfl, ?_⟩
  intro i j hi hi2 hj hj2
  rw [cellAt_scrollUp s 1 i j hwf hm hi hi2 hj hj2]
  by_cases hin : s.margin.top ≤ i ∧ i ≤ s.margin.bottom ∧ s.margin.left ≤ j ∧ j ≤ s.margin.right
  · rw [if_pos hin, if_pos hin]
    by_cases hlt : i < s.margin.bottom
    · rw [if_pos hlt, if_pos (by omega)]
    · rw [if_neg hlt, if_neg (by omega)]
  · rw [if_neg hin, if_neg hin]

set_option maxRecDepth 100000 in
/-- C18 at the sample page: margins rows 2..4, columns 2..4 and the cursor at
row 4, column 2, as in the test `Index_at_bottom_margin`. -/
theorem index_at_bottom_margin_witness :
    ((samplePage.run [Command.SetMode Mode.LeftRightMargin true, Command.SetLeftRightMargin 2 4,
        Command.SetTopBottomMargin 2 4, Command.MoveCursorTo 4 2]).apply Command.Index).cursor
      = (samplePage.run [Command.SetMode Mode.LeftRightMargin true, Command.SetLeftRightMargin 2 4,
        Command.SetTopBottomMargin 2 4, Command.MoveCursorTo 4 2]).cursor :=
  (index_at_bottom_margin
    (samplePage.run [Command.SetMode Mode.LeftRightMargin true, Command.SetLeftRightMargin 2 4,
      Command.SetTopBottomMargin 2 4, Command.MoveCursorTo 4 2])
    rfl rfl rfl).1

/-- C19: `ScrollUp(n)` and `ScrollDown(n)` clamp `n` to the height of the scroll
region: for `n` at least the height the result is that for the height, and then
every cell of the region is empty. In general, inside the region a cell takes
the cell `n` rows below it (`ScrollUp`) or above it (`ScrollDown`) when that
row is in the region and becomes empty otherwise, so the surviving rows keep
their order and `n` empty rows appear at the bottom (`ScrollUp`) or top
(`ScrollDown`); every cell outside the region is unchanged. The region is the
rectangle of the vertical and horizontal margins. -/
theorem scroll_clamped (s : Screen) (n : Nat) (hwf : s.wellFormed = true)
    (hm : s.validMargins = true) :
    (s.margin.bottom + 1 - s.margin.top ≤ n →
        s.apply (Command.ScrollUp n)
            = s.apply (Command.ScrollUp (s.margin.bottom + 1 - s.margin.top))
          ∧ s.apply (Command.ScrollDown n)
            = s.apply (Command.ScrollDown (s.margin.bottom + 1 - s.margin.top)))
      ∧ (∀ i j, 1 ≤ i → i ≤ s.rows → 1 ≤ j → j ≤ s.columns →
          (cellAt (s.apply (Command.ScrollUp n)).lines i j
              = if s.margin.top ≤ i ∧ i ≤ s.margin.bottom
                    ∧ s.margin.left ≤ j ∧ j ≤ s.margin.right then
                  (if i + n ≤ s.margin.bottom then cellAt s.lines (i + n) j
                   else some s.blankCell)
                else cellAt s.lines i j)
            ∧ (cellAt (s.apply (Command.ScrollDown n)).lines i j
              = if s.margin.top ≤ i ∧ i ≤ s.margin.bottom
                    ∧ s.margin.left ≤ j ∧ j ≤ s.margin.right then
                  (if s.margin.top + n ≤ i then cellAt s.lines (i - n) j
                   else some s.blankCell)
                else cellAt s.lines i j)
            ∧ (s.margin.bottom + 1 - s.margin.top ≤ n →
                s.margin.top ≤ i ∧ i ≤ s.margin.bottom
                    ∧ s.margin.left ≤ j ∧ j ≤ s.margin.right →
                cellAt (s.apply (Command.ScrollUp n)).lines i j = some s.blankCell
                  ∧ cellAt (s.apply (Command.ScrollDown n)).lines i j = some s.blankCell)) := by
  constructor
  · intro hn
    have hmin : min n (s.margin.bottom + 1 - s.margin.top)
        = min (s.margin.bottom + 1 - s.margin.top) (s.margin.bottom + 1 - s.margin.top) := by
      omega
    constructor
    · show s.scrollUp n = s.scrollUp _
      simp only [scrollUp, hmin]
    · show s.scrollDown n = s.scrollDown _
      simp only [scrollDown, hmin]
  · intro i j hi hi2 hj hj2
    have hup : cellAt (s.apply (Command.ScrollUp n)).lines i j = _ :=
      cellAt_scrollUp s n i j hwf hm hi hi2 hj hj2
    have hdown : cellAt (s.apply (Command.ScrollDown n)).lines i j = _ :=
      cellAt_scrollDown s n i j hwf hm hi hi2 hj hj2
    refine ⟨hup, hdown, ?_⟩
    intro hn hin
    rw [hup, hdown, if_pos hin, if_pos hin, if_neg (by omega), if_neg (by omega)]
    exact ⟨rfl, rfl⟩

set_option maxRecDepth 100000 in
/-- C19 at the sample page with margins rows 2..4: `ScrollDown 5` gives the
same screen as `ScrollDown 3`, the height of the region. -/
theorem scroll_clamped_witness :
    (samplePage.run [Command.SetTopBottomMargin 2 4]).apply (Command.ScrollUp 5)
        = (samplePage.run [Command.SetTopBottomMargin 2 4]).apply (Command.ScrollUp (4 + 1 - 2))
      ∧ (samplePage.run [Command.SetTopBottomMargin 2 4]).apply (Command.ScrollDown 5)
        = (samplePage.run [Command.SetTopBottomMargin 2 4]).apply
            (Command.ScrollDown (4 + 1 - 2)) :=
  (scroll_clamped (samplePage.run [Command.SetTopBottomMargin 2 4]) 5 rfl rfl).1
    (by decide)

/-- C20: when a line feed on the bottom row scrolls a well-formed page whose
scroll region is the whole page with no horizontal margin, the visible rows are
the former rows `2..rows` followed by a new empty row, on which the cursor
stands at column 1; and while the scrollback is below its capacity, the evicted
top row is appended to it: its size grows by exactly one and
`renderHistoryTextLine(0)` is the rendering of the evicted row. -/
theorem linefeed_evicts_to_scrollback {sigma : Type} (U : Unicode sigma) (s : Screen)
    (hwf : s.wellFormed = true) (hfull : s.fullPageRegion = true)
    (hrow : s.cursor.row = s.rows) (hpos : 1 ≤ s.rows) :
    (s.apply Command.Linefeed).lines = s.lines.drop 1 ++ [s.blankLine]
      ∧ (s.apply Command.Linefeed).cursor
          = { row := s.rows, column := 1, wrapPending := false }
      ∧ (s.savedLines.length < s.maxHistoryLineCount →
          (s.apply Command.Linefeed).savedLines = s.savedLines ++ [lineAt s.lines 1]
            ∧ (s.apply Command.Linefeed).savedLines.length = s.savedLines.length + 1
            ∧ renderHistoryTextLine U (s.apply Command.Linefeed) 0 = renderTextLine U s 1) := by
  obtain ⟨hlen, _⟩ := (wellFormed_iff s).mp hwf
  have hfull2 := hfull
  simp only [fullPageRegion, Bool.and_eq_true, beq_iff_eq] at hfull2
  have hb : s.cursor.row = s.margin.bottom := by
    rw [hrow, hfull2.1.1.2]
  have hlf : s.apply Command.Linefeed
      = { s.scrollUp 1 with cursor := { row := s.cursor.row, column := 1, wrapPending := false } } :=
    linefeed_bottom s hb
  obtain ⟨hl, hs⟩ := scrollUp_fullPage s 1 hwf hfull
  have hmin : min 1 s.rows = 1 := by omega
  rw [hmin] at hl hs
  have htake : s.lines.take 1 = [lineAt s.lines 1] := by
    cases hq : s.lines with
    | nil =>
      rw [hq] at hlen
      simp at hlen
      omega
    | cons x rest => simp [lineAt]
  rw [hlf]
  refine ⟨hl, by rw [hrow], ?_⟩
  intro hcap
  have hsaved : (s.scrollUp 1).savedLines = s.savedLines ++ [lineAt s.lines 1] := by
    rw [hs, htake, trimHistory]
    have : (s.savedLines ++ [lineAt s.lines 1]).length - s.maxHistoryLineCount = 0 := by
      simp
      omega
    rw [this, List.drop_zero]
  refine ⟨hsaved, ?_, ?_⟩
  · show ((s.scrollUp 1).savedLines).length = _
    rw [hsaved]
    simp
  · show Line.toUtf8Inflated U ((s.scrollUp 1).savedLines.reverse.getD 0 []) = _
    rw [hsaved]
    simp [renderTextLine]

set_option maxRecDepth 100000 in
/-- C20 at the sample page: a line feed with the cursor on row 5 evicts
`12345` to the empty scrollback. -/
theorem linefeed_evicts_to_scrollback_witness :
    (samplePage.apply Command.Linefeed).savedLines = samplePage.savedLines ++ [lineAt samplePage.lines 1]
      ∧ (samplePage.apply Command.Linefeed).savedLines.length = samplePage.savedLines.length + 1
      ∧ renderHistoryTextLine sampleUnicode (samplePage.apply Command.Linefeed) 0
          = renderTextLine sampleUnicode samplePage 1 :=
  (linefeed_evicts_to_scrollback sampleUnicode samplePage rfl rfl rfl (by decide)).2.2
    (by decide)

/-! ### Screen: the model reproduces the tests of `Screen_test.cpp` -/

set_option maxRecDepth 100000 in
/-- Test `AppendChar`: three columns, one row, autowrap off, `ABCD` gives `ABD`;
then autowrap on, `EF` gives `F` and two spaces. -/
theorem test_AppendChar :
    renderTextLine sampleUnicode
        (((create 3 1 100).apply (Command.SetMode Mode.AutoWrap false)).write (ascii "ABCD")) 1
        = ascii "ABD"
      ∧ renderTextLine sampleUnicode
        (((((create 3 1 100).apply (Command.SetMode Mode.AutoWrap false)).write (ascii "ABCD")).apply
          (Command.SetMode Mode.AutoWrap true)).write (ascii "EF")) 1
        = ascii "F  " := by
  decide

set_option maxRecDepth 100000 in
/-- Test `AppendChar_AutoWrap`: three columns, two rows, autowrap on, `ABCDEFG`
gives the rows `DEF` and `G`. -/
theorem test_AppendChar_AutoWrap :
    renderText sampleUnicode
        (((create 3 2 100).apply (Command.SetMode Mode.AutoWrap true)).write (ascii "ABCDEFG"))
      = ascii "DEF\nG  \n" := by
  decide

set_option maxRecDepth 100000 in
/-- Test `Index_at_bottom_margin`: `Index` on the bottom margin with vertical
margins only, and with vertical and horizontal margins. -/
theorem test_Index_at_bottom_margin :
    renderText sampleUnicode
        (samplePage.run [Command.SetTopBottomMargin 2 4, Command.MoveCursorTo 4 2, Command.Index])
        = ascii "12345\nABCDE\nFGHIJ\n     \nKLMNO\n"
      ∧ renderText sampleUnicode
        (samplePage.run [Command.SetMode Mode.LeftRightMargin true,
          Command.SetLeftRightMargin 2 4, Command.SetTopBottomMargin 2 4,
          Command.MoveCursorTo 4 2, Command.Index])
        = ascii "12345\n6BCD0\nAGHIE\nF   J\nKLMNO\n" := by
  decide

set_option maxRecDepth 100000 in
/-- Tests `ScrollUp` and `ScrollDown`: by one row, clamped, and inside vertical
and horizontal margins. -/
theorem test_ScrollUp_ScrollDown :
    renderText sampleUnicode
        (((create 3 3 100).write (ascii "ABC\nDEF\nGHI")).apply (Command.ScrollUp 1))
        = ascii "DEF\nGHI\n   \n"
      ∧ renderText sampleUnicode
        (((create 3 3 100).write (ascii "ABC\nDEF\nGHI")).apply (Command.ScrollUp 4))
        = ascii "   \n   \n   \n"
      ∧ renderText sampleUnicode
        (samplePage.run [Command.SetTopBottomMargin 2 4, Command.ScrollDown 1])
        = ascii "12345\n     \n67890\nABCDE\nKLMNO\n"
      ∧ renderText sampleUnicode
        (samplePage.run [Command.SetMode Mode.LeftRightMargin true,
          Command.SetLeftRightMargin 2 4, Command.SetTopBottomMargin 2 4,
          Command.SetMode Mode.CursorRestrictedToMargin true, Command.ScrollDown 2])
        = ascii "12345\n6   0\nA   E\nF789J\nKLMNO\n" := by
  decide

set_option maxRecDepth 100000 in
/-- Test `ClearScrollbackBuffer`: a sixth row written to a page of five rows
moves the first row to the scrollback. -/
theorem test_ClearScrollbackBuffer :
    renderText sampleUnicode
        ((samplePage.write (ascii "\nPQRST")).apply (Command.MoveCursorTo 1 1))
        = ascii "67890\nABCDE\nFGHIJ\nKLMNO\nPQRST\n"
      ∧ (samplePage.write (ascii "\nPQRST")).savedLines.length = 1
      ∧ renderHistoryTextLine sampleUnicode (samplePage.write (ascii "\nPQRST")) 0
        = ascii "12345" := by
  decide

set_option maxRecDepth 100000 in
/-- Tests `MoveCursorToNextTab` and `ReportCursorPosition`. -/
theorem test_MoveCursorToNextTab_ReportCursorPosition :
    ((create 20 3 100).run [Command.MoveCursorToNextTab]).cursor.column = 9
      ∧ ((create 20 3 100).run [Command.MoveCursorToNextTab, Command.MoveCursorToNextTab]).cursor.column
        = 17
      ∧ ((create 20 3 100).run [Command.MoveCursorToNextTab, Command.MoveCursorToNextTab,
          Command.MoveCursorToNextTab]).cursor.column = 20
      ∧ (samplePage.run [Command.MoveCursorTo 2 3, Command.ReportCursorPosition]).reply
        = [0x1B] ++ ascii "[2;3R" := by
  decide

/-! ### Screen: the page invariant -/

theorem mem_mapIndexed_bounds {α : Type} (f : Nat → α → α) (l : List α) :
    ∀ k y, y ∈ mapIndexed f k l → ∃ i x, k ≤ i ∧ i < k + l.length ∧ x ∈ l ∧ y = f i x := by
  induction l with
  | nil => intro k y h; simp [mapIndexed] at h
  | cons x rest ih =>
    intro k y h
    simp only [mapIndexed, List.mem_cons] at h
    rcases h with h | h
    · exact ⟨k, x, le_refl k, by simp, List.mem_cons_self _ _, h⟩
    · obtain ⟨i, z, h1, h2, hz, hy⟩ := ih (k + 1) y h
      exact ⟨i, z, by omega, by simp only [List.length_cons]; omega,
        List.mem_cons_of_mem _ hz, hy⟩

theorem length_spliceColumns (old source : InflatedBuffer) (left right width : Nat)
    (hline : old.length = width) (hsource : source.length = width)
    (hl : 1 ≤ left) (hlr : left ≤ right) (hr : right ≤ width) :
    (spliceColumns old source left right).length = width := by
  simp only [spliceColumns, List.length_append, List.length_take, List.length_drop]
  omega

theorem length_fillColumns (old : InflatedBuffer) (first last : Nat) (cell : Cell) :
    (fillColumns old first last cell).length = old.length := by
  simp [fillColumns, length_mapIndexed]

theorem length_insertCells (old : InflatedBuffer) (column right n : Nat) (blank : Cell)
    (h1 : 1 ≤ column) (h2 : column ≤ right) (h3 : right ≤ old.length) :
    (insertCells old column right n blank).length = old.length := by
  simp only [insertCells, List.length_append, List.length_take, List.length_drop,
    List.length_replicate]
  omega

theorem length_deleteCells (old : InflatedBuffer) (column right n : Nat) (blank : Cell)
    (h1 : 1 ≤ column) (h2 : column ≤ right) (h3 : right ≤ old.length) :
    (deleteCells old column right n blank).length = old.length := by
  simp only [deleteCells, List.length_append, List.length_take, List.length_drop,
    List.length_replicate]
  omega

theorem widths_mapIndexed (lines : List InflatedBuffer) (width : Nat)
    (f : Nat → InflatedBuffer → InflatedBuffer)
    (_hlines : ∀ line ∈ lines, line.length = width)
    (hf : ∀ i line, 1 ≤ i → i ≤ lines.length → line ∈ lines → (f i line).length = width) :
    (mapIndexed f 1 lines).length = lines.length
      ∧ ∀ line ∈ mapIndexed f 1 lines, line.length = width := by
  refine ⟨length_mapIndexed f lines 1, ?_⟩
  intro line hline
  obtain ⟨i, x, h1, h2, hx, hy⟩ := mem_mapIndexed_bounds f lines 1 line hline
  rw [hy]
  exact hf i x h1 (by omega) hx

theorem widths_scrollUpRect (lines : List InflatedBuffer) (blank : InflatedBuffer)
    (top bottom left right n width : Nat)
    (hlines : ∀ line ∈ lines, line.length = width) (hblank : blank.length = width)
    (hl : 1 ≤ left) (hlr : left ≤ right) (hr : right ≤ width) (hb : bottom ≤ lines.length) :
    (scrollUpRect lines top bottom left right n blank).length = lines.length
      ∧ ∀ line ∈ scrollUpRect lines top bottom left right n blank, line.length = width := by
  apply widths_mapIndexed lines width _ hlines
  intro i line hi hi2 hline
  by_cases hv : top ≤ i ∧ i ≤ bottom
  · rw [if_pos hv]
    apply length_spliceColumns _ _ _ _ _ (hlines line hline) _ hl hlr hr
    by_cases hn : i + n ≤ bottom
    · rw [if_pos hn]
      exact hlines _ (lineAt_of_le lines (i + n) (by omega) (by omega)).2
    · rw [if_neg hn]
      exact hblank
  · rw [if_neg hv]
    exact hlines line hline

theorem widths_scrollDownRect (lines : List InflatedBuffer) (blank : InflatedBuffer)
    (top bottom left right n width : Nat)
    (hlines : ∀ line ∈ lines, line.length = width) (hblank : blank.length = width)
    (ht : 1 ≤ top) (hl : 1 ≤ left) (hlr : left ≤ right) (hr : right ≤ width) :
    (scrollDownRect lines top bottom left right n blank).length = lines.length
      ∧ ∀ line ∈ scrollDownRect lines top bottom left right n blank, line.length = width := by
  apply widths_mapIndexed lines width _ hlines
  intro i line hi hi2 hline
  by_cases hv : top ≤ i ∧ i ≤ bottom
  · rw [if_pos hv]
    apply length_spliceColumns _ _ _ _ _ (hlines line hline) _ hl hlr hr
    by_cases hn : top + n ≤ i
    · rw [if_pos hn]
      exact hlines _ (lineAt_of_le lines (i - n) (by omega) (by omega)).2
    · rw [if_neg hn]
      exact hblank
  · rw [if_neg hv]
    exact hlines line hline

theorem pageInvariant_iff (s : Screen) :
    s.pageInvariant ↔
      1 ≤ s.rows ∧ 1 ≤ s.columns
        ∧ (s.lines.length = s.rows ∧ ∀ line ∈ s.lines, line.length = s.columns)
        ∧ (1 ≤ s.margin.top ∧ s.margin.top ≤ s.margin.bottom ∧ s.margin.bottom ≤ s.rows
            ∧ 1 ≤ s.margin.left ∧ s.margin.left ≤ s.margin.right
            ∧ s.margin.right ≤ s.columns) := by
  rw [pageInvariant, wellFormed_iff, validMargins_iff]

/-- A screen that differs from `s` only in its lines, which keep their shape,
keeps the page invariant. -/
theorem pageInvariant_lines (s : Screen) (lines : List InflatedBuffer) (h : s.pageInvariant)
    (hshape : lines.length = s.lines.length ∧ ∀ line ∈ lines, line.length = s.columns) :
    Screen.pageInvariant { s with lines := lines } := by
  rw [pageInvariant_iff] at h ⊢
  obtain ⟨h1, h2, ⟨h3, _⟩, h5⟩ := h
  exact ⟨h1, h2, ⟨hshape.1.trans h3, hshape.2⟩, h5⟩

theorem pageInvariant_fill (s : Screen) (f : Nat → InflatedBuffer → InflatedBuffer)
    (h : s.pageInvariant) (hf : ∀ i line, (f i line).length = line.length) :
    Screen.pageInvariant { s with lines := mapIndexed f 1 s.lines } := by
  apply pageInvariant_lines s _ h
  have hw := ((pageInvariant_iff s).mp h).2.2.1.2
  exact widths_mapIndexed s.lines s.columns f hw
    (fun i line _ _ hline => by rw [hf, hw line hline])

theorem pageInvariant_updateLine (s : Screen) (row : Nat) (f : InflatedBuffer → InflatedBuffer)
    (h : s.pageInvariant) (hf : ∀ line ∈ s.lines, (f line).length = s.columns) :
    Screen.pageInvariant { s with lines := updateLine s.lines row f } := by
  apply pageInvariant_lines s _ h
  have hwf := h.2.2.1
  obtain ⟨h1, h2⟩ := wellFormed_updateLine s row f hwf hf
  exact ⟨h1.trans ((wellFormed_iff s).mp hwf).1.symm, h2⟩

theorem pageInvariant_moveCursorToReal (s : Screen) (row column : Nat) (h : s.pageInvariant) :
    (s.moveCursorToReal row column).pageInvariant := h

theorem pageInvariant_scrollUp (s : Screen) (n : Nat) (h : s.pageInvariant) :
    (s.scrollUp n).pageInvariant := by
  have h0 := (pageInvariant_iff s).mp h
  obtain ⟨_, _, ⟨h3, h4⟩, m1, m2, m3, m4, m5, m6⟩ := h0
  have hw := widths_scrollUpRect s.lines s.blankLine s.margin.top s.margin.bottom s.margin.left
    s.margin.right (min n (s.margin.bottom + 1 - s.margin.top)) s.columns h4
    (by simp [blankLine]) m4 m5 m6 (by omega)
  rw [pageInvariant_iff] at h ⊢
  obtain ⟨h1, h2, _, h5⟩ := h
  exact ⟨h1, h2, ⟨hw.1.trans h3, hw.2⟩, h5⟩

theorem pageInvariant_scrollDown (s : Screen) (n : Nat) (h : s.pageInvariant) :
    (s.scrollDown n).pageInvariant := by
  have h0 := (pageInvariant_iff s).mp h
  obtain ⟨_, _, ⟨_, h4⟩, m1, m2, m3, m4, m5, m6⟩ := h0
  exact pageInvariant_lines s _ h
    (widths_scrollDownRect s.lines s.blankLine s.margin.top s.margin.bottom s.margin.left
      s.margin.right (min n (s.margin.bottom + 1 - s.margin.top)) s.columns h4
      (by simp [blankLine]) m1 m4 m5 m6)

theorem pageInvariant_linefeed (s : Screen) (h : s.pageInvariant) : s.linefeed.pageInvariant := by
  by_cases hb : s.cursor.row = s.margin.bottom
  · rw [linefeed_bottom s hb]
    exact pageInvariant_scrollUp s 1 h
  · rw [linefeed_not_bottom s hb]
    exact h

theorem pageInvariant_appendChar (s : Screen) (ch : Nat) (h : s.pageInvariant) :
    (s.appendChar ch).pageInvariant := by
  have hx : (if (s.cursor.wrapPending && s.autoWrap) = true then s.linefeed else s).pageInvariant := by
    by_cases hc : (s.cursor.wrapPending && s.autoWrap) = true
    · rw [if_pos hc]
      exact pageInvariant_linefeed s h
    · rw [if_neg hc]
      exact h
  unfold appendChar
  generalize (if (s.cursor.wrapPending && s.autoWrap) = true then s.linefeed else s) = x at hx
  have hw := ((pageInvariant_iff x).mp hx).2.2.1.2
  have hupd := pageInvariant_updateLine x x.cursor.row
    (fun line => line.set (x.cursor.column - 1) (Cell.blank.write x.graphicsRendition ch 1)) hx
    (by
      intro line hline
      rw [List.length_set]
      exact hw line hline)
  dsimp only
  by_cases hlt : x.cursor.column < x.columns
  · rw [if_pos hlt]
    exact hupd
  · rw [if_neg hlt]
    by_cases ha : x.autoWrap = true
    · rw [if_pos ha]
      exact hupd
    · rw [if_neg ha]
      exact hupd

theorem pageInvariant_create (columns rows maxHistoryLineCount : Nat) (hc : 1 ≤ columns)
    (hr : 1 ≤ rows) : (create columns rows maxHistoryLineCount).pageInvariant := by
  rw [pageInvariant_iff]
  refine ⟨hr, hc, ⟨by simp [create], ?_⟩, le_refl 1, hr, le_refl _, le_refl 1, hc, le_refl _⟩
  intro line hline
  simp only [create] at hline
  rw [List.eq_of_mem_replicate hline]
  simp [create]

theorem pageInvariant_margin (s : Screen) (margin : Margin) (h : s.pageInvariant)
    (hm : 1 ≤ margin.top ∧ margin.top ≤ margin.bottom ∧ margin.bottom ≤ s.rows
      ∧ 1 ≤ margin.left ∧ margin.left ≤ margin.right ∧ margin.right ≤ s.columns) :
    Screen.pageInvariant { s with margin := margin } := by
  rw [pageInvariant_iff] at h ⊢
  obtain ⟨h1, h2, h3, _⟩ := h
  exact ⟨h1, h2, h3, hm⟩

theorem pageInvariant_apply (s : Screen) (c : Command) (h : s.pageInvariant) :
    (s.apply c).pageInvariant := by
  have h0 := (pageInvariant_iff s).mp h
  obtain ⟨hrows, hcols, ⟨hlen, hwidth⟩, m1, m2, m3, m4, m5, m6⟩ := h0
  cases c with
  | AppendChar ch => exact pageInvariant_appendChar s ch h
  | Linefeed => exact pageInvariant_linefeed s h
  | Backspace => exact h
  | MoveCursorToBeginOfLine => exact h
  | Index =>
    show s.index.pageInvariant
    unfold index
    split
    · exact pageInvariant_scrollUp s 1 h
    · exact h
  | ReverseIndex =>
    show s.reverseIndex.pageInvariant
    unfold reverseIndex
    split
    · exact pageInvariant_scrollDown s 1 h
    · exact h
  | MoveCursorUp n => exact h
  | MoveCursorDown n => exact h
  | MoveCursorForward n => exact h
  | MoveCursorBackward n => exact h
  | MoveCursorTo row column => exact h
  | MoveCursorToLine row => exact h
  | MoveCursorToColumn column => exact h
  | CursorNextLine n => exact h
  | CursorPreviousLine n => exact h
  | MoveCursorToNextTab => exact h
  | HorizontalTabSet =>
    simp only [apply]
    split <;> exact h
  | HorizontalTabClear all =>
    simp only [apply]
    split <;> exact h
  | InsertLines n =>
    simp only [apply]
    split
    · rename_i hin
      simp only [insideVerticalMargin, Bool.and_eq_true, decide_eq_true_eq] at hin
      exact pageInvariant_lines s _ h
        (widths_scrollDownRect s.lines s.blankLine s.cursor.row s.margin.bottom s.margin.left
          s.margin.right _ s.columns hwidth (by simp [blankLine]) (by omega) m4 m5 m6)
    · exact h
  | DeleteLines n =>
    simp only [apply]
    split
    · exact pageInvariant_lines s _ h
        (widths_scrollUpRect s.lines s.blankLine s.cursor.row s.margin.bottom s.margin.left
          s.margin.right _ s.columns hwidth (by simp [blankLine]) m4 m5 m6 (by omega))
    · exact h
  | InsertCharacters n =>
    simp only [apply]
    split
    · rename_i hin
      simp only [insideHorizontalMargin, Bool.and_eq_true, decide_eq_true_eq] at hin
      apply pageInvariant_updateLine s _ _ h
      intro line hline
      rw [length_insertCells _ _ _ _ _ (by omega) hin.2 (by rw [hwidth line hline]; exact m6)]
      exact hwidth line hline
    · exact h
  | DeleteCharacters n =>
    simp only [apply]
    split
    · rename_i hin
      simp only [insideHorizontalMargin, Bool.and_eq_true, decide_eq_true_eq] at hin
      apply pageInvariant_updateLine s _ _ h
      intro line hline
      rw [length_deleteCells _ _ _ _ _ (by omega) hin.2 (by rw [hwidth line hline]; exact m6)]
      exact hwidth line hline
    · exact h
  | EraseCharacters n =>
    apply pageInvariant_updateLine s _ _ h
    intro line hline
    rw [length_fillColumns]
    exact hwidth line hline
  | ClearToEndOfLine =>
    apply pageInvariant_updateLine s _ _ h
    intro line hline
    rw [length_fillColumns]
    exact hwidth line hline
  | ClearToBeginOfLine =>
    apply pageInvariant_updateLine s _ _ h
    intro line hline
    rw [length_fillColumns]
    exact hwidth line hline
  | ClearLine =>
    apply pageInvariant_updateLine s _ _ h
    intro line hline
    rw [length_fillColumns]
    exact hwidth line hline
  | ClearToEndOfScreen =>
    apply pageInvariant_fill s _ h
    intro i line
    dsimp only
    split
    · exact length_fillColumns _ _ _ _
    · rfl
  | ClearToBeginOfScreen =>
    apply pageInvariant_fill s _ h
    intro i line
    dsimp only
    split
    · exact length_fillColumns _ _ _ _
    · split
      · exact length_fillColumns _ _ _ _
      · rfl
  | ClearScreen =>
    apply pageInvariant_fill s _ h
    intro i line
    exact length_fillColumns _ _ _ _
  | ScrollUp n => exact pageInvariant_scrollUp s n h
  | ScrollDown n => exact pageInvariant_scrollDown s n h
  | ScreenAlignmentPattern =>
    have h1 := pageInvariant_fill s
      (fun _ line => fillColumns line 1 s.columns (Cell.blank.write ⟨0, 0, 0, 0⟩ 0x58 1)) h
      (fun _ _ => length_fillColumns _ _ _ _)
    have h2 := pageInvariant_margin
      { s with
        lines :=
          mapIndexed (fun _ line =>
            fillColumns line 1 s.columns (Cell.blank.write ⟨0, 0, 0, 0⟩ 0x58 1)) 1 s.lines }
      { top := 1, bottom := s.rows, left := 1, right := s.columns } h1
      ⟨le_refl 1, hrows, le_refl _, le_refl 1, hcols, le_refl _⟩
    exact h2
  | SetMode mode enable =>
    cases mode with
    | AutoWrap => exact h
    | CursorRestrictedToMargin => exact h
    | LeftRightMargin =>
      cases enable with
      | true => exact h
      | false =>
        exact pageInvariant_margin { s with leftRightMargin := false }
          { s.margin with left := 1, right := s.columns } h
          ⟨m1, m2, m3, le_refl 1, hcols, le_refl _⟩
  | SetTopBottomMargin top bottom =>
    show (s.setTopBottomMargin top bottom).pageInvariant
    unfold setTopBottomMargin
    dsimp only
    have ht : 1 ≤ (if top = 0 then 1 else top) := by
      split <;> omega
    generalize (if top = 0 then 1 else top) = t at ht
    generalize (if bottom = 0 then s.rows else bottom) = b
    by_cases hv : t < b ∧ b ≤ s.rows
    · rw [if_pos hv]
      exact pageInvariant_margin s { s.margin with top := t, bottom := b } h
        ⟨ht, by show t ≤ b; omega, hv.2, m4, m5, m6⟩
    · rw [if_neg hv]
      exact h
  | SetLeftRightMargin left right =>
    show (s.setLeftRightMargin left right).pageInvariant
    unfold setLeftRightMargin
    dsimp only
    have hl : 1 ≤ (if left = 0 then 1 else left) := by
      split <;> omega
    generalize (if left = 0 then 1 else left) = l at hl
    generalize (if right = 0 then s.columns else right) = r
    by_cases hv : s.leftRightMargin = true ∧ l < r ∧ r ≤ s.columns
    · rw [if_pos hv]
      exact pageInvariant_margin s { s.margin with left := l, right := r } h
        ⟨m1, m2, m3, hl, by show l ≤ r; omega, hv.2.2⟩
    · rw [if_neg hv]
      exact h
  | SaveCursor => exact h
  | RestoreCursor =>
    simp only [apply]
    split
    · exact h
    · exact h
  | SetGraphicsRendition attributes => exact h
  | ReportCursorPosition => exact h
  | ReportExtendedCursorPosition => exact h
  | FullReset => exact pageInvariant_create s.columns s.rows s.maxHistoryLineCount hcols hrows

theorem pageInvariant_run (commands : List Command) :
    ∀ s : Screen, s.pageInvariant → (s.run commands).pageInvariant := by
  induction commands with
  | nil => intro s h; exact h
  | cons c rest ih =>
    intro s h
    exact ih (s.apply c) (pageInvariant_apply s c h)

/-- Every screen state reached from the construction of a page of at least one
row and one column is well formed and has its margins inside the page. -/
theorem pageInvariant_feed (columns rows maxHistoryLineCount : Nat) (hc : 1 ≤ columns)
    (hr : 1 ≤ rows) (inputs : List Input) :
    ((create columns rows maxHistoryLineCount).feed inputs).wellFormed = true
      ∧ ((create columns rows maxHistoryLineCount).feed inputs).validMargins = true := by
  have key : ∀ (inputs : List Input) (s : Screen), s.pageInvariant →
      (s.feed inputs).pageInvariant := by
    intro inputs
    induction inputs with
    | nil => intro s h; exact h
    | cons input rest ih =>
      intro s h
      cases input with
      | command c => exact ih (s.apply c) (pageInvariant_apply s c h)
      | text bytes => exact ih (s.write bytes) (pageInvariant_run _ s h)
  have h := key inputs _ (pageInvariant_create columns rows maxHistoryLineCount hc hr)
  exact ⟨h.2.2.1, h.2.2.2⟩

end Screen

/-! ### `inflate`: a codepoint that extends the previous cluster -/

/-- C30: in `inflate`, when a codepoint does not break from the previous one
and `appendCharacter` reports an extended width `w > 0` while `k` cells have
been produced (`k <= displayWidth`), the previous cell takes the codepoint and
exactly `max(0, min(w, displayWidth - k + 1) - 1)` continuation cells are
appended, each without codepoints and with the text attributes and the
hyperlink of the line; the number of cells after the step is at most
`displayWidth`. -/
theorem inflate_extended_width {sigma : Type} (U : Unicode sigma) (input : TrivialLineBuffer)
    (st : InflateState sigma) (c : Nat) (prevCell : Cell)
    (hbreak : U.breakable st.lastChar c = false)
    (hprev : st.columns.getLast? = some prevCell)
    (hw : 0 < U.extendedWidth prevCell.width c)
    (hk : st.columns.length ≤ input.displayWidth) :
    ∃ st1, inflateChar U input st c = some st1
      ∧ st1.columns
          = st.columns.dropLast ++ [(prevCell.appendCharacter U c).1]
            ++ List.replicate
                (max 0 (min (U.extendedWidth prevCell.width c)
                  ((input.displayWidth : Int) - (st.columns.length : Int) + 1) - 1)).toNat
                (continuationCell input)
      ∧ st1.columns.length
          = st.columns.length
            + (max 0 (min (U.extendedWidth prevCell.width c)
                ((input.displayWidth : Int) - (st.columns.length : Int) + 1) - 1)).toNat
      ∧ st1.columns.length ≤ input.displayWidth
      ∧ (continuationCell input).codepointCount = 0
      ∧ (continuationCell input).attributes = input.textAttributes
      ∧ (continuationCell input).hyperlink = input.hyperlink := by
  have hne : st.columns ≠ [] := by
    intro h
    rw [h] at hprev
    simp at hprev
  have hlen : 1 ≤ st.columns.length := List.length_pos.mpr hne
  have hcont : (Cell.ofAttributes input.textAttributes).setHyperlink input.hyperlink
      = continuationCell input := rfl
  have hw2 : (prevCell.appendCharacter U c).2 = U.extendedWidth prevCell.width c := rfl
  have hback : (setBack st.columns (prevCell.appendCharacter U c).1).length
      = st.columns.length := by
    simp [setBack]
    omega
  have hmax : (max 0 (min (U.extendedWidth prevCell.width c)
      ((input.displayWidth : Int) - (st.columns.length : Int) + 1) - 1)).toNat
      = (min (U.extendedWidth prevCell.width c)
      ((input.displayWidth : Int) - (st.columns.length : Int) + 1) - 1).toNat := by
    omega
  refine ⟨{ st with
      columns := st.columns.dropLast ++ [(prevCell.appendCharacter U c).1]
        ++ List.replicate
            (max 0 (min (U.extendedWidth prevCell.width c)
              ((input.displayWidth : Int) - (st.columns.length : Int) + 1) - 1)).toNat
            (continuationCell input)
      lastChar := c }, ?_, rfl, ?_, ?_, rfl, rfl, rfl⟩
  · simp only [inflateChar, hbreak, hprev, Bool.false_eq_true, if_false]
    rw [if_pos (by rw [hw2]; exact hw), hcont, emplaceBackTimes_eq, hback, hw2, hmax]
    rfl
  · simp
    omega
  · simp
    omega

theorem inflate_extended_width_witness :
    ∃ st1, inflateChar sampleExtendingUnicode sampleTrivial sampleStateAfterA 0xFE0F = some st1
      ∧ st1.columns.length = 2 := by
  obtain ⟨st1, h1, _, h3, _⟩ := inflate_extended_width sampleExtendingUnicode sampleTrivial
    sampleStateAfterA 0xFE0F ((Cell.blank.setHyperlink 7).write sampleText 65 1)
    (by decide) rfl (by decide) (by decide)
  exact ⟨st1, h1, by rw [h3]; decide⟩

/-! ### Screen: erasing and deleting within a line -/

theorem getElem?_fillColumns (old : InflatedBuffer) (first last : Nat) (cell : Cell) (k : Nat) :
    (fillColumns old first last cell)[k]?
      = (old[k]?).map (fun c => if first ≤ k + 1 ∧ k + 1 ≤ last then cell else c) := by
  simp only [fillColumns, getElem?_mapIndexed]
  rw [show 1 + k = k + 1 from Nat.add_comm 1 k]

theorem fillColumns_fillColumns (old : InflatedBuffer) (first last : Nat) (cell : Cell) :
    fillColumns (fillColumns old first last cell) first last cell
      = fillColumns old first last cell := by
  simp only [fillColumns, mapIndexed_mapIndexed]
  apply mapIndexed_congr
  intro i x _
  split <;> rfl

theorem fillColumns_full (old : InflatedBuffer) (width : Nat) (cell : Cell)
    (h : old.length = width) : fillColumns old 1 width cell = List.replicate width cell := by
  apply List.ext_getElem?
  intro k
  rw [getElem?_fillColumns, List.getElem?_replicate]
  by_cases hk : k < width
  · rw [if_pos hk, List.getElem?_eq_getElem (by omega)]
    simp only [Option.map_some']
    rw [if_pos (by omega)]
  · rw [if_neg hk, List.getElem?_eq_none (by omega)]
    rfl

theorem fillColumns_clamp (old : InflatedBuffer) (first last other : Nat) (cell : Cell)
    (h1 : old.length ≤ last) (h2 : old.length ≤ other) :
    fillColumns old first last cell = fillColumns old first other cell := by
  apply List.ext_getElem?
  intro k
  rw [getElem?_fillColumns, getElem?_fillColumns]
  by_cases hk : k < old.length
  · rw [List.getElem?_eq_getElem hk]
    simp only [Option.map_some']
    by_cases hf : first ≤ k + 1
    · rw [if_pos ⟨hf, by omega⟩, if_pos ⟨hf, by omega⟩]
    · rw [if_neg (by tauto), if_neg (by tauto)]
  · rw [List.getElem?_eq_none (by omega)]
    rfl

theorem cellAt_updateLine (lines : List InflatedBuffer) (row : Nat)
    (f : InflatedBuffer → InflatedBuffer) (i j : Nat) (hi : 1 ≤ i) (hi2 : i ≤ lines.length)
    (hj : 1 ≤ j) :
    cellAt (updateLine lines row f) i j
      = if i = row then (f (lineAt lines i))[j - 1]? else cellAt lines i j := by
  have hget := (lineAt_of_le lines i hi hi2).1
  have hidx : 1 + (i - 1) = i := by omega
  rw [cellAt_eq _ _ _ hi hj, cellAt_eq _ _ _ hi hj]
  simp only [updateLine, getElem?_mapIndexed, hget, hidx, Option.map_some', Option.some_bind]
  split <;> rfl

namespace Screen

theorem cellAt_of_wellFormed (s : Screen) (i j : Nat) (hwf : s.wellFormed = true)
    (hi : 1 ≤ i) (hi2 : i ≤ s.rows) (hj : 1 ≤ j) :
    cellAt s.lines i j = (lineAt s.lines i)[j - 1]?
      ∧ (lineAt s.lines i).length = s.columns := by
  obtain ⟨hlen, hwidth⟩ := (wellFormed_iff s).mp hwf
  have h := lineAt_of_le s.lines i hi (by omega)
  rw [cellAt_eq _ _ _ hi hj, h.1]
  exact ⟨rfl, hwidth _ h.2⟩


/-- C24: `ClearLine` is idempotent: in every screen state, applying it twice
gives the state that applying it once gives. It leaves the cursor where it is,
changes no cell of another row, and on a well-formed page with the cursor on
it, every cell of the cursor row becomes empty, so the row renders as `columns`
spaces. -/
theorem clearLine_idempotent {sigma : Type} (U : Unicode sigma) (s : Screen) :
    (s.apply Command.ClearLine).apply Command.ClearLine = s.apply Command.ClearLine
      ∧ (s.apply Command.ClearLine).cursor = s.cursor
      ∧ (∀ i j, 1 ≤ i → i ≤ s.lines.length → 1 ≤ j → i ≠ s.cursor.row →
          cellAt (s.apply Command.ClearLine).lines i j = cellAt s.lines i j)
      ∧ (s.wellFormed = true → 1 ≤ s.cursor.row → s.cursor.row ≤ s.rows →
          lineAt (s.apply Command.ClearLine).lines s.cursor.row
              = List.replicate s.columns s.blankCell
            ∧ renderTextLine U (s.apply Command.ClearLine) s.cursor.row
              = List.replicate s.columns space) := by
  refine ⟨?_, rfl, ?_, ?_⟩
  · show ({ s with
        lines := updateLine (updateLine s.lines s.cursor.row
          (fun line => fillColumns line 1 s.columns s.blankCell)) s.cursor.row
          (fun line => fillColumns line 1 s.columns s.blankCell) } : Screen)
      = { s with
          lines := updateLine s.lines s.cursor.row
            (fun line => fillColumns line 1 s.columns s.blankCell) }
    rw [updateLine_updateLine]
    simp only [fillColumns_fillColumns]
  · intro i j hi hi2 hj hne
    show cellAt (updateLine s.lines s.cursor.row
      (fun line => fillColumns line 1 s.columns s.blankCell)) i j = _
    rw [cellAt_updateLine _ _ _ _ _ hi hi2 hj, if_neg hne]
  · intro hwf h1 h2
    obtain ⟨hlen, hwidth⟩ := (wellFormed_iff s).mp hwf
    have hrow : lineAt (s.apply Command.ClearLine).lines s.cursor.row
        = List.replicate s.columns s.blankCell := by
      show lineAt (updateLine s.lines s.cursor.row
        (fun line => fillColumns line 1 s.columns s.blankCell)) s.cursor.row = _
      rw [lineAt_updateLine _ _ _ h1 (by omega)]
      exact fillColumns_full _ _ _ (hwidth _ (lineAt_of_le s.lines _ h1 (by omega)).2)
    refine ⟨hrow, ?_⟩
    unfold renderTextLine
    rw [hrow, Line.toUtf8Inflated_all_empty]
    · rw [List.length_replicate]
    · intro x hx
      rw [List.eq_of_mem_replicate hx]
      rfl

set_option maxRecDepth 100000 in
/-- The page of the test `ClearLine`: after `ABC` is written on a page of one
row and three columns, `ClearLine` leaves the row rendering as three spaces. -/
theorem clearLine_idempotent_witness :
    renderTextLine sampleUnicode
        ((((create 3 1 100).apply (Command.SetMode Mode.AutoWrap false)).write
          (ascii "ABC")).apply Command.ClearLine)
        (((create 3 1 100).apply (Command.SetMode Mode.AutoWrap false)).write
          (ascii "ABC")).cursor.row
      = List.replicate 3 space :=
  ((clearLine_idempotent sampleUnicode
    (((create 3 1 100).apply (Command.SetMode Mode.AutoWrap false)).write (ascii "ABC"))).2.2.2
      rfl (by decide) (by decide)).2


/-- C26: `EraseCharacters(n)` with the cursor at column `x` of a well-formed
page makes empty exactly the `min(max(n, 1), columns - x + 1)` cells of the
cursor row that start at the cursor, and shifts nothing: every other cell of
the page keeps its content. `EraseCharacters(0)` is `EraseCharacters(1)`, a
count larger than the rest of the row has the effect of the count that reaches
the row end, and the cursor stays where it is. -/
theorem eraseCharacters_spec (s : Screen) (n : Nat) (hwf : s.wellFormed = true)
    (hcol : 1 ≤ s.cursor.column ∧ s.cursor.column ≤ s.columns) :
    (s.apply (Command.EraseCharacters n)).cursor = s.cursor
      ∧ s.apply (Command.EraseCharacters 0) = s.apply (Command.EraseCharacters 1)
      ∧ (s.columns - s.cursor.column + 1 ≤ n →
          s.apply (Command.EraseCharacters n)
            = s.apply (Command.EraseCharacters (s.columns - s.cursor.column + 1)))
      ∧ ∀ i j, 1 ≤ i → i ≤ s.rows → 1 ≤ j → j ≤ s.columns →
          cellAt (s.apply (Command.EraseCharacters n)).lines i j
            = if i = s.cursor.row ∧ s.cursor.column ≤ j
                  ∧ j < s.cursor.column + min (max n 1) (s.columns - s.cursor.column + 1) then
                some s.blankCell
              else cellAt s.lines i j := by
  obtain ⟨hlen, hwidth⟩ := (wellFormed_iff s).mp hwf
  have hcell : ∀ m i j, 1 ≤ i → i ≤ s.rows → 1 ≤ j → j ≤ s.columns →
      cellAt (s.apply (Command.EraseCharacters m)).lines i j
        = if i = s.cursor.row ∧ s.cursor.column ≤ j
              ∧ j < s.cursor.column + min (max m 1) (s.columns - s.cursor.column + 1) then
            some s.blankCell
          else cellAt s.lines i j := by
    intro m i j hi hi2 hj hj2
    show cellAt (updateLine s.lines s.cursor.row (fun line =>
      fillColumns line s.cursor.column (s.cursor.column + max m 1 - 1) s.blankCell)) i j = _
    rw [cellAt_updateLine _ _ _ _ _ hi (by omega) hj]
    obtain ⟨hc, hl⟩ := cellAt_of_wellFormed s i j hwf hi hi2 hj
    by_cases hrow : i = s.cursor.row
    · rw [if_pos hrow, getElem?_fillColumns, ← hc]
      have hsome : ∃ c, (lineAt s.lines i)[j - 1]? = some c :=
        ⟨(lineAt s.lines i)[j - 1], List.getElem?_eq_getElem (by omega)⟩
      obtain ⟨c, hcs⟩ := hsome
      rw [hc, hcs]
      simp only [Option.map_some']
      by_cases hin : s.cursor.column ≤ j
          ∧ j < s.cursor.column + min (max m 1) (s.columns - s.cursor.column + 1)
      · rw [if_pos (by omega), if_pos ⟨hrow, hin⟩]
      · rw [if_neg (by omega), if_neg (by tauto)]
    · rw [if_neg hrow, if_neg (by tauto)]
  refine ⟨rfl, rfl, ?_, hcell n⟩
  intro hn
  show ({ s with lines := updateLine s.lines s.cursor.row (fun line =>
      fillColumns line s.cursor.column (s.cursor.column + max n 1 - 1) s.blankCell) } : Screen)
    = { s with lines := updateLine s.lines s.cursor.row (fun line =>
      fillColumns line s.cursor.column
        (s.cursor.column + max (s.columns - s.cursor.column + 1) 1 - 1) s.blankCell) }
  congr 1
  apply updateLine_congr
  intro line hline
  exact fillColumns_clamp _ _ _ _ _ (by rw [hwidth line hline]; omega)
    (by rw [hwidth line hline]; omega)


set_option maxRecDepth 100000 in
/-- The test `EraseCharacters`: with the cursor at home on a page of five
columns, `EraseCharacters(6)` is `EraseCharacters(5)`. -/
theorem eraseCharacters_spec_witness :
    (samplePage.apply (Command.MoveCursorTo 1 1)).apply (Command.EraseCharacters 6)
      = (samplePage.apply (Command.MoveCursorTo 1 1)).apply
          (Command.EraseCharacters
            ((samplePage.apply (Command.MoveCursorTo 1 1)).columns
              - (samplePage.apply (Command.MoveCursorTo 1 1)).cursor.column + 1)) :=
  (eraseCharacters_spec (samplePage.apply (Command.MoveCursorTo 1 1)) 6 rfl
    ⟨by decide, by decide⟩).2.2.1 (by decide)

theorem getElem?_deleteCells (old : InflatedBuffer) (column right n k : Nat) (blank : Cell)
    (h1 : 1 ≤ column) (h2 : column ≤ right) (h3 : right ≤ old.length) :
    (deleteCells old column right n blank)[k]?
      = if column ≤ k + 1 ∧ k + 1 ≤ right then
          (if k + 1 + min n (right - column + 1) ≤ right then
            old[k + min n (right - column + 1)]?
           else some blank)
        else old[k]? := by
  have hS : ((old.take right).drop (column - 1)).length = right - column + 1 := by
    rw [List.length_drop, List.length_take]; omega
  unfold deleteCells
  simp only [hS]
  generalize hcount : min n (right - column + 1) = count
  have hA : (old.take (column - 1)).length = column - 1 := by
    rw [List.length_take]; omega
  have hB : (((old.take right).drop (column - 1)).drop count).length
      = right - column + 1 - count := by
    rw [List.length_drop, hS]
  have hC : (List.replicate count blank).length = count := List.length_replicate _ _
  by_cases c1 : k < column - 1
  · rw [if_neg (by omega), List.append_assoc, List.append_assoc,
      List.getElem?_append_left (by omega), List.getElem?_take_of_lt c1]
  · by_cases c2 : k + 1 + count ≤ right
    · rw [if_pos (by omega), if_pos c2, List.append_assoc,
        List.getElem?_append_left (by rw [List.length_append, hA, hB]; omega),
        List.getElem?_append_right (by omega), hA, List.getElem?_drop, List.getElem?_drop,
        List.getElem?_take_of_lt (by omega)]
      congr 1
      omega
    · by_cases c3 : k < right
      · rw [if_pos (by omega), if_neg c2,
          List.getElem?_append_left (by simp only [List.length_append, hA, hB, hC]; omega),
          List.getElem?_append_right (by rw [List.length_append, hA, hB]; omega),
          List.getElem?_replicate]
        rw [if_pos (by rw [List.length_append, hA, hB]; omega)]
      · rw [if_neg (by omega),
          List.getElem?_append_right (by simp only [List.length_append, hA, hB, hC]; omega),
          List.getElem?_drop]
        congr 1
        simp only [List.length_append, hA, hB, hC]
        omega

theorem deleteCells_zero (old : InflatedBuffer) (column right : Nat) (blank : Cell)
    (h2 : column ≤ right) : deleteCells old column right 0 blank = old := by
  unfold deleteCells
  simp only [Nat.zero_min, List.drop_zero, List.replicate_zero, List.append_nil]
  have h : old.take (column - 1) = (old.take right).take (column - 1) := by
    rw [List.take_take, Nat.min_eq_left (by omega)]
  rw [h, List.take_append_drop, List.take_append_drop]

/-- C25: `DeleteCharacters(n)` with the cursor at column `x` inside the
horizontal margins `[l, r]` of a well-formed page removes `min(n, r - x + 1)`
cells at the cursor: a cell of the columns `x..r` of the cursor row takes the
cell that many columns to its right while that one is within `x..r`, and
becomes empty otherwise, so the freed cells are at the right end of `x..r`;
the columns left of `x` and right of `r` and every other row keep their cells,
and the cursor stays. With the cursor outside the horizontal margins, or with
`n = 0`, the screen is unchanged. -/
theorem deleteCharacters_spec (s : Screen) (n : Nat) (hwf : s.wellFormed = true)
    (hm : s.validMargins = true) :
    (s.apply (Command.DeleteCharacters n)).cursor = s.cursor
      ∧ (s.insideHorizontalMargin = true →
          ∀ i j, 1 ≤ i → i ≤ s.rows → 1 ≤ j → j ≤ s.columns →
            cellAt (s.apply (Command.DeleteCharacters n)).lines i j
              = if i = s.cursor.row ∧ s.cursor.column ≤ j ∧ j ≤ s.margin.right then
                  (if j + min n (s.margin.right - s.cursor.column + 1) ≤ s.margin.right then
                    cellAt s.lines i (j + min n (s.margin.right - s.cursor.column + 1))
                   else some s.blankCell)
                else cellAt s.lines i j)
      ∧ (s.insideHorizontalMargin = false → s.apply (Command.DeleteCharacters n) = s)
      ∧ s.apply (Command.DeleteCharacters 0) = s := by
  obtain ⟨hlen, hwidth⟩ := (wellFormed_iff s).mp hwf
  obtain ⟨m1, m2, m3, m4, m5, m6⟩ := (validMargins_iff s).mp hm
  have happly : ∀ k, s.apply (Command.DeleteCharacters k)
      = if s.insideHorizontalMargin then
          { s with
            lines := updateLine s.lines s.cursor.row
              (fun line => deleteCells line s.cursor.column s.margin.right k s.blankCell) }
        else s := fun _ => rfl
  refine ⟨?_, ?_, ?_, ?_⟩
  · rw [happly]
    split <;> rfl
  · intro hin i j hi hi2 hj hj2
    rw [happly, if_pos hin]
    simp only [insideHorizontalMargin, Bool.and_eq_true, decide_eq_true_eq] at hin
    show cellAt (updateLine s.lines s.cursor.row
      (fun line => deleteCells line s.cursor.column s.margin.right n s.blankCell)) i j = _
    rw [cellAt_updateLine _ _ _ _ _ hi (by omega) hj]
    obtain ⟨hc, hl⟩ := cellAt_of_wellFormed s i j hwf hi hi2 hj
    by_cases hrow : i = s.cursor.row
    · rw [if_pos hrow, getElem?_deleteCells _ _ _ _ _ _ (by omega) hin.2 (by omega)]
      have hj1 : j - 1 + 1 = j := by omega
      rw [hj1]
      by_cases hcol : s.cursor.column ≤ j ∧ j ≤ s.margin.right
      · rw [if_pos hcol, if_pos (show i = s.cursor.row ∧ s.cursor.column ≤ j
            ∧ j ≤ s.margin.right from ⟨hrow, hcol⟩)]
        by_cases hshift : j + min n (s.margin.right - s.cursor.column + 1) ≤ s.margin.right
        · rw [if_pos hshift, if_pos hshift,
            (cellAt_of_wellFormed s i _ hwf hi hi2 (by omega)).1]
          congr 1
          omega
        · rw [if_neg hshift, if_neg hshift]
      · rw [if_neg hcol, if_neg (by tauto), hc]
    · rw [if_neg hrow, if_neg (by tauto)]
  · intro hout
    rw [happly, hout]
    rfl
  · rw [happly]
    by_cases hin : s.insideHorizontalMargin = true
    · rw [if_pos hin]
      simp only [insideHorizontalMargin, Bool.and_eq_true, decide_eq_true_eq] at hin
      have h : updateLine s.lines s.cursor.row
          (fun line => deleteCells line s.cursor.column s.margin.right 0 s.blankCell)
            = s.lines := by
        rw [updateLine_congr _ _ _ (fun line => line)
          (fun line _ => deleteCells_zero line _ _ _ hin.2)]
        exact updateLine_id _ _
      rw [h]
    · rw [if_neg hin]

set_option maxRecDepth 100000 in
/-- The test `DeleteCharacters`, with horizontal margins `[1, 4]` and the cursor
at column 2: the cell of column 5, right of the margin, is unchanged by
`DeleteCharacters(2)`. -/
theorem deleteCharacters_spec_witness :
    cellAt (((samplePage.run [Command.SetMode Mode.LeftRightMargin true,
        Command.SetLeftRightMargin 1 4, Command.MoveCursorTo 1 2]).apply
          (Command.DeleteCharacters 2)).lines) 1 5
      = cellAt samplePage.lines 1 5 :=
  ((deleteCharacters_spec (samplePage.run [Command.SetMode Mode.LeftRightMargin true,
      Command.SetLeftRightMargin 1 4, Command.MoveCursorTo 1 2]) 2 rfl rfl).2.1 rfl
        1 5 (by decide) (by decide) (by decide) (by decide)).trans rfl


end Screen

/-! ### Screen: the cursor position report -/

theorem digitChar_toNat (k : Nat) (h : k < 10) : (Nat.digitChar k).toNat = 0x30 + k := by
  interval_cases k <;> rfl

theorem toDigitsCore_append (fuel : Nat) :
    ∀ (n : Nat) (ds : List Char),
      Nat.toDigitsCore 10 fuel n ds = Nat.toDigitsCore 10 fuel n [] ++ ds := by
  induction fuel with
  | zero => intro n ds; simp [Nat.toDigitsCore]
  | succ fuel ih =>
    intro n ds
    simp only [Nat.toDigitsCore]
    split
    · simp
    · rw [ih (n / 10) (Nat.digitChar (n % 10) :: ds), ih (n / 10) [Nat.digitChar (n % 10)]]
      simp

theorem decimalValue_append (a : List Nat) (b : Nat) :
    decimalValue (a ++ [b]) = 10 * decimalValue a + (b - 0x30) := by
  simp [decimalValue, List.foldl_append]

theorem toDigitsCore_spec (fuel : Nat) :
    ∀ n : Nat, n < fuel →
      decimalValue ((Nat.toDigitsCore 10 fuel n []).map Char.toNat) = n
        ∧ (∀ b ∈ (Nat.toDigitsCore 10 fuel n []).map Char.toNat, 0x30 ≤ b ∧ b ≤ 0x39)
        ∧ Nat.toDigitsCore 10 fuel n [] ≠ []
        ∧ (0 < n → ((Nat.toDigitsCore 10 fuel n []).map Char.toNat).head? ≠ some 0x30) := by
  induction fuel with
  | zero => intro n h; omega
  | succ fuel ih =>
    intro n hn
    have hd : (Nat.digitChar (n % 10)).toNat = 0x30 + n % 10 :=
      digitChar_toNat _ (Nat.mod_lt _ (by decide))
    simp only [Nat.toDigitsCore]
    by_cases h0 : n / 10 = 0
    · rw [if_pos h0]
      have hlt : n < 10 := by omega
      have hmod : n % 10 = n := Nat.mod_eq_of_lt hlt
      rw [hmod] at hd ⊢
      refine ⟨?_, ?_, by simp, ?_⟩
      · simp [decimalValue, hd]
      · intro b hb
        simp only [List.map_cons, List.map_nil, List.mem_singleton] at hb
        rw [hb, hd]
        omega
      · intro hpos
        simp only [List.map_cons, List.map_nil, List.head?_cons, hd]
        intro h
        have := Option.some.inj h
        omega
    · rw [if_neg h0, toDigitsCore_append]
      have hlt : n / 10 < fuel := by omega
      obtain ⟨h1, h2, h3, h4⟩ := ih (n / 10) hlt
      refine ⟨?_, ?_, by simp [h3], ?_⟩
      · rw [List.map_append, List.map_cons, List.map_nil, decimalValue_append, h1, hd]
        omega
      · intro b hb
        rw [List.map_append, List.mem_append] at hb
        rcases hb with hb | hb
        · exact h2 b hb
        · simp only [List.map_cons, List.map_nil, List.mem_singleton] at hb
          rw [hb, hd]
          omega
      · intro _
        rw [List.map_append]
        have hne : (Nat.toDigitsCore 10 fuel (n / 10) []).map Char.toNat ≠ [] := by
          simpa using h3
        rw [List.head?_append_of_ne_nil _ hne]
        exact h4 (by omega)

theorem decimal_spec (n : Nat) :
    decimalValue (decimal n) = n
      ∧ (∀ b ∈ decimal n, 0x30 ≤ b ∧ b ≤ 0x39)
      ∧ decimal n ≠ []
      ∧ (0 < n → (decimal n).head? ≠ some 0x30) := by
  obtain ⟨h1, h2, h3, h4⟩ := toDigitsCore_spec (n + 1) n (Nat.lt_succ_self n)
  exact ⟨h1, h2, by simpa [decimal, Nat.toDigits] using h3, h4⟩

namespace Screen

/-- C23: `ReportCursorPosition` appends to the reply sink exactly the bytes
`ESC [ r ; c R`, where `r` and `c` are written in decimal (digits only, no
leading zero, standing for `r` and `c`) and `(r, c)` is the cursor position
relative to the origin: the top-left of the margins when origin mode is on, the
page otherwise. Nothing else of the screen changes, in particular neither the
grid nor the cursor. -/
theorem reportCursorPosition_spec (s : Screen) :
    s.apply Command.ReportCursorPosition
        = { s with
            reply := s.reply ++ ([0x1B, 0x5B] ++ decimal s.currentRow ++ [0x3B]
              ++ decimal s.currentColumn ++ [0x52]) }
      ∧ (s.apply Command.ReportCursorPosition).lines = s.lines
      ∧ (s.apply Command.ReportCursorPosition).savedLines = s.savedLines
      ∧ (s.apply Command.ReportCursorPosition).cursor = s.cursor
      ∧ s.currentRow
          = (if s.cursorRestrictedToMargin = true then s.cursor.row + 1 - s.margin.top
             else s.cursor.row)
      ∧ s.currentColumn
          = (if s.cursorRestrictedToMargin = true then s.cursor.column + 1 - s.margin.left
             else s.cursor.column)
      ∧ (∀ n : Nat, decimalValue (decimal n) = n
          ∧ (∀ b ∈ decimal n, 0x30 ≤ b ∧ b ≤ 0x39)
          ∧ decimal n ≠ []
          ∧ (0 < n → (decimal n).head? ≠ some 0x30)) := by
  refine ⟨?_, rfl, rfl, rfl, rfl, rfl, decimal_spec⟩
  show ({ s with reply := s.reply ++ s.cursorPositionReport false } : Screen) = _
  simp [cursorPositionReport]

/-- The decimal digits of 12 do not start with a zero. -/
theorem reportCursorPosition_spec_witness : (decimal 12).head? ≠ some 0x30 :=
  ((reportCursorPosition_spec samplePage).2.2.2.2.2.2 12).2.2.2 (by decide)

set_option maxRecDepth 100000 in
/-- Test `ReportCursorPosition`: the reply is `ESC [ 2 ; 3 R` with origin mode
off and `ESC [ 3 ; 2 R` with margins and origin mode on; test
`ReportExtendedCursorPosition`: the replies are `ESC [ 2 ; 3 ; 1 R` and
`ESC [ 3 ; 2 ; 1 R`. -/
theorem test_ReportCursorPosition :
    (samplePage.run [Command.MoveCursorTo 2 3, Command.ReportCursorPosition]).reply
        = [0x1B] ++ ascii "[2;3R"
      ∧ (samplePage.run [Command.MoveCursorTo 2 3, Command.SetMode Mode.LeftRightMargin true,
          Command.SetTopBottomMargin 2 4, Command.SetLeftRightMargin 2 4,
          Command.SetMode Mode.CursorRestrictedToMargin true, Command.MoveCursorTo 3 2,
          Command.ReportCursorPosition]).reply
        = [0x1B] ++ ascii "[3;2R"
      ∧ (samplePage.run [Command.MoveCursorTo 2 3, Command.ReportExtendedCursorPosition]).reply
        = [0x1B] ++ ascii "[2;3;1R"
      ∧ (samplePage.run [Command.MoveCursorTo 2 3, Command.SetMode Mode.LeftRightMargin true,
          Command.SetTopBottomMargin 2 4, Command.SetLeftRightMargin 2 4,
          Command.SetMode Mode.CursorRestrictedToMargin true, Command.MoveCursorTo 3 2,
          Command.ReportExtendedCursorPosition]).reply
        = [0x1B] ++ ascii "[3;2;1R" := by
  decide

end Screen

/-! ### Screen: tab stops -/

theorem nextTabStop_foldl (x : Nat) (tabs : List Nat) :
    ∀ best : Option Nat,
      (∀ r, tabs.foldl (fun best t =>
            if x < t then
              match best with
              | none => some t
              | some b => some (min b t)
            else best) best = some r →
          (best = some r ∨ (r ∈ tabs ∧ x < r)) ∧ (∀ b, best = some b → r ≤ b)
            ∧ ∀ t ∈ tabs, x < t → r ≤ t)
      ∧ (tabs.foldl (fun best t =>
            if x < t then
              match best with
              | none => some t
              | some b => some (min b t)
            else best) best = none →
          best = none ∧ ∀ t ∈ tabs, ¬ x < t) := by
  induction tabs with
  | nil =>
    intro best
    refine ⟨?_, ?_⟩
    · intro r h
      simp only [List.foldl_nil] at h
      refine ⟨Or.inl h, ?_, ?_⟩
      · intro b hb
        rw [h] at hb
        exact le_of_eq (Option.some.inj hb)
      · intro t ht
        simp at ht
    · intro h
      simp only [List.foldl_nil] at h
      exact ⟨h, by simp⟩
  | cons t rest ih =>
    intro best
    simp only [List.foldl_cons]
    by_cases hx : x < t
    · rw [if_pos hx]
      cases best with
      | none =>
        obtain ⟨h1, h2⟩ := ih (some t)
        refine ⟨?_, ?_⟩
        · intro r hr
          obtain ⟨ha, hb, hc⟩ := h1 r hr
          refine ⟨Or.inr ?_, ?_, ?_⟩
          · rcases ha with ha | ha
            · rw [Option.some.inj ha] at hx ⊢
              exact ⟨List.mem_cons_self _ _, hx⟩
            · exact ⟨List.mem_cons_of_mem _ ha.1, ha.2⟩
          · intro b hb
            cases hb
          · intro u hu hxu
            rcases List.mem_cons.mp hu with hu | hu
            · rw [hu]
              exact hb t rfl
            · exact hc u hu hxu
        · intro hr
          exact absurd (h2 hr).1 (by simp)
      | some b =>
        obtain ⟨h1, h2⟩ := ih (some (min b t))
        refine ⟨?_, ?_⟩
        · intro r hr
          obtain ⟨ha, hb, hc⟩ := h1 r hr
          have hmin := hb (min b t) rfl
          refine ⟨?_, ?_, ?_⟩
          · rcases ha with ha | ha
            · have hrm : min b t = r := Option.some.inj ha
              by_cases hbt : b ≤ t
              · left
                rw [Nat.min_eq_left hbt] at hrm
                rw [hrm]
              · right
                rw [Nat.min_eq_right (by omega)] at hrm
                rw [← hrm]
                exact ⟨List.mem_cons_self _ _, hx⟩
            · exact Or.inr ⟨List.mem_cons_of_mem _ ha.1, ha.2⟩
          · intro b2 hb2
            have : b = b2 := Option.some.inj hb2
            omega
          · intro u hu hxu
            rcases List.mem_cons.mp hu with hu | hu
            · rw [hu]
              omega
            · exact hc u hu hxu
        · intro hr
          exact absurd (h2 hr).1 (by simp)
    · rw [if_neg hx]
      obtain ⟨h1, h2⟩ := ih best
      refine ⟨?_, ?_⟩
      · intro r hr
        obtain ⟨ha, hb, hc⟩ := h1 r hr
        refine ⟨?_, hb, ?_⟩
        · rcases ha with ha | ha
          · exact Or.inl ha
          · exact Or.inr ⟨List.mem_cons_of_mem _ ha.1, ha.2⟩
        · intro u hu hxu
          rcases List.mem_cons.mp hu with hu | hu
          · rw [hu] at hxu
            exact absurd hxu hx
          · exact hc u hu hxu
      · intro hr
        obtain ⟨ha, hb⟩ := h2 hr
        refine ⟨ha, ?_⟩
        intro u hu
        rcases List.mem_cons.mp hu with hu | hu
        · rw [hu]
          exact hx
        · exact hb u hu

theorem nextTabStop_spec (tabs : List Nat) (x : Nat) :
    (∀ r, nextTabStop tabs x = some r → r ∈ tabs ∧ x < r ∧ ∀ t ∈ tabs, x < t → r ≤ t)
      ∧ (nextTabStop tabs x = none → ∀ t ∈ tabs, ¬ x < t) := by
  obtain ⟨h1, h2⟩ := nextTabStop_foldl x tabs none
  refine ⟨?_, ?_⟩
  · intro r hr
    obtain ⟨ha, _, hc⟩ := h1 r hr
    rcases ha with ha | ha
    · cases ha
    · exact ⟨ha.1, ha.2, hc⟩
  · intro hr
    exact (h2 hr).2

theorem mem_defaultTabs (columns t : Nat) :
    t ∈ defaultTabs columns ↔ 9 ≤ t ∧ t ≤ columns ∧ t % 8 = 1 := by
  simp only [defaultTabs, List.mem_map, List.mem_filter, List.mem_range, Bool.and_eq_true,
    beq_iff_eq, decide_eq_true_eq]
  constructor
  · rintro ⟨m, ⟨hm, h8, h0⟩, rfl⟩
    omega
  · intro h
    exact ⟨t - 1, ⟨by omega, by omega, by omega⟩, by omega⟩

theorem nextTabStop_defaultTabs (columns x : Nat) (hx : 1 ≤ x) :
    nextTabStop (defaultTabs columns) x
      = if 8 * ((x - 1) / 8) + 9 ≤ columns then some (8 * ((x - 1) / 8) + 9) else none := by
  obtain ⟨h1, h2⟩ := nextTabStop_spec (defaultTabs columns) x
  by_cases hT : 8 * ((x - 1) / 8) + 9 ≤ columns
  · rw [if_pos hT]
    have hmem : 8 * ((x - 1) / 8) + 9 ∈ defaultTabs columns :=
      (mem_defaultTabs _ _).mpr ⟨by omega, hT, by omega⟩
    cases hr : nextTabStop (defaultTabs columns) x with
    | none => exact absurd (by omega) (h2 hr _ hmem)
    | some r =>
      obtain ⟨ha, hb, hc⟩ := h1 r hr
      have hle := hc _ hmem (by omega)
      obtain ⟨_, _, h8⟩ := (mem_defaultTabs _ _).mp ha
      congr 1
      omega
  · rw [if_neg hT]
    cases hr : nextTabStop (defaultTabs columns) x with
    | none => rfl
    | some r =>
      obtain ⟨ha, hb, _⟩ := h1 r hr
      obtain ⟨_, hle, h8⟩ := (mem_defaultTabs _ _).mp ha
      omega

namespace Screen

theorem moveCursorToNextTab_column (s : Screen) (htabs : s.tabs = defaultTabs s.columns)
    (hcol : 1 ≤ s.cursor.column ∧ s.cursor.column ≤ s.columns)
    (hm : s.validMargins = true) :
    (s.apply Command.MoveCursorToNextTab).cursor.column
      = if 8 * ((s.cursor.column - 1) / 8) + 9 ≤ s.rightLimit then
          8 * ((s.cursor.column - 1) / 8) + 9
        else s.rightLimit := by
  obtain ⟨m1, m2, m3, m4, m5, m6⟩ := (validMargins_iff s).mp hm
  have hL : 1 ≤ s.rightLimit ∧ s.rightLimit ≤ s.columns := by
    unfold rightLimit
    split <;> omega
  show (s.moveCursorToNextTab).cursor.column = _
  unfold moveCursorToNextTab
  rw [htabs, nextTabStop_defaultTabs _ _ hcol.1]
  simp only [moveCursorToReal]
  generalize s.rightLimit = L at hL ⊢
  have hT9 : 9 ≤ 8 * ((s.cursor.column - 1) / 8) + 9 := by omega
  generalize 8 * ((s.cursor.column - 1) / 8) + 9 = T at hT9 ⊢
  by_cases hT : T ≤ s.columns
  · rw [if_pos hT]
    show min (max (min T L) 1) s.columns = _
    split <;> omega
  · rw [if_neg hT]
    show min (max L 1) s.columns = _
    split <;> omega

/-- In the state the test `MoveCursorToNextTab` starts from, but with the right
margin at column 5 of the 20 columns: the cursor is at column 1, the tab stops
are the default ones, and `MoveCursorToNextTab` moves the cursor to column 5,
the right margin, not to column 9. -/
theorem moveCursorToNextTab_stops_at_margin :
    ((create 20 3 100).run [Command.SetMode Mode.LeftRightMargin true,
        Command.SetLeftRightMargin 1 5]).tabs = defaultTabs 20
      ∧ ((create 20 3 100).run [Command.SetMode Mode.LeftRightMargin true,
        Command.SetLeftRightMargin 1 5]).cursor.column = 1
      ∧ (((create 20 3 100).run [Command.SetMode Mode.LeftRightMargin true,
        Command.SetLeftRightMargin 1 5]).apply Command.MoveCursorToNextTab).cursor.column = 5
      ∧ (((create 20 3 100).run [Command.SetMode Mode.LeftRightMargin true,
        Command.SetLeftRightMargin 1 5]).apply Command.MoveCursorToNextTab).cursor.column ≠ 9 := by
  decide

/-- C21, amended: with the default tab stops on a page of `c` columns whose
margins lie inside the page, `MoveCursorToNextTab` from column `x` of the page
moves the cursor to the smallest column of the form `8k + 1` that is greater
than `x` when that column is at most the right limit, and otherwise to the
right limit; the right limit is the right margin when the cursor is not right
of it and column `c` otherwise, so it is `c` when the right margin is the last
column, as it is by default. The cursor row never changes. -/
theorem moveCursorToNextTab_default (s : Screen) (htabs : s.tabs = defaultTabs s.columns)
    (hrow : 1 ≤ s.cursor.row ∧ s.cursor.row ≤ s.rows)
    (hcol : 1 ≤ s.cursor.column ∧ s.cursor.column ≤ s.columns)
    (hm : s.validMargins = true) :
    (s.apply Command.MoveCursorToNextTab).cursor.row = s.cursor.row
      ∧ (s.apply Command.MoveCursorToNextTab).cursor.column
          = (if 8 * ((s.cursor.column - 1) / 8) + 9 ≤ s.rightLimit then
              8 * ((s.cursor.column - 1) / 8) + 9
            else s.rightLimit)
      ∧ s.rightLimit
          = (if s.cursor.column ≤ s.margin.right then s.margin.right else s.columns)
      ∧ (s.cursor.column < 8 * ((s.cursor.column - 1) / 8) + 9
          ∧ (8 * ((s.cursor.column - 1) / 8) + 9) % 8 = 1
          ∧ ∀ k, s.cursor.column < 8 * k + 1 → 8 * ((s.cursor.column - 1) / 8) + 9 ≤ 8 * k + 1)
      ∧ (s.margin.right = s.columns →
          (s.apply Command.MoveCursorToNextTab).cursor.column
            = if 8 * ((s.cursor.column - 1) / 8) + 9 ≤ s.columns then
                8 * ((s.cursor.column - 1) / 8) + 9
              else s.columns) := by
  have hc := moveCursorToNextTab_column s htabs hcol hm
  refine ⟨?_, hc, rfl, ⟨by omega, by omega, by intro k hk; omega⟩, ?_⟩
  · show (s.moveCursorToNextTab).cursor.row = _
    simp only [moveCursorToNextTab, moveCursorToReal]
    omega
  · intro hr
    have hL : s.rightLimit = s.columns := by
      unfold rightLimit
      split
      · exact hr
      · rfl
    rw [hc, hL]

/-- The test `MoveCursorToNextTab`: on a fresh page of 20 columns the second
tab, from column 9, leads to column 17. -/
theorem moveCursorToNextTab_default_witness :
    (((create 20 3 100).apply Command.MoveCursorToNextTab).apply
        Command.MoveCursorToNextTab).cursor.column
      = (if 8 * ((((create 20 3 100).apply Command.MoveCursorToNextTab).cursor.column - 1) / 8) + 9
            ≤ ((create 20 3 100).apply Command.MoveCursorToNextTab).columns then
          8 * ((((create 20 3 100).apply Command.MoveCursorToNextTab).cursor.column - 1) / 8) + 9
        else ((create 20 3 100).apply Command.MoveCursorToNextTab).columns) :=
  (moveCursorToNextTab_default ((create 20 3 100).apply Command.MoveCursorToNextTab)
    (by decide) ⟨by decide, by decide⟩ ⟨by decide, by decide⟩ (by decide)).2.2.2.2 (by decide)

end Screen

/-! ### Screen: the alignment pattern -/

namespace Screen

set_option maxRecDepth 100000 in
/-- The test `ScreenAlignmentPattern`: after `SetTopBottomMargin(2, 4)` on the
sample page, `ScreenAlignmentPattern` leaves every row rendering as `XXXXX`,
not as `EEEEE`: the cell of row 1, column 1 holds `X` (0x58), not `E`
(0x45). -/
theorem screenAlignmentPattern_fills_X :
    renderText sampleUnicode
        (samplePage.run [Command.SetTopBottomMargin 2 4, Command.ScreenAlignmentPattern])
        = ascii "XXXXX\nXXXXX\nXXXXX\nXXXXX\nXXXXX\n"
      ∧ cellAt (samplePage.run [Command.SetTopBottomMargin 2 4,
          Command.ScreenAlignmentPattern]).lines 1 1 = some (defaultCell 0x58)
      ∧ cellAt (samplePage.run [Command.SetTopBottomMargin 2 4,
          Command.ScreenAlignmentPattern]).lines 1 1 ≠ some (defaultCell 0x45) := by
  decide

/-- C22, amended: `ScreenAlignmentPattern` (DECALN), applied in any state of a
well-formed page of at least one row and one column, fills every cell of the
page with the character `X` at default attributes, resets the vertical margins
to `[1, rows]` and the horizontal margins to `[1, columns]`, and moves the
cursor to row 1, column 1. -/
theorem screenAlignmentPattern_spec (s : Screen) (hwf : s.wellFormed = true)
    (hrows : 1 ≤ s.rows) (hcols : 1 ≤ s.columns) :
    (∀ i j, 1 ≤ i → i ≤ s.rows → 1 ≤ j → j ≤ s.columns →
        cellAt (s.apply Command.ScreenAlignmentPattern).lines i j = some (defaultCell 0x58))
      ∧ (s.apply Command.ScreenAlignmentPattern).margin
          = { top := 1, bottom := s.rows, left := 1, right := s.columns }
      ∧ (s.apply Command.ScreenAlignmentPattern).cursor
          = { row := 1, column := 1, wrapPending := false }
      ∧ (s.apply Command.ScreenAlignmentPattern).rows = s.rows
      ∧ (s.apply Command.ScreenAlignmentPattern).columns = s.columns := by
  obtain ⟨hlen, hwidth⟩ := (wellFormed_iff s).mp hwf
  refine ⟨?_, rfl, ?_, rfl, rfl⟩
  · intro i j hi hi2 hj hj2
    show cellAt (mapIndexed (fun _ line =>
      fillColumns line 1 s.columns (Cell.blank.write ⟨0, 0, 0, 0⟩ 0x58 1)) 1 s.lines) i j = _
    obtain ⟨hget, hmem⟩ := lineAt_of_le s.lines i hi (by omega)
    rw [cellAt_eq _ _ _ hi hj, getElem?_mapIndexed, hget]
    simp only [Option.map_some', Option.some_bind]
    rw [fillColumns_full _ _ _ (hwidth _ hmem), List.getElem?_replicate, if_pos (by omega)]
    rfl
  · show ({ row := min (max 1 1) s.rows, column := min (max 1 1) s.columns,
            wrapPending := false } : Cursor) = _
    congr 1 <;> omega

set_option maxRecDepth 100000 in
/-- On the sample page the cell of row 3, column 4 holds `X` after
`ScreenAlignmentPattern`. -/
theorem screenAlignmentPattern_spec_witness :
    cellAt (samplePage.apply Command.ScreenAlignmentPattern).lines 3 4
      = some (defaultCell 0x58) :=
  (screenAlignmentPattern_spec samplePage rfl (by decide) (by decide)).1 3 4
    (by decide) (by decide) (by decide) (by decide)

end Screen

/-! ### Screen: further tests of `Screen_test.cpp` -/

namespace Screen

set_option maxRecDepth 100000 in
/-- Test `DeleteCharacters`. -/
theorem test_DeleteCharacters :
    renderText sampleUnicode
        (sampleTwoRows.run [Command.SetMode Mode.LeftRightMargin true,
          Command.SetLeftRightMargin 2 4, Command.MoveCursorTo 1 1, Command.DeleteCharacters 1])
        = ascii "12345\n67890\n"
      ∧ renderText sampleUnicode (sampleTwoRows.apply (Command.DeleteCharacters 0))
        = ascii "12345\n67890\n"
      ∧ renderText sampleUnicode (sampleTwoRows.apply (Command.DeleteCharacters 1))
        = ascii "1345 \n67890\n"
      ∧ renderText sampleUnicode (sampleTwoRows.apply (Command.DeleteCharacters 2))
        = ascii "145  \n67890\n"
      ∧ renderText sampleUnicode (sampleTwoRows.apply (Command.DeleteCharacters 4))
        = ascii "1    \n67890\n"
      ∧ renderText sampleUnicode (sampleTwoRows.apply (Command.DeleteCharacters 5))
        = ascii "1    \n67890\n"
      ∧ renderText sampleUnicode
        (sampleTwoRows.run [Command.SetMode Mode.LeftRightMargin true,
          Command.SetLeftRightMargin 1 4, Command.MoveCursorTo 1 2, Command.DeleteCharacters 0])
        = ascii "12345\n67890\n"
      ∧ renderText sampleUnicode
        (sampleTwoRows.run [Command.SetMode Mode.LeftRightMargin true,
          Command.SetLeftRightMargin 1 4, Command.MoveCursorTo 1 2, Command.DeleteCharacters 1])
        = ascii "134 5\n67890\n"
      ∧ renderText sampleUnicode
        (sampleTwoRows.run [Command.SetMode Mode.LeftRightMargin true,
          Command.SetLeftRightMargin 1 4, Command.MoveCursorTo 1 2, Command.DeleteCharacters 2])
        = ascii "14  5\n67890\n"
      ∧ renderText sampleUnicode
        (sampleTwoRows.run [Command.SetMode Mode.LeftRightMargin true,
          Command.SetLeftRightMargin 1 4, Command.MoveCursorTo 1 2, Command.DeleteCharacters 4])
        = ascii "1   5\n67890\n" := by
  decide

set_option maxRecDepth 100000 in
/-- Test `EraseCharacters`. -/
theorem test_EraseCharacters :
    renderText sampleUnicode
        (samplePage.run [Command.MoveCursorTo 1 1, Command.EraseCharacters 0])
        = ascii " 2345\n67890\nABCDE\nFGHIJ\nKLMNO\n"
      ∧ renderText sampleUnicode
        (samplePage.run [Command.MoveCursorTo 1 1, Command.EraseCharacters 1])
        = ascii " 2345\n67890\nABCDE\nFGHIJ\nKLMNO\n"
      ∧ renderText sampleUnicode
        (samplePage.run [Command.MoveCursorTo 1 1, Command.EraseCharacters 5])
        = ascii "     \n67890\nABCDE\nFGHIJ\nKLMNO\n"
      ∧ renderText sampleUnicode
        (samplePage.run [Command.MoveCursorTo 1 1, Command.EraseCharacters 6])
        = ascii "     \n67890\nABCDE\nFGHIJ\nKLMNO\n" := by
  decide

set_option maxRecDepth 100000 in
/-- Tests `ClearLine` and the end of `MoveCursorToNextTab`: after three tabs on
a page of 20 columns, with autowrap on, `A` is written at the last column and
`B` at the start of the next row, from where the tab leads to column 9. -/
theorem test_ClearLine_MoveCursorToNextTab :
    renderTextLine sampleUnicode
        ((((create 3 1 100).apply (Command.SetMode Mode.AutoWrap false)).write
          (ascii "ABC")).apply Command.ClearLine) 1
        = ascii "   "
      ∧ (((((create 20 3 100).run [Command.MoveCursorToNextTab, Command.MoveCursorToNextTab,
          Command.MoveCursorToNextTab, Command.SetMode Mode.AutoWrap true]).write
            (ascii "A")).write (ascii "B")).apply Command.MoveCursorToNextTab).cursor
        = { row := 2, column := 9, wrapPending := false } := by
  decide

end Screen

/-! ### `resize`, and `reflow` once more -/

namespace Line

/-- C31: `Line::resize(n)` is a no-op: for every line, trivial or inflated, and
every `n >= 0` it returns with the line as it was: the form of the buffer, the
text or the cells, `displayWidth` and the flags are unchanged. -/
theorem resize_noop (line : Line) (n : Int) (hn : 0 ≤ n) :
    line.resize n = some line
      ∧ ∀ line1, line.resize n = some line1 →
          line1.storage = line.storage ∧ line1.size = line.size
            ∧ line1.wrappable = line.wrappable ∧ line1.marked = line.marked := by
  have h : line.resize n = some line := by
    unfold resize
    rw [if_pos hn]
  refine ⟨h, ?_⟩
  intro line1 h1
  rw [h] at h1
  cases h1
  exact ⟨rfl, rfl, rfl, rfl⟩

/-- The trivial line `AB` of 5 columns and the inflated line `A B _ C _ _` are
left as they are by `resize(3)`. -/
theorem resize_noop_witness :
    sampleTrivialLine.resize 3 = some sampleTrivialLine
      ∧ sampleLine.resize 3 = some sampleLine :=
  ⟨(resize_noop sampleTrivialLine 3 (by decide)).1, (resize_noop sampleLine 3 (by decide)).1⟩

/-- C33: `reflow` keeps the invariant `usedColumns <= displayWidth` of a trivial
line: for a trivial line with `usedColumns <= displayWidth` and `usedColumns` at
most the byte length of its text, and `n` at least that byte length,
`reflow(n)` returns, with an empty buffer, and the line is still trivial, holds
the same text and `usedColumns`, and still has `usedColumns <= displayWidth`. -/
theorem reflow_trivial_invariant {sigma : Type} (U : Unicode sigma) (line : Line)
    (t : TrivialLineBuffer) (n : Nat) (hs : line.storage = Storage.trivial t)
    (hinv : t.usedColumns ≤ t.displayWidth) (hused : t.usedColumns ≤ t.text.length)
    (hn : t.text.length ≤ n) :
    ∃ line1 t1, line.reflow U n = some (line1, [])
      ∧ line1.storage = Storage.trivial t1
      ∧ t1.text = t.text
      ∧ t1.usedColumns = t.usedColumns
      ∧ t1.usedColumns ≤ t1.displayWidth := by
  by_cases heq : n = t.text.length
  · have hcmp : compare n t.text.length = Ordering.eq := by
      rw [Nat.compare_eq_eq]; exact heq
    refine ⟨line, t, ?_, hs, rfl, rfl, hinv⟩
    simp [reflow, hs, hcmp]
  · have hcmp : compare n t.text.length = Ordering.gt := by
      rw [Nat.compare_eq_gt]; omega
    refine ⟨{ line with storage := Storage.trivial { t with displayWidth := n } },
      { t with displayWidth := n }, ?_, rfl, rfl, rfl, ?_⟩
    · simp [reflow, hs, hcmp]
    · show t.usedColumns ≤ n
      omega

/-- The trivial line `AB` of 5 columns, reflowed to 2 columns, the byte length
of its text. -/
theorem reflow_trivial_invariant_witness :
    ∃ line1 t1, sampleTrivialLine.reflow sampleUnicode 2 = some (line1, [])
      ∧ line1.storage = Storage.trivial t1
      ∧ t1.text = sampleTrivial.text
      ∧ t1.usedColumns = sampleTrivial.usedColumns
      ∧ t1.usedColumns ≤ t1.displayWidth :=
  reflow_trivial_invariant sampleUnicode sampleTrivialLine sampleTrivial 2 rfl
    (by decide) (by decide) (by decide)

theorem rdropWhile_replicate_blank (k : Nat) :
    (List.replicate k Cell.blank).rdropWhile Cell.empty = [] := by
  rw [List.rdropWhile_eq_nil_iff]
  intro x hx
  rw [List.eq_of_mem_replicate hx]
  rfl

/-- C34: growing then shrinking an inflated wrappable line is the identity: for
every cell sequence `c` and every `k >= 1`, `reflow(|c| + k)` followed by
`reflow(|c|)` leaves the line holding exactly `c`, and both calls return an
empty buffer. In between the line holds `c` followed by `k` empty cells. -/
theorem reflow_grow_shrink {sigma : Type} (U : Unicode sigma) (line : Line)
    (c : InflatedBuffer) (k : Nat) (hs : line.storage = Storage.inflated c)
    (hw : line.wrappable = true) (hk : 1 ≤ k) :
    ∃ grown, line.reflow U (c.length + k) = some (grown, [])
      ∧ grown.storage = Storage.inflated (c ++ List.replicate k Cell.blank)
      ∧ grown.reflow U c.length = some (line, []) := by
  have hcmp : compare (c.length + k) c.length = Ordering.gt := by
    rw [Nat.compare_eq_gt]; omega
  have htake : c.take (c.length + k) = c := List.take_of_length_le (by omega)
  have hgrow : line.reflow U (c.length + k)
      = some ({ line with storage := Storage.inflated (c ++ List.replicate k Cell.blank) },
          []) := by
    rw [reflow_inflated U line c _ hs]
    simp [reflowInflated, hcmp, vectorResize, htake]
  refine ⟨_, hgrow, rfl, ?_⟩
  rw [reflow_inflated U _ (c ++ List.replicate k Cell.blank) c.length rfl,
    reflowInflated_wrappable_lt]
  · simp only [List.take_left', List.drop_left', rdropWhile_replicate_blank]
    congr 2
    cases line
    simp only at hs
    rw [hs]
  · exact hw
  · simp
    omega

/-- The cells `A B _ C _ _` of a wrappable line, reflowed to 8 columns and then
back to 6. -/
theorem reflow_grow_shrink_witness :
    ∃ grown, sampleLine.reflow sampleUnicode (sampleCells.length + 2) = some (grown, [])
      ∧ grown.storage = Storage.inflated (sampleCells ++ List.replicate 2 Cell.blank)
      ∧ grown.reflow sampleUnicode sampleCells.length = some (sampleLine, []) :=
  reflow_grow_shrink sampleUnicode sampleLine sampleCells 2 rfl rfl (by decide)

end Line

end terminal

/-! ### Selector: the linear selection -/

namespace vtbackend

theorem getElem?_first_mid_last {α : Type} (x y : α) (mid : List α) (k : Nat) :
    ([x] ++ mid ++ [y])[k]?
      = if k = 0 then some x
        else if k = mid.length + 1 then some y
        else mid[k - 1]? := by
  by_cases h0 : k = 0
  · rw [if_pos h0, h0]
    simp
  · rw [if_neg h0]
    by_cases h1 : k = mid.length + 1
    · rw [if_pos h1, List.getElem?_append_right (by simp; omega)]
      have hidx : k - ([x] ++ mid).length = 0 := by simp; omega
      rw [hidx]
      rfl
    · rw [if_neg h1]
      by_cases h2 : k ≤ mid.length
      · rw [List.getElem?_append_left (by simp; omega),
          List.getElem?_append_right (by simp; omega)]
        rfl
      · rw [List.getElem?_eq_none (by simp; omega), List.getElem?_eq_none (by omega)]

namespace LinearSelection

theorem ranges_of_lt (columns : Nat) (a h : CellLocation) (hlt : a.line < h.line) :
    ((create columns a).extend h).1.ranges
      = [{ line := a.line, fromColumn := a.column, toColumn := (columns : Int) - 1 }]
        ++ (List.range (h.line - a.line - 1).toNat).map (fun (k : Nat) =>
            ({ line := a.line + 1 + (k : Int), fromColumn := 0,
               toColumn := (columns : Int) - 1 } : Selection.Range))
        ++ [{ line := h.line, fromColumn := 0, toColumn := h.column }] := by
  have ho : orderedPoints a h = (a, h) := by
    unfold orderedPoints
    rw [if_pos (Or.inl hlt)]
  have hne : ¬ a.line = h.line := by omega
  simp only [ranges, create, extend, ho, if_neg hne]

theorem ranges_of_same_line (columns : Nat) (a h : CellLocation) (hline : a.line = h.line)
    (hcol : a.column ≤ h.column) :
    ((create columns a).extend h).1.ranges
      = [{ line := a.line, fromColumn := a.column, toColumn := h.column }] := by
  have ho : orderedPoints a h = (a, h) := by
    unfold orderedPoints
    rw [if_pos (Or.inr ⟨hline, hcol⟩)]
  simp only [ranges, create, extend, ho, if_pos hline]

/-- C28: for a linear selection anchored at `(l1, c1)` and extended to
`(l2, c2)` with `l1 < l2` on a page of `C` columns, `ranges()` returns exactly
`l2 - l1 + 1` ranges, the range at index `k` being on line `l1 + k`, so in
increasing line order: the first is `(l1, c1, C - 1)`, the last is
`(l2, 0, c2)`, and every line strictly between is taken whole as
`(l, 0, C - 1)`; the `length()` of a range is `toColumn - fromColumn + 1`. The
line offsets are integers, negative ones included. -/
theorem ranges_multiline (columns : Nat) (a h : CellLocation) (hlt : a.line < h.line) :
    ((create columns a).extend h).1.ranges.length = (h.line - a.line + 1).toNat
      ∧ (∀ k : Nat, k < (h.line - a.line + 1).toNat →
          ((create columns a).extend h).1.ranges[k]?
            = some (if k = 0 then
                { line := a.line, fromColumn := a.column, toColumn := (columns : Int) - 1 }
              else if (k : Int) = h.line - a.line then
                { line := h.line, fromColumn := 0, toColumn := h.column }
              else { line := a.line + (k : Int), fromColumn := 0,
                     toColumn := (columns : Int) - 1 })
          ∧ (((create columns a).extend h).1.ranges[k]?).map Selection.Range.line
            = some (a.line + (k : Int)))
      ∧ ((create columns a).extend h).1.ranges.head?
          = some { line := a.line, fromColumn := a.column, toColumn := (columns : Int) - 1 }
      ∧ ((create columns a).extend h).1.ranges.getLast?
          = some { line := h.line, fromColumn := 0, toColumn := h.column }
      ∧ (∀ r : Selection.Range, r.length = r.toColumn - r.fromColumn + 1) := by
  rw [ranges_of_lt columns a h hlt]
  generalize hmid : (List.range (h.line - a.line - 1).toNat).map (fun (k : Nat) =>
      ({ line := a.line + 1 + (k : Int), fromColumn := 0,
         toColumn := (columns : Int) - 1 } : Selection.Range)) = mid
  have hlen : mid.length = (h.line - a.line - 1).toNat := by
    rw [← hmid, List.length_map, List.length_range]
  have hkey : ∀ k : Nat, k < (h.line - a.line + 1).toNat →
      ([{ line := a.line, fromColumn := a.column, toColumn := (columns : Int) - 1 }]
        ++ mid ++ [{ line := h.line, fromColumn := 0, toColumn := h.column }])[k]?
        = some (if k = 0 then
            ({ line := a.line, fromColumn := a.column,
               toColumn := (columns : Int) - 1 } : Selection.Range)
          else if (k : Int) = h.line - a.line then
            { line := h.line, fromColumn := 0, toColumn := h.column }
          else { line := a.line + (k : Int), fromColumn := 0,
                 toColumn := (columns : Int) - 1 }) := by
    intro k hk
    rw [getElem?_first_mid_last]
    by_cases h0 : k = 0
    · rw [if_pos h0, if_pos h0]
    · rw [if_neg h0, if_neg h0]
      by_cases hl : (k : Int) = h.line - a.line
      · rw [if_pos hl, if_pos (by omega)]
      · rw [if_neg hl, if_neg (by omega), ← hmid, List.getElem?_map,
          List.getElem?_range (by omega)]
        simp only [Option.map_some']
        congr 2
        omega
  refine ⟨?_, ?_, rfl, ?_, fun _ => rfl⟩
  · simp only [List.length_append, List.length_singleton, hlen]
    omega
  · intro k hk
    refine ⟨hkey k hk, ?_⟩
    rw [hkey k hk]
    simp only [Option.map_some']
    congr 1
    by_cases h0 : k = 0
    · rw [if_pos h0, h0]
      simp
    · rw [if_neg h0]
      by_cases hl : (k : Int) = h.line - a.line
      · rw [if_pos hl]
        show h.line = _
        omega
      · rw [if_neg hl]
  · rw [List.getLast?_append, List.getLast?_singleton]
    rfl

/-- The test `Selector.Linear`, on a page of 11 columns with the selection
anchored in the scrollback at `(-2, 6)` and extended to `(-1, 2)`: two
ranges. -/
theorem ranges_multiline_witness :
    ((create 11 { line := -2, column := 6 }).extend { line := -1, column := 2 }).1.ranges.length
      = ((-1 : Int) - (-2) + 1).toNat :=
  (ranges_multiline 11 { line := -2, column := 6 } { line := -1, column := 2 } (by decide)).1

/-- Test `Selector.Linear`, the selection that lies fully in the scrollback: two
ranges, `(-2, 6, 10)` of length 5 and `(-1, 0, 2)` of length 3. -/
theorem test_Selector_Linear :
    ((create 11 { line := -2, column := 6 }).extend { line := -1, column := 2 }).1.ranges
        = [{ line := -2, fromColumn := 6, toColumn := 10 },
           { line := -1, fromColumn := 0, toColumn := 2 }]
      ∧ (({ line := -2, fromColumn := 6, toColumn := 10 } : Selection.Range).length = 5)
      ∧ (({ line := -1, fromColumn := 0, toColumn := 2 } : Selection.Range).length = 3) := by
  decide

theorem covered_of_lt (columns : Nat) (a h pos : CellLocation) (hlt : a.line < h.line) :
    covered ((create columns a).extend h).1.ranges pos
      ↔ (pos.line = a.line ∧ a.column ≤ pos.column ∧ pos.column ≤ (columns : Int) - 1)
        ∨ (a.line < pos.line ∧ pos.line < h.line ∧ 0 ≤ pos.column
            ∧ pos.column ≤ (columns : Int) - 1)
        ∨ (pos.line = h.line ∧ 0 ≤ pos.column ∧ pos.column ≤ h.column) := by
  rw [ranges_of_lt columns a h hlt]
  unfold covered
  constructor
  · rintro ⟨r, hr, hline, hfrom, hto⟩
    simp only [List.mem_append, List.mem_singleton, List.mem_map, List.mem_range] at hr
    rcases hr with (hr | ⟨k, hk, hr⟩) | hr
    · rw [hr] at hline hfrom hto
      exact Or.inl ⟨hline.symm, hfrom, hto⟩
    · rw [← hr] at hline hfrom hto
      simp only at hline hfrom hto
      exact Or.inr (Or.inl ⟨by omega, by omega, hfrom, hto⟩)
    · rw [hr] at hline hfrom hto
      exact Or.inr (Or.inr ⟨hline.symm, hfrom, hto⟩)
  · rintro (⟨h1, h2, h3⟩ | ⟨h1, h2, h3, h4⟩ | ⟨h1, h2, h3⟩)
    · exact ⟨{ line := a.line, fromColumn := a.column, toColumn := (columns : Int) - 1 },
        by simp, h1.symm, h2, h3⟩
    · refine ⟨{ line := a.line + 1 + ((pos.line - a.line - 1).toNat : Int), fromColumn := 0,
                toColumn := (columns : Int) - 1 }, ?_, ?_, h3, h4⟩
      · simp only [List.mem_append, List.mem_singleton, List.mem_map, List.mem_range]
        exact Or.inl (Or.inr ⟨(pos.line - a.line - 1).toNat, by omega, rfl⟩)
      · show a.line + 1 + ((pos.line - a.line - 1).toNat : Int) = pos.line
        omega
    · exact ⟨{ line := h.line, fromColumn := 0, toColumn := h.column },
        by simp, h1.symm, h2, h3⟩

theorem covered_of_same_line (columns : Nat) (a h pos : CellLocation) (hline : a.line = h.line)
    (hcol : a.column ≤ h.column) :
    covered ((create columns a).extend h).1.ranges pos
      ↔ pos.line = a.line ∧ a.column ≤ pos.column ∧ pos.column ≤ h.column := by
  rw [ranges_of_same_line columns a h hline hcol]
  unfold covered
  constructor
  · rintro ⟨r, hr, hl, hfrom, hto⟩
    simp only [List.mem_singleton] at hr
    rw [hr] at hl hfrom hto
    exact ⟨hl.symm, hfrom, hto⟩
  · rintro ⟨h1, h2, h3⟩
    exact ⟨{ line := a.line, fromColumn := a.column, toColumn := h.column },
      by simp, h1.symm, h2, h3⟩

/-- C29: selection monotonicity. For a linear selection with anchor `A` on a
page of `C` columns, if the head is extended to `H`, a cell of the page not
before `A`, and then to `H'` after `H`, every cell covered by `ranges()` after
extending to `H` is also covered by `ranges()` after extending to `H'`. -/
theorem selection_monotone (columns : Nat) (a h h2 : CellLocation)
    (hah : a.notAfter h) (hhh : h.before h2) (hcol : h.column < (columns : Int)) :
    ∀ pos : CellLocation,
      covered ((create columns a).extend h).1.ranges pos →
      covered ((((create columns a).extend h).1.extend h2).1).ranges pos := by
  intro pos hpos
  show covered ((create columns a).extend h2).1.ranges pos
  unfold CellLocation.notAfter at hah
  unfold CellLocation.before at hhh
  rcases hah with hlt | ⟨hline, hle⟩
  · have hlt2 : a.line < h2.line := by omega
    rw [covered_of_lt columns a h pos hlt] at hpos
    rw [covered_of_lt columns a h2 pos hlt2]
    rcases hpos with h1 | h1 | h1
    · exact Or.inl h1
    · exact Or.inr (Or.inl ⟨h1.1, by omega, h1.2.2⟩)
    · rcases hhh with h3 | h3
      · exact Or.inr (Or.inl ⟨by omega, by omega, h1.2.1, by omega⟩)
      · exact Or.inr (Or.inr ⟨by omega, h1.2.1, by omega⟩)
  · rw [covered_of_same_line columns a h pos hline hle] at hpos
    rcases hhh with h3 | h3
    · rw [covered_of_lt columns a h2 pos (by omega)]
      exact Or.inl ⟨hpos.1, hpos.2.1, by omega⟩
    · rw [covered_of_same_line columns a h2 pos (by omega) (by omega)]
      exact ⟨hpos.1, hpos.2.1, by omega⟩

/-- On the page of the test `Selector.Linear`: the cell `(-2, 8)` is selected
when the selection anchored at `(-2, 6)` is extended to `(-2, 9)`, and stays
selected when it is extended further to `(-1, 2)`. -/
theorem selection_monotone_witness :
    covered ((((create 11 { line := -2, column := 6 }).extend { line := -2, column := 9 }).1.extend
      { line := -1, column := 2 }).1).ranges { line := -2, column := 8 } :=
  selection_monotone 11 { line := -2, column := 6 } { line := -2, column := 9 }
    { line := -1, column := 2 } (Or.inr ⟨rfl, by decide⟩) (Or.inl (by decide)) (by decide)
    { line := -2, column := 8 }
    ⟨{ line := -2, fromColumn := 6, toColumn := 9 }, by decide,
      rfl, by decide, by decide⟩

end LinearSelection

end vtbackend

/-! ### Parser: the `PM` string -/

namespace vtparser

open terminal (Unicode ConvertResult ReplacementCharacter decodeText sampleUnicode ascii)

namespace Parser

variable {sigma : Type}

set_option maxRecDepth 100000 in
/-- Test `Parser.PM`: the payload, the check mark of three bytes included, is
recorded between the braces, the text around the string is printed, and the
parser ends in `Ground`. -/
theorem test_Parser_PM :
    ((create sampleUnicode).parseFragment sampleUnicode
        (ascii "ABC" ++ [0x1B, 0x5E] ++ ascii "hello " ++ [0xE2, 0x9C, 0x85] ++ ascii " world"
          ++ [0x1B, 0x5C] ++ ascii "DEF")).state = State.Ground
      ∧ recordedPM ((create sampleUnicode).parseFragment sampleUnicode
        (ascii "ABC" ++ [0x1B, 0x5E] ++ ascii "hello " ++ [0xE2, 0x9C, 0x85] ++ ascii " world"
          ++ [0x1B, 0x5C] ++ ascii "DEF")).events
        = [0x7B] ++ ascii "hello " ++ [0xE2, 0x9C, 0x85] ++ ascii " world" ++ [0x7D]
      ∧ recordedText sampleUnicode ((create sampleUnicode).parseFragment sampleUnicode
        (ascii "ABC" ++ [0x1B, 0x5E] ++ ascii "hello " ++ [0xE2, 0x9C, 0x85] ++ ascii " world"
          ++ [0x1B, 0x5C] ++ ascii "DEF")).events
        = ascii "ABCDEF" := by
  decide

set_option maxRecDepth 100000 in
/-- Test `Parser.APC`. -/
theorem test_Parser_APC :
    ((create sampleUnicode).parseFragment sampleUnicode
        (ascii "ABC" ++ [0x1B, 0x5C, 0x1B, 0x5F] ++ ascii "Gi=1,a=q;" ++ [0x1B, 0x5C]
          ++ ascii "DEF")).state = State.Ground
      ∧ recordedAPC ((create sampleUnicode).parseFragment sampleUnicode
        (ascii "ABC" ++ [0x1B, 0x5C, 0x1B, 0x5F] ++ ascii "Gi=1,a=q;" ++ [0x1B, 0x5C]
          ++ ascii "DEF")).events
        = [0x7B] ++ ascii "Gi=1,a=q;" ++ [0x7D]
      ∧ recordedText sampleUnicode ((create sampleUnicode).parseFragment sampleUnicode
        (ascii "ABC" ++ [0x1B, 0x5C, 0x1B, 0x5F] ++ ascii "Gi=1,a=q;" ++ [0x1B, 0x5C]
          ++ ascii "DEF")).events
        = ascii "ABCDEF" := by
  decide

/-- Test `Parser.utf8_single`: the two bytes of `ö` are printed as one
codepoint. -/
theorem test_Parser_utf8_single :
    recordedText sampleUnicode
        ((create sampleUnicode).parseFragment sampleUnicode [0xC3, 0xB6]).events
      = [0xC3, 0xB6] := by
  decide

theorem parseFragment_append (U : Unicode sigma) (p : Parser sigma) (a b : List Nat) :
    p.parseFragment U (a ++ b) = (p.parseFragment U a).parseFragment U b := by
  simp [parseFragment, List.foldl_append]

theorem parseFragment_cons (U : Unicode sigma) (p : Parser sigma) (byte : Nat)
    (rest : List Nat) :
    p.parseFragment U (byte :: rest) = (p.step U byte).parseFragment U rest := rfl

theorem step_text (U : Unicode sigma) (p : Parser sigma) (byte : Nat)
    (hstate : p.state = State.Ground) (hbyte : 0x20 ≤ byte) :
    p.step U byte = p.printByte U byte := by
  unfold step
  rw [if_neg (by omega), if_neg (by omega), hstate]
  simp only
  rw [if_neg (by omega)]

theorem parseFragment_text (U : Unicode sigma) (text : List Nat) :
    ∀ p : Parser sigma, p.state = State.Ground → (∀ byte ∈ text, 0x20 ≤ byte) →
      p.parseFragment U text
        = { p with
            utf8DecoderState := decoderAfter U p.utf8DecoderState text
            events := p.events ++ (decodeText U p.utf8DecoderState text).map Event.print } := by
  induction text with
  | nil =>
    intro p _ _
    simp [parseFragment, decoderAfter, decodeText]
  | cons byte rest ih =>
    intro p hstate htext
    have hb : 0x20 ≤ byte := htext byte (List.mem_cons_self _ _)
    have hrest : ∀ b ∈ rest, 0x20 ≤ b := fun b hb => htext b (List.mem_cons_of_mem _ hb)
    rw [parseFragment_cons, step_text U p byte hstate hb]
    unfold printByte
    cases hr : (U.from_utf8 p.utf8DecoderState byte).2 with
    | Incomplete =>
      simp only
      rw [ih]
      · simp [decoderAfter, decodeText, hr]
      · exact hstate
      · exact hrest
    | Success value =>
      simp only
      rw [ih]
      · simp [decoderAfter, decodeText, hr]
      · exact hstate
      · exact hrest
    | Invalid =>
      simp only
      rw [ih]
      · simp [decoderAfter, decodeText, hr]
      · exact hstate
      · exact hrest

theorem parseFragment_payload (U : Unicode sigma) (payload : List Nat) :
    ∀ p : Parser sigma, p.state = State.SosPmApcString →
      (∀ byte ∈ payload, byte ≠ 0x18 ∧ byte ≠ 0x1A ∧ byte ≠ 0x1B) →
      p.parseFragment U payload
        = { p with events := p.events ++ payload.flatMap (putEvents p.stringKind) } := by
  induction payload with
  | nil =>
    intro p _ _
    simp [parseFragment]
  | cons byte rest ih =>
    intro p hstate hp
    obtain ⟨h1, h2, h3⟩ := hp byte (List.mem_cons_self _ _)
    have hrest : ∀ b ∈ rest, b ≠ 0x18 ∧ b ≠ 0x1A ∧ b ≠ 0x1B :=
      fun b hb => hp b (List.mem_cons_of_mem _ hb)
    have hstep : p.step U byte
        = { p with events := p.events ++ putEvents p.stringKind byte } := by
      unfold step
      rw [if_neg (by omega), if_neg h3, hstate]
    rw [parseFragment_cons, hstep, ih]
    · simp [List.flatMap_cons, List.append_assoc]
    · exact hstate
    · exact hrest

theorem flatMap_putEvents_PM (payload : List Nat) :
    payload.flatMap (putEvents StringKind.PM) = payload.map Event.putPM := by
  induction payload with
  | nil => rfl
  | cons byte rest ih => simp [List.flatMap_cons, putEvents, ih]

theorem parseFragment_PM (U : Unicode sigma) (p : Parser sigma) (payload : List Nat)
    (hstate : p.state = State.Ground)
    (hpayload : ∀ byte ∈ payload, byte ≠ 0x18 ∧ byte ≠ 0x1A ∧ byte ≠ 0x1B) :
    p.parseFragment U ([0x1B, 0x5E] ++ payload ++ [0x1B, 0x5C])
      = { p with
          state := State.Ground
          stringKind := StringKind.PM
          privateMarker := none
          params := []
          intermediates := []
          events := p.events ++ [Event.startPM] ++ payload.map Event.putPM
            ++ [Event.dispatchPM, Event.escDispatch [] 0x5C] } := by
  have h1 : p.parseFragment U [0x1B, 0x5E]
      = { p with
          state := State.SosPmApcString
          stringKind := StringKind.PM
          privateMarker := none
          params := []
          intermediates := []
          events := p.events ++ [Event.startPM] } := by
    simp [parseFragment, step, leaveTo, clear, enterString, exitEvents, hstate, startEvents]
  rw [parseFragment_append, parseFragment_append, h1,
    parseFragment_payload U payload _ rfl hpayload, flatMap_putEvents_PM]
  simp [parseFragment, step, leaveTo, clear, exitEvents, dispatchEvents]

theorem printedCodepoints_append (a b : List Event) :
    printedCodepoints (a ++ b) = printedCodepoints a ++ printedCodepoints b := by
  simp [printedCodepoints, List.filterMap_append]

theorem printedCodepoints_print (codepoints : List Nat) :
    printedCodepoints (codepoints.map Event.print) = codepoints := by
  induction codepoints with
  | nil => rfl
  | cons c rest ih =>
    simp only [printedCodepoints, List.map_cons, List.filterMap_cons] at ih ⊢
    rw [ih]

theorem printedCodepoints_putPM (payload : List Nat) :
    printedCodepoints (payload.map Event.putPM) = [] := by
  induction payload with
  | nil => rfl
  | cons c rest ih =>
    simp only [printedCodepoints, List.map_cons, List.filterMap_cons] at ih ⊢
    rw [ih]

theorem recordedPM_append (a b : List Event) :
    recordedPM (a ++ b) = recordedPM a ++ recordedPM b := by
  simp [recordedPM, List.flatMap_append]

theorem recordedPM_print (codepoints : List Nat) :
    recordedPM (codepoints.map Event.print) = [] := by
  induction codepoints with
  | nil => rfl
  | cons c rest ih =>
    simp only [recordedPM, List.map_cons, List.flatMap_cons] at ih ⊢
    rw [ih]
    rfl

theorem recordedPM_putPM (payload : List Nat) :
    recordedPM (payload.map Event.putPM) = payload := by
  induction payload with
  | nil => rfl
  | cons c rest ih =>
    simp only [recordedPM, List.map_cons, List.flatMap_cons] at ih ⊢
    rw [ih]
    rfl

/-- C27: starting in `Ground` state, feeding the parser `ESC ^`, payload bytes
(any bytes but `ESC` and the cancelling controls `CAN` and `SUB`, so the bytes
of multi-byte UTF-8 characters included) and the terminator `ESC \` emits
`startPM`, then `putPM` once per payload byte, in input order and unchanged,
then `dispatchPM`, followed only by the dispatch of the terminator as the
escape sequence `ESC \`; the parser ends in `Ground` state. No `print` event is
emitted for the payload, and text before and after the sequence is printed in
order: the `print` events before `startPM` are those of the text before, the
ones after the terminator those of the text after. -/
theorem parse_PM (U : Unicode sigma) (p : Parser sigma) (before payload after : List Nat)
    (hstate : p.state = State.Ground)
    (hbefore : ∀ byte ∈ before, 0x20 ≤ byte)
    (hpayload : ∀ byte ∈ payload, byte ≠ 0x18 ∧ byte ≠ 0x1A ∧ byte ≠ 0x1B)
    (hafter : ∀ byte ∈ after, 0x20 ≤ byte) :
    (p.parseFragment U (before ++ [0x1B, 0x5E] ++ payload ++ [0x1B, 0x5C] ++ after)).state
        = State.Ground
      ∧ (p.parseFragment U (before ++ [0x1B, 0x5E] ++ payload ++ [0x1B, 0x5C] ++ after)).events
        = p.events ++ (decodeText U p.utf8DecoderState before).map Event.print
          ++ [Event.startPM] ++ payload.map Event.putPM
          ++ [Event.dispatchPM, Event.escDispatch [] 0x5C]
          ++ (decodeText U (decoderAfter U p.utf8DecoderState before) after).map Event.print
      ∧ printedCodepoints
          (p.parseFragment U (before ++ [0x1B, 0x5E] ++ payload ++ [0x1B, 0x5C] ++ after)).events
        = printedCodepoints p.events ++ decodeText U p.utf8DecoderState before
          ++ decodeText U (decoderAfter U p.utf8DecoderState before) after
      ∧ recordedPM
          (p.parseFragment U (before ++ [0x1B, 0x5E] ++ payload ++ [0x1B, 0x5C] ++ after)).events
        = recordedPM p.events ++ [0x7B] ++ payload ++ [0x7D] := by
  have hsplit : before ++ [0x1B, 0x5E] ++ payload ++ [0x1B, 0x5C] ++ after
      = before ++ (([0x1B, 0x5E] ++ payload ++ [0x1B, 0x5C]) ++ after) := by
    simp only [List.append_assoc]
  have hevents :
      p.parseFragment U (before ++ [0x1B, 0x5E] ++ payload ++ [0x1B, 0x5C] ++ after)
        = { p with
            state := State.Ground
            stringKind := StringKind.PM
            privateMarker := none
            params := []
            intermediates := []
            utf8DecoderState :=
              decoderAfter U (decoderAfter U p.utf8DecoderState before) after
            events := p.events ++ (decodeText U p.utf8DecoderState before).map Event.print
              ++ [Event.startPM] ++ payload.map Event.putPM
              ++ [Event.dispatchPM, Event.escDispatch [] 0x5C]
              ++ (decodeText U (decoderAfter U p.utf8DecoderState before) after).map
                  Event.print } := by
    rw [hsplit, parseFragment_append, parseFragment_append,
      parseFragment_text U before p hstate hbefore, parseFragment_PM,
      parseFragment_text U after _ rfl hafter]
    · exact hstate
    · exact hpayload
  rw [hevents]
  refine ⟨rfl, rfl, ?_, ?_⟩
  · simp only [printedCodepoints_append, printedCodepoints_print, printedCodepoints_putPM]
    simp [printedCodepoints]
  · simp only [recordedPM_append, recordedPM_print, recordedPM_putPM]
    simp [recordedPM]


/-- The payload of the test `Parser.PM`, the three bytes of the check mark
included, under the sample decoder: the parser ends in `Ground`. -/
theorem parse_PM_witness :
    ((create sampleUnicode).parseFragment sampleUnicode
        (ascii "ABC" ++ [0x1B, 0x5E] ++ (ascii "hello " ++ [0xE2, 0x9C, 0x85] ++ ascii " world")
          ++ [0x1B, 0x5C] ++ ascii "DEF")).state = State.Ground :=
  (parse_PM sampleUnicode (create sampleUnicode) (ascii "ABC")
    (ascii "hello " ++ [0xE2, 0x9C, 0x85] ++ ascii " world") (ascii "DEF") rfl
    (by decide) (by decide) (by decide)).1

end Parser

end vtparser

/-! ### `ImageSize` -/

namespace vtpty

namespace ImageSize

theorem lt_iff (a b : ImageSize) :
    lt a b = true ↔ a.width < b.width ∨ (a.width = b.width ∧ a.height < b.height) := by
  simp [lt]

theorem eq_iff (a b : ImageSize) : eq a b = true ↔ a = b := by
  cases a
  cases b
  simp [eq]

/-- C35: `operator<` on `ImageSize` is the strict lexicographic order on
`(width, height)`, and a strict total order consistent with `operator==`: it is
irreflexive and transitive, and for all `a`, `b` exactly one of `a < b`,
`a == b`, `b < a` holds; `a == b` holds exactly when both fields agree. -/
theorem lt_strict_total_order :
    (∀ a b : ImageSize, lt a b = true
        ↔ Prod.Lex (· < ·) (· < ·) (a.width, a.height) (b.width, b.height))
      ∧ (∀ a : ImageSize, lt a a = false)
      ∧ (∀ a b c : ImageSize, lt a b = true → lt b c = true → lt a c = true)
      ∧ (∀ a b : ImageSize,
          (lt a b = true ∧ eq a b = false ∧ lt b a = false)
            ∨ (lt a b = false ∧ eq a b = true ∧ lt b a = false)
            ∨ (lt a b = false ∧ eq a b = false ∧ lt b a = true))
      ∧ (∀ a b : ImageSize, eq a b = true ↔ a = b) := by
  refine ⟨?_, ?_, ?_, ?_, eq_iff⟩
  · intro a b
    rw [lt_iff, Prod.lex_def]
  · intro a
    rw [← Bool.not_eq_true, lt_iff]
    omega
  · intro a b c hab hbc
    rw [lt_iff] at hab hbc ⊢
    omega
  · intro a b
    have hab : lt a b = false
        ↔ ¬ (a.width < b.width ∨ (a.width = b.width ∧ a.height < b.height)) := by
      rw [← Bool.not_eq_true, lt_iff]
    have hba : lt b a = false
        ↔ ¬ (b.width < a.width ∨ (b.width = a.width ∧ b.height < a.height)) := by
      rw [← Bool.not_eq_true, lt_iff]
    have he : eq a b = false ↔ ¬ (a.width = b.width ∧ a.height = b.height) := by
      rw [← Bool.not_eq_true, eq_iff]
      cases a
      cases b
      simp
    have he2 : eq a b = true ↔ a.width = b.width ∧ a.height = b.height := by
      rw [eq_iff]
      cases a
      cases b
      simp
    rw [hab, hba, he, he2, lt_iff, lt_iff]
    omega

/-- The sizes `1 x 2`, `1 x 3` and `2 x 0` are in ascending order, and so the
first is below the third. -/
theorem lt_strict_total_order_witness :
    lt { width := 1, height := 2 } { width := 2, height := 0 } = true :=
  lt_strict_total_order.2.2.1 { width := 1, height := 2 } { width := 1, height := 3 }
    { width := 2, height := 0 } (by decide) (by decide)

/-- C36: `ImageSize::area()` is the exact product `width * height` for all
32-bit unsigned `width` and `height`, when `size_t` has (at least) 64 bits: the
factors are converted to `size_t` unchanged, and their product, at most
`(2^32 - 1)^2`, is below `2^64`, so the multiplication does not wrap around. -/
theorem area_exact (sizeBits : Nat) (a : ImageSize) (hbits : 64 ≤ sizeBits)
    (hw : a.width < 2 ^ 32) (hh : a.height < 2 ^ 32) :
    area sizeBits a = a.width * a.height
      ∧ a.width * a.height ≤ (2 ^ 32 - 1) ^ 2
      ∧ (2 ^ 32 - 1) ^ 2 < 2 ^ 64 := by
  have hpow : 2 ^ 64 ≤ 2 ^ sizeBits := Nat.pow_le_pow_right (by decide) hbits
  have hprod : a.width * a.height ≤ (2 ^ 32 - 1) * (2 ^ 32 - 1) :=
    Nat.mul_le_mul (by omega) (by omega)
  have hsq : (2 ^ 32 - 1) ^ 2 = (2 ^ 32 - 1) * (2 ^ 32 - 1) := by norm_num
  have hlt : (2 ^ 32 - 1) * (2 ^ 32 - 1) < 2 ^ 64 := by norm_num
  refine ⟨?_, by rw [hsq]; exact hprod, by rw [hsq]; exact hlt⟩
  unfold area unboxSize
  rw [Nat.mod_eq_of_lt (show a.width < 2 ^ sizeBits by omega),
    Nat.mod_eq_of_lt (show a.height < 2 ^ sizeBits by omega),
    Nat.mod_eq_of_lt (show a.width * a.height < 2 ^ sizeBits by omega)]

/-- The largest image, `2^32 - 1` pixels wide and high, with a `size_t` of 64
bits. -/
theorem area_exact_witness :
    area 64 { width := 4294967295, height := 4294967295 } = 4294967295 * 4294967295 :=
  (area_exact 64 { width := 4294967295, height := 4294967295 } (le_refl 64)
    (by norm_num) (by norm_num)).1

/-- With a `size_t` of 32 bits the product wraps around: the area of an image of
`65536 x 65536` pixels comes out as 0. -/
theorem area_wraps_with_32_bits :
    area 32 { width := 65536, height := 65536 } = 0 := by
  decide

end ImageSize

end vtpty

/-! ### The fontconfig font locator -/

namespace text

theorem findByFirst_isSome {α : Type} [DecidableEq α] (table : List (α × Int)) (key : α)
    (h : key ∈ table.map Prod.fst) : ∃ value, findByFirst table key = some value := by
  induction table with
  | nil => simp at h
  | cons mapping rest ih =>
    simp only [findByFirst]
    by_cases hk : mapping.1 = key
    · exact ⟨mapping.2, by rw [if_pos hk]⟩
    · rw [if_neg hk]
      apply ih
      simp only [List.map_cons, List.mem_cons] at h
      rcases h with h | h
      · exact absurd h.symm hk
      · exact h

theorem find_roundtrip {α : Type} [DecidableEq α] (table : List (α × Int))
    (hfirst : (table.map Prod.fst).Nodup) (hsecond : (table.map Prod.snd).Nodup) :
    ∀ key value, (key, value) ∈ table →
      findByFirst table key = some value ∧ findBySecond table value = some key := by
  induction table with
  | nil => intro key value h; simp at h
  | cons mapping rest ih =>
    intro key value h
    simp only [List.map_cons, List.nodup_cons] at hfirst hsecond
    simp only [findByFirst, findBySecond]
    rcases List.mem_cons.mp h with h | h
    · rw [← h]
      simp
    · have h1 : mapping.1 ≠ key := by
        intro heq
        apply hfirst.1
        rw [heq]
        exact List.mem_map.mpr ⟨(key, value), h, rfl⟩
      have h2 : mapping.2 ≠ value := by
        intro heq
        apply hsecond.1
        rw [heq]
        exact List.mem_map.mpr ⟨(key, value), h, rfl⟩
      rw [if_neg h1, if_neg h2]
      exact ih hfirst.2 hsecond.2 key value h

theorem findByFirst_mem {α : Type} [DecidableEq α] (table : List (α × Int)) (key : α)
    (value : Int) (h : findByFirst table key = some value) : (key, value) ∈ table := by
  induction table with
  | nil => simp [findByFirst] at h
  | cons mapping rest ih =>
    simp only [findByFirst] at h
    by_cases hk : mapping.1 = key
    · rw [if_pos hk] at h
      have hv : mapping.2 = value := Option.some.inj h
      rw [← hk, ← hv]
      exact List.mem_cons_self _ _
    · rw [if_neg hk] at h
      exact List.mem_cons_of_mem _ (ih h)

theorem findBySecond_mem {α : Type} (table : List (α × Int)) (key : α)
    (value : Int) (h : findBySecond table value = some key) : (key, value) ∈ table := by
  induction table with
  | nil => simp [findBySecond] at h
  | cons mapping rest ih =>
    simp only [findBySecond] at h
    by_cases hk : mapping.2 = value
    · rw [if_pos hk] at h
      have hv : mapping.1 = key := Option.some.inj h
      rw [← hk, ← hv]
      exact List.mem_cons_self _ _
    · rw [if_neg hk] at h
      exact List.mem_cons_of_mem _ (ih h)

theorem findBySecond_none {α : Type} (table : List (α × Int)) (value : Int)
    (h : value ∉ table.map Prod.snd) : findBySecond table value = none := by
  induction table with
  | nil => rfl
  | cons mapping rest ih =>
    simp only [List.map_cons, List.mem_cons, not_or] at h
    simp only [findBySecond]
    rw [if_neg (fun heq => h.1 heq.symm)]
    exact ih h.2

theorem fontWeightMappings_first (K : FontconfigConstants) :
    ((FontWeightMappings K).map Prod.fst).Nodup
      ∧ ∀ weight : font_weight, weight ∈ (FontWeightMappings K).map Prod.fst := by
  constructor
  · simp only [FontWeightMappings, List.map_cons, List.map_nil]
    decide
  · intro weight
    simp only [FontWeightMappings, List.map_cons, List.map_nil]
    cases weight <;> decide

theorem fcWeight_isSome (K : FontconfigConstants) (weight : font_weight) :
    ∃ value, fcWeight K weight = some value :=
  findByFirst_isSome _ _ ((fontWeightMappings_first K).2 weight)

/-- C37: the font-weight table is a bijection between its twelve `font_weight`
values and their fontconfig constants, given that the twelve constants of
`fontconfig/fontconfig.h` are pairwise different: for every `font_weight` `w`,
`fcWeight(w)` returns the constant the table pairs with `w`, never reaching its
fatal branch, and `fcToFontWeight` of that constant is `w`; no two weights share
a constant; `fcToFontWeight` returns `nullopt` for every integer that is not in
the table, and a weight only for the constant of that weight. -/
theorem fontWeight_bijection (K : FontconfigConstants)
    (hdistinct : ((FontWeightMappings K).map Prod.snd).Nodup) :
    (FontWeightMappings K).length = 12
      ∧ (∀ w : font_weight, ∃ value, fcWeight K w = some value
          ∧ (w, value) ∈ FontWeightMappings K
          ∧ fcToFontWeight K value = some w)
      ∧ (∀ w1 w2 : font_weight, fcWeight K w1 = fcWeight K w2 → w1 = w2)
      ∧ (∀ value : Int, value ∉ (FontWeightMappings K).map Prod.snd →
          fcToFontWeight K value = none)
      ∧ (∀ (value : Int) (w : font_weight), fcToFontWeight K value = some w →
          fcWeight K w = some value) := by
  have hfirst := (fontWeightMappings_first K).1
  have hround := find_roundtrip (FontWeightMappings K) hfirst hdistinct
  have hall : ∀ w : font_weight, ∃ value, fcWeight K w = some value
      ∧ (w, value) ∈ FontWeightMappings K ∧ fcToFontWeight K value = some w := by
    intro w
    obtain ⟨value, hv⟩ := fcWeight_isSome K w
    have hmem := findByFirst_mem _ _ _ hv
    exact ⟨value, hv, hmem, (hround w value hmem).2⟩
  refine ⟨rfl, hall, ?_, ?_, ?_⟩
  · intro w1 w2 h
    obtain ⟨v1, h1, _, hb1⟩ := hall w1
    obtain ⟨v2, h2, _, hb2⟩ := hall w2
    rw [h1, h2] at h
    have hv : v1 = v2 := Option.some.inj h
    rw [hv, hb2] at hb1
    exact (Option.some.inj hb1).symm
  · intro value hvalue
    exact findBySecond_none _ _ hvalue
  · intro value w h
    exact (hround w value (findBySecond_mem _ _ _ h)).1

/-- With the values of `fontconfig/fontconfig.h`, which are pairwise different:
`fcWeight(bold)` is a constant that `fcToFontWeight` maps back to `bold`. -/
theorem fontWeight_bijection_witness :
    ∃ value, fcWeight fontconfigValues font_weight.bold = some value
      ∧ (font_weight.bold, value) ∈ FontWeightMappings fontconfigValues
      ∧ fcToFontWeight fontconfigValues value = some font_weight.bold :=
  (fontWeight_bijection fontconfigValues (by decide)).2.1 font_weight.bold

theorem locateLoop_no_fallback (K : FontconfigConstants) (description : font_description)
    (hnone : description.fontFallback = font_fallback.font_fallback_none)
    (fonts : List FcPattern) :
    ∀ (i : Nat) (output : font_source_list), 0 < i →
      locateLoop K description i fonts output = some output := by
  induction fonts with
  | nil => intro i output _; rfl
  | cons font rest ih =>
    intro i output hi
    unfold locateLoop
    cases hfile : font.file with
    | none => exact ih (i + 1) output (by omega)
    | some file =>
      simp only
      rw [if_pos ⟨hi, hnone⟩]

/-- C32: when the description requests no fallback (`font_fallback_none`),
`locate` takes only the first font of the sorted chain: it returns, and its
result is empty when `FcFontSort` gives no match or an empty font set, and when
the font at index 0 has no file entry or is skipped by the strict-spacing
test, whatever the later fonts are; otherwise it is the single font source
built from the font at index 0. -/
theorem locate_no_fallback (K : FontconfigConstants) (description : font_description)
    (hnone : description.fontFallback = font_fallback.font_fallback_none) :
    locate K description none = some []
      ∧ locate K description (some []) = some []
      ∧ (∀ (first : FcPattern) (rest : List FcPattern),
          locate K description (some (first :: rest))
            = some (match first.file with
                | none => []
                | some file =>
                  if skippedBySpacing K description first then []
                  else [fontSource K first file]))
      ∧ (∀ fonts : List FcPattern, ∃ result, locate K description (some fonts) = some result
          ∧ result.length ≤ 1) := by
  have hfatal : ¬ (description.weight ≠ font_weight.normal
      ∧ fcWeight K description.weight = none) := by
    intro h
    obtain ⟨value, hv⟩ := fcWeight_isSome K description.weight
    rw [hv] at h
    exact absurd h.2 (by simp)
  have hfirst : ∀ (first : FcPattern) (rest : List FcPattern),
      locate K description (some (first :: rest))
        = some (match first.file with
            | none => []
            | some file =>
              if skippedBySpacing K description first then []
              else [fontSource K first file]) := by
    intro first rest
    unfold locate
    rw [if_neg hfatal]
    simp only
    unfold locateLoop
    cases hfile : first.file with
    | none =>
      simp only
      exact locateLoop_no_fallback K description hnone rest 1 [] (by omega)
    | some file =>
      simp only
      rw [if_neg (by omega)]
      simp only [lt_irrefl, if_false]
      by_cases hskip : skippedBySpacing K description first = true
      · rw [if_pos hskip, if_pos hskip]
        exact locateLoop_no_fallback K description hnone rest 1 [] (by omega)
      · rw [if_neg hskip, if_neg hskip]
        exact locateLoop_no_fallback K description hnone rest 1 _ (by omega)
  refine ⟨?_, ?_, hfirst, ?_⟩
  · unfold locate
    rw [if_neg hfatal]
  · unfold locate
    rw [if_neg hfatal]
    rfl
  · intro fonts
    cases fonts with
    | nil =>
      refine ⟨[], ?_, by simp⟩
      unfold locate
      rw [if_neg hfatal]
      rfl
    | cons first rest =>
      refine ⟨_, hfirst first rest, ?_⟩
      cases first.file with
      | none => simp
      | some file =>
        simp only
        split <;> simp

/-- A font set whose first font, a proportional one, is rejected by the
strict-spacing test and whose second font would be accepted: with no fallback
the result is empty. -/
theorem locate_no_fallback_witness :
    locate fontconfigValues sampleDescription (some [sampleProportionalFont, sampleMonoFont])
      = some [] :=
  (locate_no_fallback fontconfigValues sampleDescription rfl).2.2.1
    sampleProportionalFont [sampleMonoFont]

/-- The same two fonts in the other order: the result is the single source of
the monospace font, with the weight `bold` that the constant 200 stands for. -/
theorem test_locate_first_font :
    locate fontconfigValues sampleDescription (some [sampleMonoFont, sampleProportionalFont])
      = some [{ value := terminal.ascii "/fonts/mono.ttf", collectionIndex := 0,
                weight := some font_weight.bold, slant := some font_slant.normal }] := by
  decide

end text
